import Mathlib

/-!
# olfs: a shallow embedding of the storage engine

The disk image is four regions (inode bitmap, data bitmap, inode table, data region) plus the
superblock.  Each region is modelled as its own total map:

* the two bitmaps are byte arrays indexed from 0;
* the inode table maps an inode index to an inode record; an `inode*` of the source is the
  index of the record it points to (`__get_inode_from_ino ino` is `ino`);
* the data region is one flat byte memory, addressed relative to `dptr`; data block `dno`
  occupies addresses `dno * 4096 .. dno * 4096 + 4095`, so a copy that runs past the end of a
  block lands in the physically next block, as in the source.

An index below 0 addresses image bytes in front of the region.  The model keeps such cells as
cells of their own and does not track that they overlap the neighbouring region.

`none` means the process dies: a failed `assert` or a NULL dereference.  Where the doc
comment of a definition says so, `none` also stands for a run that leaves what the model
covers (an index outside an array).

Sizes and offsets (`size_t`, `off_t`) are natural numbers.  The source converts an offset to
`int` before it divides; the model divides the offset itself, which is the same up to
`INT_MAX`.

C strings (paths, names) are lists of non-zero bytes.  `int` fields are `Int`; integers stored
inside data blocks (directory entries, indirect pointers) are four bytes, little-endian,
two's complement.  `time(NULL)`, `getuid()` and `getgid()` are parameters.
-/

namespace Olfs

/-! ## Constants -/

abbrev BLOCK_SIZE : Nat := 4096
abbrev BLOCKS_NUM : Nat := 3
abbrev ONE_MB : Nat := 1024 * 1024
abbrev ENOENT : Int := 2
abbrev EEXIST : Int := 17
abbrev ENOTEMPTY : Int := 39
abbrev DIRECTORY_MODE : Int := 0o040755
abbrev FILE_MODE : Int := 0o100644
abbrev SYMLINK_MODE : Int := 0o120777
/-- The value of `sizeof(superblock)` on LP64: two `ptrdiff_t`, an `int` and padding, two
`ptrdiff_t`, two `int`. -/
abbrev SIZEOF_SUPERBLOCK : Nat := 48
/-- The value of `sizeof(inode)`: fourteen `int` fields. -/
abbrev SIZEOF_INODE : Nat := 56
/-- The value of `sizeof(dentry)`: 48 name bytes, an `int`, 12 reserved bytes. -/
abbrev SIZEOF_DENTRY : Nat := 64
/-- The constant `DENTRY_COUNT` of directory.c: `BLOCK_SIZE / sizeof(dentry)`. -/
abbrev DENTRY_COUNT : Nat := BLOCK_SIZE / SIZEOF_DENTRY

/-- A C string given by an ASCII literal. -/
def str (s : String) : List Nat := s.data.map Char.toNat

/-! ## Data model -/

structure superblock where
  imap : Int
  iptr : Int
  inum : Int
  dmap : Int
  dptr : Int
  dnum : Int
  root_ino : Int
deriving DecidableEq

structure inode where
  ino : Int
  mode : Int
  size : Int
  uid : Int
  gid : Int
  atime : Int
  ctime : Int
  mtime : Int
  nlink : Int
  dnum : Int
  dptrs0 : Int
  dptrs1 : Int
  dptrs2 : Int
  indirect_dptr : Int
deriving DecidableEq

/-- The element `dptrs[ii]` of the three direct pointers (every access in the source has
`ii < BLOCKS_NUM`). -/
def inode.dptrs (n : inode) (ii : Nat) : Int :=
  match ii with
  | 0 => n.dptrs0
  | 1 => n.dptrs1
  | _ => n.dptrs2

/-- The assignment `dptrs[ii] = v`. -/
def inode.set_dptrs (n : inode) (ii : Nat) (v : Int) : inode :=
  match ii with
  | 0 => { n with dptrs0 := v }
  | 1 => { n with dptrs1 := v }
  | _ => { n with dptrs2 := v }

/-- Byte memory of the data region, addressed relative to `dptr`. -/
abbrev Mem := Int → Nat

structure Disk where
  sblock : superblock
  root_ino : Int
  imap : Nat → Nat
  dmap : Nat → Nat
  iptr : Int → inode
  dptr : Mem

/-- Replaces the inode record at index `i`. -/
def Disk.set_inode (d : Disk) (i : Int) (n : inode) : Disk :=
  { d with iptr := fun j => if j = i then n else d.iptr j }

/-- Sequencing of steps that may kill the process. -/
@[noinline] def and_then {α β : Type} (x : Option α) (k : α → Option β) : Option β :=
  match x with
  | none => none
  | some a => k a

/-- The conversion of an integer value to `int`: its low 32 bits, two's complement. -/
def to_int (x : Int) : Int := (x + 2147483648) % 4294967296 - 2147483648

/-! ## Memory primitives -/

/-- Reads the `int` stored at address `a`. -/
def get_int (m : Mem) (a : Int) : Int :=
  let u := m a + 256 * m (a + 1) + 65536 * m (a + 2) + 16777216 * m (a + 3)
  if u < 2147483648 then (u : Int) else (u : Int) - 4294967296

/-- Stores the `int` `v` at address `a`. -/
def put_int (m : Mem) (a : Int) (v : Int) : Mem :=
  fun x =>
    if x = a then (v % 4294967296).toNat % 256
    else if x = a + 1 then (v % 4294967296).toNat / 256 % 256
    else if x = a + 2 then (v % 4294967296).toNat / 65536 % 256
    else if x = a + 3 then (v % 4294967296).toNat / 16777216 % 256
    else m x

/-- The library call `memcpy(dst, src + soff, n)` into the data region. -/
def memcpy_to (m : Mem) (dst : Int) (src : Nat → Nat) (soff n : Nat) : Mem :=
  fun x => if dst ≤ x ∧ x < dst + n then src (soff + (x - dst).toNat) else m x

/-- The library call `memcpy(buf + boff, src, n)` out of the data region. -/
def memcpy_from (buf : Nat → Nat) (boff : Nat) (m : Mem) (src : Int) (n : Nat) : Nat → Nat :=
  fun k => if boff ≤ k ∧ k < boff + n then m (src + ((k - boff : Nat) : Int)) else buf k

/-- The library call `strcpy(dst, s)`: the bytes of `s`, then NUL. -/
def strcpy_to (m : Mem) (dst : Int) (s : List Nat) : Mem :=
  fun x =>
    if dst ≤ x ∧ x < dst + s.length then s.getD (x - dst).toNat 0
    else if x = dst + s.length then 0
    else m x

/-- The test `strcmp(a, s) == 0` for the string stored at address `a`. -/
def streq_mem (m : Mem) (a : Int) : List Nat → Bool
  | [] => m a == 0
  | c :: cs => m a == c && streq_mem m (a + 1) cs

/-- The length `strlen(a)` of the string stored at `a`, looking at no more than `n` bytes. -/
def strnlen_mem (m : Mem) (a : Int) : Nat → Nat
  | 0 => 0
  | n + 1 => if m a = 0 then 0 else strnlen_mem m (a + 1) n + 1

/-- The library call `strncpy(buf, src, n)` out of the data region: the string at `src`, cut
to `n` bytes, then NUL bytes up to `n`. -/
def strncpy_from (buf : Nat → Nat) (m : Mem) (src : Int) (n : Nat) : Nat → Nat :=
  fun k => if k < n then (if k < strnlen_mem m src n then m (src + (k : Int)) else 0) else buf k

/-- Address of data block `dno`: `disk_get_dblock`. -/
def disk_get_dblock (dno : Int) : Int := dno * BLOCK_SIZE

/-! ## bmap.c -/

/-- Source `bmap_get`: the bit at `pos`. -/
def bmap_get (bmap : Nat → Nat) (pos : Nat) : Nat :=
  (bmap (pos / 8) >>> (pos % 8)) &&& 1

/-- Source `bmap_put`: stores the lowest bit of `val` at `pos`. -/
def bmap_put (bmap : Nat → Nat) (pos : Nat) (val : Nat) : Nat → Nat :=
  fun w =>
    if w = pos / 8 then
      ((bmap (pos / 8) % 256) &&& (255 ^^^ (1 <<< (pos % 8)))) ||| ((val &&& 1) <<< (pos % 8))
    else bmap w

/-- Source `bmap_isfree`. -/
def bmap_isfree (bmap : Nat → Nat) (pos : Nat) : Bool := bmap_get bmap pos == 0

/-- Source `bmap_set`. -/
def bmap_set (bmap : Nat → Nat) (pos : Nat) : Nat → Nat := bmap_put bmap pos 1

/-- Source `bmap_free`; `assert(pos >= 0)` is the `none` case. -/
def bmap_free (bmap : Nat → Nat) (pos : Int) : Option (Nat → Nat) :=
  if 0 ≤ pos then some (bmap_put bmap pos.toNat 0) else none

/-- The loop of `bmap_init`, `n` iterations from `ii`. -/
def bmap_init_loop (bmap : Nat → Nat) : Nat → Nat → Nat → Nat
  | 0, _ => bmap
  | n + 1, ii => bmap_init_loop (bmap_put bmap ii 0) n (ii + 1)

/-- Source `bmap_init`; `assert(size > 0)` is the `none` case. -/
def bmap_init (bmap : Nat → Nat) (size : Int) : Option (Nat → Nat) :=
  if 0 < size then some (bmap_init_loop bmap size.toNat 0) else none

/-! ## utils.c -/

/-- Source `div_up` on `size_t` (64 bits); `assert(bb != 0)` is the `none` case. -/
def div_up (aa bb : Nat) : Option Nat :=
  if bb = 0 then none
  else some (((aa + 18446744073709551615) % 18446744073709551616 / bb + 1) % 18446744073709551616)

/-! ## directory.c -/

/-- Address of `entries[ii]` in the first block of directory inode `dir`. -/
def dentry_addr (d : Disk) (dir : Int) (ii : Nat) : Int :=
  disk_get_dblock (d.iptr dir).dptrs0 + (ii : Int) * SIZEOF_DENTRY

/-- The loop of `dir_init` that clears the entries from `ii` on (`n` iterations). -/
def dir_init_loop (base : Int) (m : Mem) : Nat → Nat → Mem
  | 0, _ => m
  | n + 1, ii => dir_init_loop base (put_int m (base + (ii : Int) * SIZEOF_DENTRY + 48) (-1)) n (ii + 1)

/-- Source `dir_init`. -/
def dir_init (d : Disk) (dir : Int) (parent_ino : Int) : Option Disk :=
  if 0 ≤ parent_ino then
    let base := disk_get_dblock (d.iptr dir).dptrs0
    let m1 := strcpy_to d.dptr base (str "..")
    let m2 := put_int m1 (base + 48) parent_ino
    some { d with dptr := dir_init_loop base m2 (DENTRY_COUNT - 1) 1 }
  else none

/-- Source `is_dir`: `S_ISDIR(node->mode)`. -/
def is_dir (node : inode) : Bool := node.mode / 4096 % 16 == 4

/-- The loop of `dir_get_ino`, `n` iterations from `ii`. -/
def dir_get_ino_loop (m : Mem) (base : Int) (iname : List Nat) : Nat → Nat → Int
  | 0, _ => -1
  | n + 1, ii =>
    if streq_mem m (base + (ii : Int) * SIZEOF_DENTRY) iname then
      get_int m (base + (ii : Int) * SIZEOF_DENTRY + 48)
    else dir_get_ino_loop m base iname n (ii + 1)

/-- Source `dir_get_ino`. -/
def dir_get_ino (d : Disk) (dir : Int) (iname : List Nat) : Int :=
  dir_get_ino_loop d.dptr (disk_get_dblock (d.iptr dir).dptrs0) iname DENTRY_COUNT 0

/-- The loop of `dir_add_inode`, `n` iterations from `ii`. -/
def dir_add_inode_loop (m : Mem) (base : Int) (ino : Int) (iname : List Nat) : Nat → Nat → Mem
  | 0, _ => m
  | n + 1, ii =>
    if get_int m (base + (ii : Int) * SIZEOF_DENTRY + 48) = -1 then
      put_int (strcpy_to m (base + (ii : Int) * SIZEOF_DENTRY) iname)
        (base + (ii : Int) * SIZEOF_DENTRY + 48) ino
    else dir_add_inode_loop m base ino iname n (ii + 1)

/-- Source `dir_add_inode`. -/
def dir_add_inode (d : Disk) (dir : Int) (ino : Int) (iname : List Nat) : Option Disk :=
  if 0 ≤ ino then
    let base := disk_get_dblock (d.iptr dir).dptrs0
    some { d with dptr := dir_add_inode_loop d.dptr base ino iname DENTRY_COUNT 0 }
  else none

/-- The loop of `dir_delete_inode`, `n` iterations from `ii`. -/
def dir_delete_inode_loop (m : Mem) (base : Int) (ino : Int) : Nat → Nat → Mem
  | 0, _ => m
  | n + 1, ii =>
    if get_int m (base + (ii : Int) * SIZEOF_DENTRY + 48) = ino then
      put_int m (base + (ii : Int) * SIZEOF_DENTRY + 48) (-1)
    else dir_delete_inode_loop m base ino n (ii + 1)

/-- Source `dir_delete_inode`. -/
def dir_delete_inode (d : Disk) (dir : Int) (ino : Int) : Option Disk :=
  if 0 ≤ ino then
    let base := disk_get_dblock (d.iptr dir).dptrs0
    some { d with dptr := dir_delete_inode_loop d.dptr base ino DENTRY_COUNT 0 }
  else none

/-! ## disk.c: allocation -/

/-- The loop of `__get_free_ino`, `n` iterations from `ino`. -/
def __get_free_ino_loop (d : Disk) : Nat → Nat → Int × Disk
  | 0, _ => (-1, d)
  | n + 1, ino =>
    if bmap_isfree d.imap ino then ((ino : Int), { d with imap := bmap_set d.imap ino })
    else __get_free_ino_loop d n (ino + 1)

/-- Source `__get_free_ino`. -/
def __get_free_ino (d : Disk) : Int × Disk :=
  __get_free_ino_loop d d.sblock.inum.toNat 0

/-- The loop of `__get_free_dno`, `n` iterations from `dno`. -/
def __get_free_dno_loop (d : Disk) : Nat → Nat → Int × Disk
  | 0, _ => (-1, d)
  | n + 1, dno =>
    if bmap_isfree d.dmap dno then ((dno : Int), { d with dmap := bmap_set d.dmap dno })
    else __get_free_dno_loop d n (dno + 1)

/-- Source `__get_free_dno`. -/
def __get_free_dno (d : Disk) : Int × Disk :=
  __get_free_dno_loop d d.sblock.dnum.toNat 0

/-! ## disk.c: paths -/

/-- The tokens that successive `strtok_r` calls with delimiter "/" cut out of a path; `cur` is
the token being read, reversed. -/
def strtok_all : List Nat → List Nat → List (List Nat)
  | [], cur => if cur = [] then [] else [cur.reverse]
  | c :: cs, cur =>
    if c = 47 then (if cur = [] then strtok_all cs [] else cur.reverse :: strtok_all cs [])
    else strtok_all cs (c :: cur)

/-- Source `__get_iname`: the last token.  With no token the source calls `strlen(NULL)`.
The source tokenizes a copy of the path in `char fullpath[strlen(path)]`, an array one byte
short of the terminator that `strcpy` writes; the model takes the tokens of the path and does
not represent that byte. -/
def __get_iname (path : List Nat) : Option (List Nat) :=
  (strtok_all path []).getLast?

/-- Source `__parent_path`: the first `strlen(path) - strlen(iname)` bytes of the path. -/
def __parent_path (path : List Nat) : Option (List Nat) :=
  (__get_iname path).map (fun iname => path.take (path.length - iname.length))

/-- The `while (token != NULL)` loop of `__find_ino`. -/
def __find_ino_loop (d : Disk) (target_name : List Nat) : Int → List (List Nat) → Int
  | _, [] => -ENOENT
  | curr_dir, token :: rest =>
    if dir_get_ino d curr_dir token < 0 then -ENOENT
    else if token = target_name then dir_get_ino d curr_dir token
    else if is_dir (d.iptr (dir_get_ino d curr_dir token)) then
      __find_ino_loop d target_name (dir_get_ino d curr_dir token) rest
    else -ENOENT

/-- Source `__find_ino`. -/
def __find_ino (d : Disk) (path : List Nat) : Option Int :=
  if path = str "/" then some d.root_ino
  else (__get_iname path).map (fun target_name =>
    __find_ino_loop d target_name d.root_ino (strtok_all path []))

/-- Source `__exists_inode`. -/
def __exists_inode (d : Disk) (path : List Nat) : Option Bool :=
  (__find_ino d path).map (fun ino => decide (0 ≤ ino))

/-- Source `__get_inode`. -/
def __get_inode (d : Disk) (path : List Nat) : Option Int := __find_ino d path

/-! ## disk.c: inodes -/

/-- Source `__create_inode`; `dir` and `iname` are `none` for NULL.  Returns the new inode. -/
def __create_inode (d : Disk) (dir : Option Int) (iname : Option (List Nat))
    (mode uid gid tt : Int) : Option (Int × Disk) :=
  let d1 := (__get_free_ino d).2
  let node := (__get_free_ino d).1
  let d2 := (__get_free_dno d1).2
  let d3 := d2.set_inode node
    { ino := node, mode := mode, size := 0, nlink := 1, dptrs0 := (__get_free_dno d1).1,
      dptrs1 := -1, dptrs2 := -1, indirect_dptr := -1, dnum := 1, uid := uid, gid := gid,
      atime := tt, ctime := tt, mtime := tt }
  match dir, iname with
  | none, none => (dir_init d3 node (d3.iptr node).ino).map (fun d4 => (node, d4))
  | some dir, some iname =>
    and_then (if mode = DIRECTORY_MODE then dir_init d3 node (d3.iptr dir).ino else some d3)
      (fun d4 => (dir_add_inode d4 dir (d4.iptr node).ino iname).map (fun d5 => (node, d5)))
  | _, _ => none

/-- Source `disk_access`. -/
def disk_access (d : Disk) (path : List Nat) (tt : Int) : Option (Int × Disk) :=
  and_then (__exists_inode d path) fun e =>
  if !e then some (-ENOENT, d) else
  (__get_inode d path).map fun node =>
  (0, d.set_inode node { d.iptr node with atime := tt })

/-- Source `disk_mknod`. -/
def disk_mknod (d : Disk) (path : List Nat) (mode uid gid tt : Int) : Option (Int × Disk) :=
  and_then (__parent_path path) fun dir_path =>
  and_then (__exists_inode d dir_path) fun e1 =>
  if !e1 then some (-ENOENT, d) else
  and_then (__exists_inode d path) fun e2 =>
  if e2 then some (-EEXIST, d) else
  and_then (__get_inode d dir_path) fun dir =>
  and_then (__get_iname path) fun iname =>
  (__create_inode d (some dir) (some iname)
    (if mode / 4096 % 16 = 4 then DIRECTORY_MODE else FILE_MODE) uid gid tt).map fun r =>
  (0, r.2)

/-- Source `disk_rename`. -/
def disk_rename (d : Disk) (from_path to_path : List Nat) (tt : Int) : Option (Int × Disk) :=
  and_then (__exists_inode d from_path) fun e1 =>
  if !e1 then some (-ENOENT, d) else
  and_then (__exists_inode d to_path) fun e2 =>
  if e2 then some (-EEXIST, d) else
  and_then (__parent_path from_path) fun old_dir_path =>
  and_then (__get_inode d old_dir_path) fun old_dir =>
  and_then (__find_ino d from_path) fun file_ino =>
  and_then (dir_delete_inode d old_dir file_ino) fun d1 =>
  and_then (__parent_path to_path) fun new_dir_path =>
  and_then (__exists_inode d1 new_dir_path) fun e3 =>
  if !e3 then some (-ENOENT, d1) else
  and_then (__get_inode d1 new_dir_path) fun new_dir =>
  and_then (__get_iname to_path) fun new_filename =>
  and_then (dir_add_inode d1 new_dir file_ino new_filename) fun d2 =>
  (__get_inode d2 from_path).map fun node =>
  (0, d2.set_inode node { d2.iptr node with atime := tt, mtime := tt })

/-- Source `disk_chmod`. -/
def disk_chmod (d : Disk) (path : List Nat) (mode tt : Int) : Option (Int × Disk) :=
  and_then (__exists_inode d path) fun e =>
  if !e then some (-ENOENT, d) else
  (__get_inode d path).map fun node =>
  (0, d.set_inode node { d.iptr node with mode := mode, atime := tt, mtime := tt })

/-- Source `disk_utimens`; `ts0` and `ts1` are `ts[0].tv_sec` and `ts[1].tv_sec`. -/
def disk_utimens (d : Disk) (path : List Nat) (ts0 ts1 : Int) : Option (Int × Disk) :=
  and_then (__exists_inode d path) fun e =>
  if !e then some (-ENOENT, d) else
  (__get_inode d path).map fun node =>
  (0, d.set_inode node { d.iptr node with atime := ts0, mtime := ts1 })

/-- Source `disk_link`. -/
def disk_link (d : Disk) (from_path to_path : List Nat) (tt : Int) : Option (Int × Disk) :=
  and_then (__exists_inode d from_path) fun e1 =>
  if !e1 then some (-ENOENT, d) else
  and_then (__exists_inode d to_path) fun e2 =>
  if e2 then some (-EEXIST, d) else
  and_then (__parent_path to_path) fun new_dir_path =>
  and_then (__exists_inode d new_dir_path) fun e3 =>
  if !e3 then some (-ENOENT, d) else
  and_then (__get_inode d new_dir_path) fun new_dir =>
  and_then (__find_ino d from_path) fun file_ino =>
  and_then (__get_iname to_path) fun new_filename =>
  and_then (__get_inode d from_path) fun file =>
  let d1 := d.set_inode file { d.iptr file with nlink := (d.iptr file).nlink + 1 }
  (dir_add_inode d1 new_dir file_ino new_filename).map fun d2 =>
  (0, d2.set_inode file { d2.iptr file with atime := tt, mtime := tt })

/-- The loop of `__delete_inode` over the direct pointers, `n` iterations from `ii`. -/
def __delete_inode_direct (node : inode) : (Nat → Nat) → Nat → Nat → Option (Nat → Nat)
  | dmap, 0, _ => some dmap
  | dmap, n + 1, ii =>
    if node.dptrs ii < 0 then some dmap
    else and_then (bmap_free dmap (node.dptrs ii)) fun dmap1 =>
      __delete_inode_direct node dmap1 n (ii + 1)

/-- The loop of `__delete_inode` over the entries of the indirect block at address `base`,
`n` iterations from `ii`. -/
def __delete_inode_indirect (m : Mem) (base : Int) : (Nat → Nat) → Nat → Nat → Option (Nat → Nat)
  | dmap, 0, _ => some dmap
  | dmap, n + 1, ii =>
    if get_int m (base + 4 * (ii : Int)) < 0 then some dmap
    else and_then (bmap_free dmap (get_int m (base + 4 * (ii : Int)))) fun dmap1 =>
      __delete_inode_indirect m base dmap1 n (ii + 1)

/-- Source `__delete_inode`. -/
def __delete_inode (d : Disk) (node : Int) : Option Disk :=
  and_then (bmap_free d.imap (d.iptr node).ino) fun imap1 =>
  and_then (__delete_inode_direct (d.iptr node) d.dmap BLOCKS_NUM 0) fun dmap1 =>
  if (d.iptr node).indirect_dptr < 0 then some { d with imap := imap1, dmap := dmap1 }
  else
    and_then (__delete_inode_indirect d.dptr (disk_get_dblock (d.iptr node).indirect_dptr) dmap1
      (BLOCK_SIZE / 4) 0) fun dmap2 =>
    (bmap_free dmap2 (d.iptr node).indirect_dptr).map fun dmap3 =>
    { d with imap := imap1, dmap := dmap3 }

/-- Source `disk_unlink`. -/
def disk_unlink (d : Disk) (path : List Nat) (tt : Int) : Option (Int × Disk) :=
  and_then (__exists_inode d path) fun e =>
  if !e then some (-ENOENT, d) else
  and_then (__get_inode d path) fun file =>
  and_then (__parent_path path) fun dir_path =>
  and_then (__get_inode d dir_path) fun dir =>
  and_then (dir_delete_inode d dir (d.iptr file).ino) fun d1 =>
  let d2 := d1.set_inode file { d1.iptr file with nlink := (d1.iptr file).nlink - 1 }
  (if (d2.iptr file).nlink = 0 then __delete_inode d2 file else some d2).map fun d3 =>
  (0, d3.set_inode file { d3.iptr file with atime := tt, mtime := tt })

/-! ## disk.c: file data -/

/-- Address of entry `k` of the indirect block of inode `file`. -/
def indirect_addr (d : Disk) (file : Int) (k : Nat) : Int :=
  disk_get_dblock (d.iptr file).indirect_dptr + 4 * (k : Int)

/-- The `for` loop of `__read_data`; the first argument bounds the number of iterations, the
others are the loop variables `ii`, `curr`, `left`, `read_off`, `off` and the buffer. -/
def __read_data_loop (d : Disk) (file : Int) :
    Nat → Nat → Nat → Nat → Nat → Nat → (Nat → Nat) → (Nat → Nat)
  | 0, _, _, _, _, _, buf => buf
  | n + 1, ii, curr, left, read_off, off, buf =>
    if (ii : Int) < (d.iptr file).dnum then
      if left - curr = 0 then buf
      else
        __read_data_loop d file n (ii + 1)
          (if left - curr > BLOCK_SIZE then BLOCK_SIZE else left - curr)
          (left - curr) (read_off + curr) 0
          (memcpy_from buf (read_off + curr) d.dptr
            (disk_get_dblock
              (if ii < BLOCKS_NUM then (d.iptr file).dptrs ii
               else get_int d.dptr (indirect_addr d file (ii - BLOCKS_NUM))) + (off : Int))
            (if left - curr > BLOCK_SIZE then BLOCK_SIZE else left - curr))
    else buf

/-- Source `__read_data`.  The loop runs at most `size + 1` times: every iteration but the
first starts by taking at least one byte off `left`. -/
def __read_data (d : Disk) (file : Int) (buf : Nat → Nat) (size offset : Nat) : Nat → Nat :=
  __read_data_loop d file (size + 1) (offset / BLOCK_SIZE) 0 size 0 (offset % BLOCK_SIZE) buf

/-- Source `disk_read`; returns the result, the buffer and the disk. -/
def disk_read (d : Disk) (path : List Nat) (buf : Nat → Nat) (size offset : Nat) (tt : Int) :
    Option (Int × (Nat → Nat) × Disk) :=
  and_then (__exists_inode d path) fun e =>
  if !e then some (-ENOENT, buf, d) else
  (__get_inode d path).map fun file =>
  (to_int size, __read_data d file buf size offset,
    d.set_inode file { d.iptr file with atime := tt })

/-- The loop of `__create_indirect_dptr`, `n` iterations from `ii`. -/
def __create_indirect_dptr_loop (base : Int) (m : Mem) : Nat → Nat → Mem
  | 0, _ => m
  | n + 1, ii => __create_indirect_dptr_loop base (put_int m (base + 4 * (ii : Int)) (-1)) n (ii + 1)

/-- Source `__create_indirect_dptr`. -/
def __create_indirect_dptr (d : Disk) : Int × Disk :=
  ((__get_free_dno d).1,
    { (__get_free_dno d).2 with
      dptr := __create_indirect_dptr_loop (disk_get_dblock (__get_free_dno d).1)
        (__get_free_dno d).2.dptr (BLOCK_SIZE / 4) 0 })

/-- The part of one iteration of `__write_data` that finds the block of logical block `ii`,
assigning one when the slot is unassigned: returns `dno` and the disk. -/
def __write_data_slot (d : Disk) (file : Int) (ii : Nat) : Int × Disk :=
  if ii < BLOCKS_NUM then
    if (d.iptr file).dptrs ii < 0 then
      let r := __get_free_dno d
      (r.1, r.2.set_inode file
        { (r.2.iptr file).set_dptrs ii r.1 with dnum := (r.2.iptr file).dnum + 1 })
    else ((d.iptr file).dptrs ii, d)
  else
    let d1 :=
      if (d.iptr file).indirect_dptr < 0 then
        let r := __create_indirect_dptr d
        r.2.set_inode file { r.2.iptr file with indirect_dptr := r.1 }
      else d
    if get_int d1.dptr (indirect_addr d1 file (ii - BLOCKS_NUM)) < 0 then
      let r := __get_free_dno d1
      let d2 := { r.2 with dptr := put_int r.2.dptr (indirect_addr r.2 file (ii - BLOCKS_NUM)) r.1 }
      (r.1, d2.set_inode file { d2.iptr file with dnum := (d2.iptr file).dnum + 1 })
    else (get_int d1.dptr (indirect_addr d1 file (ii - BLOCKS_NUM)), d1)

/-- The `for` loop of `__write_data`; the first argument bounds the number of iterations, the
others are the loop variables `ii`, `curr`, `left`, `written_off`, `off`.

The copy goes to the cells of block `dno` of the data region, whatever `dno` is.  The loop is
the loop of the source as long as every block it writes is one of `0 .. sblock.dnum - 1`.
With `dno = -1`, the result of `__get_free_dno` when no block is free, the copy goes to the
cells `-4096 .. -1` in front of the data region, which the model keeps apart from the inode
table; in the image of `create_disk` these are the last 4096 bytes of the inode table (the
end of record 178 and the records 179 to 251), so there the source overwrites inode records
and the model does not. -/
def __write_data_loop (file : Int) (buf : Nat → Nat) :
    Nat → Disk → Nat → Nat → Nat → Nat → Nat → Disk
  | 0, d, _, _, _, _, _ => d
  | n + 1, d, ii, curr, left, written_off, off =>
    if left - curr = 0 then d
    else
      __write_data_loop file buf n
        { (__write_data_slot d file ii).2 with
          dptr := memcpy_to (__write_data_slot d file ii).2.dptr
            (disk_get_dblock (__write_data_slot d file ii).1 + (off : Int)) buf
            (written_off + curr) (if left - curr > BLOCK_SIZE then BLOCK_SIZE else left - curr) }
        (ii + 1) (if left - curr > BLOCK_SIZE then BLOCK_SIZE else left - curr)
        (left - curr) (written_off + curr) 0

/-- Source `__write_data`.  The loop runs at most `size + 1` times: every iteration but the
first starts by taking at least one byte off `left`. -/
def __write_data (d : Disk) (file : Int) (buf : Nat → Nat) (size offset : Nat) : Disk :=
  __write_data_loop file buf (size + 1) d (offset / BLOCK_SIZE) 0 size 0 (offset % BLOCK_SIZE)

/-- Source `disk_write`. -/
def disk_write (d : Disk) (path : List Nat) (buf : Nat → Nat) (size offset : Nat) (tt : Int) :
    Option (Int × Disk) :=
  and_then (__exists_inode d path) fun e =>
  if !e then some (-ENOENT, d) else
  (__get_inode d path).map fun file =>
  let d1 := __write_data d file buf size offset
  let d2 := d1.set_inode file { d1.iptr file with size := to_int ((d1.iptr file).size + size) }
  (to_int size, d2.set_inode file { d2.iptr file with atime := tt, mtime := tt })

/-! ## disk.c: directories and symlinks -/

/-- Source `disk_mkdir`. -/
def disk_mkdir (d : Disk) (path : List Nat) (_mode uid gid tt : Int) : Option (Int × Disk) :=
  disk_mknod d path DIRECTORY_MODE uid gid tt

/-- Source `disk_rmdir`. -/
def disk_rmdir (d : Disk) (path : List Nat) : Option (Int × Disk) :=
  and_then (__exists_inode d path) fun e =>
  if !e then some (-ENOENT, d) else
  and_then (__parent_path path) fun parent_dir_path =>
  and_then (__get_inode d parent_dir_path) fun parent_dir =>
  and_then (__get_inode d path) fun dir =>
  if (d.iptr dir).size = 0 then
    (dir_delete_inode d parent_dir (d.iptr dir).ino).map fun d1 => (0, d1)
  else some (-ENOTEMPTY, d)

/-- Source `disk_symlink`. -/
def disk_symlink (d : Disk) (from_path to_path : List Nat) (uid gid tt : Int) :
    Option (Int × Disk) :=
  and_then (__exists_inode d from_path) fun e1 =>
  if !e1 then some (-ENOENT, d) else
  and_then (__exists_inode d to_path) fun e2 =>
  if e2 then some (-EEXIST, d) else
  and_then (__parent_path to_path) fun new_dir_path =>
  and_then (__exists_inode d new_dir_path) fun e3 =>
  if !e3 then some (-ENOENT, d) else
  and_then (__get_inode d new_dir_path) fun new_dir =>
  and_then (__get_iname to_path) fun new_filename =>
  (__create_inode d (some new_dir) (some new_filename) SYMLINK_MODE uid gid tt).map fun r =>
  let d1 := { r.2 with dptr := strcpy_to r.2.dptr (disk_get_dblock (r.2.iptr r.1).dptrs0) from_path }
  (0, d1.set_inode r.1 { d1.iptr r.1 with size := to_int from_path.length })

/-- Source `disk_readlink`; returns the result, the buffer and the disk. -/
def disk_readlink (d : Disk) (path : List Nat) (buf : Nat → Nat) (size : Nat) (tt : Int) :
    Option (Int × (Nat → Nat) × Disk) :=
  and_then (__exists_inode d path) fun e =>
  if !e then some (-ENOENT, buf, d) else
  (__get_inode d path).map fun file =>
  (0, strncpy_from buf d.dptr (disk_get_dblock (d.iptr file).dptrs0) size,
    d.set_inode file { d.iptr file with atime := tt })

/-! ## disk.c: attributes -/

/-- The fields of the host `struct timespec`. -/
structure timespec where
  tv_sec : Int
  tv_nsec : Int
deriving DecidableEq

/-- The fields of the host `struct stat` that `__update_stat` writes. -/
structure stat where
  st_rdev : Int
  st_ino : Int
  st_mode : Int
  st_nlink : Int
  st_uid : Int
  st_gid : Int
  st_size : Int
  st_blksize : Int
  st_blocks : Int
  st_atim : timespec
  st_mtim : timespec
  st_ctim : timespec
deriving DecidableEq

/-- Source `__update_stat`.  `st_ino` and `st_nlink` are unsigned 64-bit, `st_mode`, `st_uid`
and `st_gid` unsigned 32-bit; the products `dnum * 8` and `atime * 1000 * 1000 * 1000` are
computed in `int` (taken modulo 2^32). -/
def __update_stat (node : inode) (st : stat) : stat :=
  { st with
    st_rdev := 0
    st_ino := node.ino % 18446744073709551616
    st_mode := node.mode % 4294967296
    st_nlink := node.nlink % 18446744073709551616
    st_uid := node.uid % 4294967296
    st_gid := node.gid % 4294967296
    st_size := node.size
    st_blksize := BLOCK_SIZE
    st_blocks := to_int (node.dnum * 8)
    st_atim := ⟨node.atime, to_int (node.atime * 1000 * 1000 * 1000)⟩
    st_ctim := ⟨node.mtime, to_int (node.mtime * 1000 * 1000 * 1000)⟩
    st_mtim := ⟨node.ctime, to_int (node.ctime * 1000 * 1000 * 1000)⟩ }

/-- Source `disk_getattr`; returns the result, the `stat` structure and the disk. -/
def disk_getattr (d : Disk) (path : List Nat) (st : stat) (tt : Int) :
    Option (Int × stat × Disk) :=
  and_then (__exists_inode d path) fun e =>
  if !e then some (-ENOENT, st, d) else
  (__get_inode d path).map fun node =>
  let d1 := d.set_inode node { d.iptr node with atime := tt }
  (0, __update_stat (d1.iptr node) st, d1)

/-! ## disk.c: truncate -/

/-- The conversion of an `int` to `size_t` (64 bits). -/
def to_size_t (x : Int) : Nat := (x % 18446744073709551616).toNat

/-- Whether `malloc(n)` returns a block.  No object is larger than `PTRDIFF_MAX` bytes, so a
larger request returns NULL; the model has memory for every other request. -/
def malloc_ok (n : Nat) : Bool := decide (n ≤ 9223372036854775807)

/-- The first loop of `__truncate_down`, over the direct pointers, `n` iterations from `ii`.
The flag tells that the function returned from inside the loop. -/
def __truncate_down_direct (node : inode) :
    (Nat → Nat) → Nat → Nat → Option ((Nat → Nat) × Bool)
  | dmap, 0, _ => some (dmap, false)
  | dmap, n + 1, ii =>
    if node.dptrs ii < 0 then some (dmap, true)
    else and_then (bmap_free dmap (node.dptrs ii)) fun dmap1 =>
      __truncate_down_direct node dmap1 n (ii + 1)

/-- The second loop of `__truncate_down`, over the entries of the indirect block at address
`base`, `n` iterations from `ii`. -/
def __truncate_down_indirect (m : Mem) (base : Int) :
    (Nat → Nat) → Nat → Nat → Option (Nat → Nat)
  | dmap, 0, _ => some dmap
  | dmap, n + 1, ii =>
    if get_int m (base + 4 * (ii : Int)) < 0 then some dmap
    else and_then (bmap_free dmap (get_int m (base + 4 * (ii : Int)))) fun dmap1 =>
      __truncate_down_indirect m base dmap1 n (ii + 1)

/-- Source `__truncate_down`.  `new_size` is `(int)(file->size - size)`, the difference taken
in `size_t`.  A negative `new_size` makes the first index into `dptrs` negative; the model
stops there (`none`). -/
def __truncate_down (d : Disk) (file : Int) (size : Nat) : Option Disk :=
  let new_size :=
    to_int (((to_size_t (d.iptr file).size + (18446744073709551616 - size))
      % 18446744073709551616 : Nat) : Int)
  if new_size < 0 then none else
  let start_block := new_size.toNat / BLOCK_SIZE
  and_then (__truncate_down_direct (d.iptr file) d.dmap (BLOCKS_NUM - start_block) start_block)
    fun r =>
  if r.2 then some { d with dmap := r.1 }
  else if (d.iptr file).indirect_dptr < 0 then some { d with dmap := r.1 }
  else
    let indi_start_block := if start_block > BLOCKS_NUM then start_block else 0
    and_then (__truncate_down_indirect d.dptr (disk_get_dblock (d.iptr file).indirect_dptr) r.1
      (BLOCK_SIZE / 4 - indi_start_block) indi_start_block) fun dmap2 =>
    if indi_start_block = 0 then
      (bmap_free dmap2 (d.iptr file).indirect_dptr).map fun dmap3 => { d with dmap := dmap3 }
    else some { d with dmap := dmap2 }

/-- Source `__truncate_up`.  `new_size` is `file->size - size`, taken in `size_t`;
`assert(buf != NULL)` is a `none` case.  The loop that fills the buffer counts in `int`, so
the model stops (`none`) at a `new_size` beyond `INT_MAX`, and at a negative `file->size`,
which makes the offset of the write negative. -/
def __truncate_up (d : Disk) (file : Int) (size : Nat) : Option Disk :=
  let new_size :=
    (to_size_t (d.iptr file).size + (18446744073709551616 - size)) % 18446744073709551616
  if !malloc_ok new_size then none
  else if 2147483647 < new_size then none
  else if (d.iptr file).size < 0 then none
  else some (__write_data d file (fun _ => 0) new_size (d.iptr file).size.toNat)

/-- Source `__truncate`: after `__truncate_down` the function goes on to `__truncate_up`. -/
def __truncate (d : Disk) (file : Int) (size : Nat) : Option Disk :=
  if size = to_size_t (d.iptr file).size then some d
  else
    and_then (if size < to_size_t (d.iptr file).size then __truncate_down d file size else some d)
      fun d1 => __truncate_up d1 file size

/-- Source `disk_truncate`; `size` is the value of the `off_t` argument, not negative. -/
def disk_truncate (d : Disk) (path : List Nat) (size : Nat) (tt : Int) : Option (Int × Disk) :=
  and_then (__exists_inode d path) fun e =>
  if !e then some (-ENOENT, d) else
  and_then (__get_inode d path) fun file =>
  (__truncate d file size).map fun d1 =>
  let d2 := d1.set_inode file { d1.iptr file with size := to_int size }
  (0, d2.set_inode file { d2.iptr file with atime := tt, mtime := tt })

/-! ## disk.c: readdir -/

/-- The C string stored at address `a`: the bytes before the first NUL, looking at no more
than `n` bytes. -/
def cstr_at (m : Mem) (a : Int) : Nat → List Nat
  | 0 => []
  | n + 1 => if m a = 0 then [] else m a :: cstr_at m (a + 1) n

/-- The loop of `disk_readdir` over the entries at address `base`, `n` iterations from `ii`;
`out` collects the calls of `filler`: the name and the `stat` structure handed over. -/
def disk_readdir_loop (d : Disk) (base : Int) :
    Nat → Nat → stat → List (List Nat × stat) → List (List Nat × stat)
  | 0, _, _, out => out
  | n + 1, ii, st, out =>
    if get_int d.dptr (base + (ii : Int) * SIZEOF_DENTRY + 48) ≠ -1 then
      disk_readdir_loop d base n (ii + 1)
        (__update_stat (d.iptr (get_int d.dptr (base + (ii : Int) * SIZEOF_DENTRY + 48))) st)
        (out ++ [(cstr_at d.dptr (base + (ii : Int) * SIZEOF_DENTRY) BLOCK_SIZE,
          __update_stat (d.iptr (get_int d.dptr (base + (ii : Int) * SIZEOF_DENTRY + 48))) st)])
    else disk_readdir_loop d base n (ii + 1) st out

/-- Source `disk_readdir`; `st` is the local `struct stat`, `out` the entries that `filler`
has been given so far.  Returns the result, the entries and the disk. -/
def disk_readdir (d : Disk) (path : List Nat) (st : stat) (out : List (List Nat × stat))
    (tt : Int) : Option (Int × List (List Nat × stat) × Disk) :=
  and_then (__exists_inode d path) fun e =>
  if !e then some (-ENOENT, out, d) else
  (__get_inode d path).map fun dir =>
  (0,
    disk_readdir_loop d (disk_get_dblock (d.iptr dir).dptrs0) DENTRY_COUNT 0
      (__update_stat (d.iptr dir) st) (out ++ [(str ".", __update_stat (d.iptr dir) st)]),
    d.set_inode dir { d.iptr dir with atime := tt })

/-! ## nufs.c: the callbacks -/

/-- Source `nufs_access`. -/
def nufs_access (d : Disk) (path : List Nat) (_mode tt : Int) : Option (Int × Disk) :=
  disk_access d path tt

/-- Source `nufs_getattr`. -/
def nufs_getattr (d : Disk) (path : List Nat) (st : stat) (tt : Int) :
    Option (Int × stat × Disk) :=
  disk_getattr d path st tt

/-- Source `nufs_mknod`. -/
def nufs_mknod (d : Disk) (path : List Nat) (mode _rdev uid gid tt : Int) :
    Option (Int × Disk) :=
  disk_mknod d path mode uid gid tt

/-- Source `nufs_rename`. -/
def nufs_rename (d : Disk) (from_path to_path : List Nat) (tt : Int) : Option (Int × Disk) :=
  disk_rename d from_path to_path tt

/-- Source `nufs_chmod`. -/
def nufs_chmod (d : Disk) (path : List Nat) (mode tt : Int) : Option (Int × Disk) :=
  disk_chmod d path mode tt

/-- Source `nufs_utimens`. -/
def nufs_utimens (d : Disk) (path : List Nat) (ts0 ts1 : Int) : Option (Int × Disk) :=
  disk_utimens d path ts0 ts1

/-- Source `nufs_open`: the result of `disk_access` is logged, the callback returns 0. -/
def nufs_open (d : Disk) (path : List Nat) (tt : Int) : Option (Int × Disk) :=
  (disk_access d path tt).map fun r => (0, r.2)

/-- Source `nufs_link`. -/
def nufs_link (d : Disk) (from_path to_path : List Nat) (tt : Int) : Option (Int × Disk) :=
  disk_link d from_path to_path tt

/-- Source `nufs_unlink`. -/
def nufs_unlink (d : Disk) (path : List Nat) (tt : Int) : Option (Int × Disk) :=
  disk_unlink d path tt

/-- Source `nufs_read`. -/
def nufs_read (d : Disk) (path : List Nat) (buf : Nat → Nat) (size offset : Nat) (tt : Int) :
    Option (Int × (Nat → Nat) × Disk) :=
  disk_read d path buf size offset tt

/-- Source `nufs_write`. -/
def nufs_write (d : Disk) (path : List Nat) (buf : Nat → Nat) (size offset : Nat) (tt : Int) :
    Option (Int × Disk) :=
  disk_write d path buf size offset tt

/-- Source `nufs_truncate`: the result of `disk_truncate` is logged, the callback returns
0. -/
def nufs_truncate (d : Disk) (path : List Nat) (size : Nat) (tt : Int) : Option (Int × Disk) :=
  (disk_truncate d path size tt).map fun r => (0, r.2)

/-- Source `nufs_mkdir`. -/
def nufs_mkdir (d : Disk) (path : List Nat) (mode uid gid tt : Int) : Option (Int × Disk) :=
  disk_mkdir d path mode uid gid tt

/-- Source `nufs_rmdir`. -/
def nufs_rmdir (d : Disk) (path : List Nat) : Option (Int × Disk) :=
  disk_rmdir d path

/-- Source `nufs_readdir`. -/
def nufs_readdir (d : Disk) (path : List Nat) (st : stat) (out : List (List Nat × stat))
    (tt : Int) : Option (Int × List (List Nat × stat) × Disk) :=
  disk_readdir d path st out tt

/-- Source `nufs_symlink`. -/
def nufs_symlink (d : Disk) (from_path to_path : List Nat) (uid gid tt : Int) :
    Option (Int × Disk) :=
  disk_symlink d from_path to_path uid gid tt

/-- Source `nufs_readlink`. -/
def nufs_readlink (d : Disk) (path : List Nat) (buf : Nat → Nat) (size : Nat) (tt : Int) :
    Option (Int × (Nat → Nat) × Disk) :=
  disk_readlink d path buf size tt

/-! ## disk.c: a new image -/

/-- Source `__get_max_inum`: the quotient is computed in `size_t` (64 bits) and returned as
an `int`. -/
def __get_max_inum (data_file_size : Nat) : Int :=
  to_int (((data_file_size * 4 + (18446744073709551616 - SIZEOF_SUPERBLOCK * 4))
    % 18446744073709551616 / (SIZEOF_INODE * 4 + BLOCK_SIZE * 4 + 2) : Nat) : Int)

/-- The image right after `ftruncate` and `mmap` of the new file: every byte is zero. -/
def zero_disk : Disk :=
  { sblock := ⟨0, 0, 0, 0, 0, 0, 0⟩, root_ino := 0, imap := fun _ => 0, dmap := fun _ => 0,
    iptr := fun _ => ⟨0, 0, 0, 0, 0, 0, 0, 0, 0, 0, 0, 0, 0, 0⟩, dptr := fun _ => 0 }

/-- Source `create_disk`, from the point where the new file is mapped. -/
def create_disk (uid gid tt : Int) : Option Disk :=
  let inum := __get_max_inum ONE_MB
  and_then (div_up inum.toNat 4) fun imap_size =>
  and_then (div_up inum.toNat 4) fun dmap_size =>
  let iptr_size := inum.toNat * SIZEOF_INODE
  let sb : superblock :=
    { inum := inum, dnum := inum, imap := (SIZEOF_SUPERBLOCK : Int),
      dmap := (SIZEOF_SUPERBLOCK : Int) + imap_size,
      iptr := (SIZEOF_SUPERBLOCK : Int) + imap_size + dmap_size,
      dptr := (SIZEOF_SUPERBLOCK : Int) + imap_size + dmap_size + iptr_size,
      root_ino := 0 }
  and_then (bmap_init zero_disk.imap imap_size) fun imap1 =>
  and_then (bmap_init zero_disk.dmap dmap_size) fun dmap1 =>
  let d1 : Disk := { zero_disk with sblock := sb, imap := imap1, dmap := dmap1 }
  (__create_inode d1 none none DIRECTORY_MODE uid gid tt).map fun r =>
  { r.2 with sblock := { r.2.sblock with root_ino := (r.2.iptr r.1).ino },
             root_ino := (r.2.iptr r.1).ino }

/-! ## Concrete images

Images are written down region by region.  All of them use uid, gid and time 0, so that every
byte the operations did not write is the zero of the new image. -/

/-- Byte `o` of a directory block whose slots hold the given names and inode numbers, slot 0
first; the remaining slots are free (`-1`) with an empty name, all other bytes are zero. -/
def dir_block (entries : List (List Nat × Int)) (o : Nat) : Nat :=
  if o % 64 < 48 then (entries.getD (o / 64) ([], -1)).1.getD (o % 64) 0
  else if o % 64 < 52 then
    (((entries.getD (o / 64) ([], -1)).2 % 4294967296).toNat / 256 ^ (o % 64 - 48)) % 256
  else 0

/-- A data block of zero bytes. -/
def zero_block (_ : Nat) : Nat := 0

/-- The inode record `__create_inode` writes for inode `ino` with first block `dno`, with uid,
gid and time 0. -/
def new_inode (ino mode dno : Int) : inode :=
  { ino := ino, mode := mode, size := 0, nlink := 1, dptrs0 := dno, dptrs1 := -1, dptrs2 := -1,
    indirect_dptr := -1, dnum := 1, uid := 0, gid := 0, atime := 0, ctime := 0, mtime := 0 }

/-- The image with the given inode records (inode 0 first) and data blocks (block 0 first), in
which exactly these inodes and blocks are marked allocated (at most 8 of each). -/
def image (inodes : List inode) (blocks : List (Nat → Nat)) : Disk :=
  { sblock := ⟨48, 174, 252, 111, 14286, 252, 0⟩
    root_ino := 0
    imap := fun w => if w = 0 then 2 ^ inodes.length - 1 else 0
    dmap := fun w => if w = 0 then 2 ^ blocks.length - 1 else 0
    iptr := fun j => if 0 ≤ j then inodes.getD j.toNat (zero_disk.iptr 0) else zero_disk.iptr 0
    dptr := fun x => if 0 ≤ x then blocks.getD (x.toNat / 4096) zero_block (x.toNat % 4096) else 0 }

/-- The image after `create_disk`. -/
def image_new : Disk :=
  image [new_inode 0 DIRECTORY_MODE 0] [dir_block [(str "..", 0)]]

/-- The image after `create_disk` and `disk_mkdir "/a"`. -/
def image_a : Disk :=
  image [new_inode 0 DIRECTORY_MODE 0, new_inode 1 DIRECTORY_MODE 1]
    [dir_block [(str "..", 0), (str "a", 1)], dir_block [(str "..", 0)]]

/-- The image after `create_disk` and `disk_mknod "/a"` with a regular-file mode. -/
def image_file : Disk :=
  image [new_inode 0 DIRECTORY_MODE 0, new_inode 1 FILE_MODE 1]
    [dir_block [(str "..", 0), (str "a", 1)], zero_block]

/-- The image after `create_disk`, `disk_mkdir "/x"`, `disk_mkdir "/x/a"`,
`disk_rename "/x" "/a"` and `disk_mknod "/f"` (regular): the directory `/a` holds a directory
`a`, and `/f` is a regular file. -/
def image_aa : Disk :=
  image [new_inode 0 DIRECTORY_MODE 0, new_inode 1 DIRECTORY_MODE 1, new_inode 2 DIRECTORY_MODE 2,
      new_inode 3 FILE_MODE 3]
    [dir_block [(str "..", 0), (str "a", 1), (str "f", 3)], dir_block [(str "..", 0), (str "a", 2)],
      dir_block [(str "..", 1)], zero_block]

/-- The image after `create_disk`, `disk_mknod "/a"` (regular) and `disk_link "/a" "/b"`. -/
def image_links : Disk :=
  image [new_inode 0 DIRECTORY_MODE 0, { new_inode 1 FILE_MODE 1 with nlink := 2 }]
    [dir_block [(str "..", 0), (str "a", 1), (str "b", 1)], zero_block]

/-- The image after `create_disk`, `disk_mkdir "/d"` and `disk_mknod "/d/x"` (regular). -/
def image_dx : Disk :=
  image [new_inode 0 DIRECTORY_MODE 0, new_inode 1 DIRECTORY_MODE 1, new_inode 2 FILE_MODE 2]
    [dir_block [(str "..", 0), (str "d", 1)], dir_block [(str "..", 0), (str "x", 2)], zero_block]

/-- The image after `create_disk`, `disk_mknod "/a"` (regular) and a `disk_write` of 8192 zero
bytes at offset 0 to `/a`: the file has size 8192 and the two blocks 1 and 2. -/
def image_two : Disk :=
  image [new_inode 0 DIRECTORY_MODE 0,
      { new_inode 1 FILE_MODE 1 with size := 8192, dnum := 2, dptrs1 := 2 }]
    [dir_block [(str "..", 0), (str "a", 1)], zero_block, zero_block]

/-! ## Vocabulary of the statements

Predicates on images and the pieces of `__write_data` that the theorems below are stated
and proved with. -/

/-- The assigned block slots of inode `i` form a dense prefix: before an assigned direct slot
every direct slot is assigned, and before an assigned entry of the indirect block every entry
is assigned. -/
def dense_slots (d : Disk) (i : Int) : Prop :=
  (∀ j, j < BLOCKS_NUM → 0 ≤ (d.iptr i).dptrs j → ∀ j', j' < j → 0 ≤ (d.iptr i).dptrs j') ∧
  (∀ j, j < BLOCK_SIZE / 4 → 0 ≤ get_int d.dptr (indirect_addr d i j) →
    ∀ j', j' < j → 0 ≤ get_int d.dptr (indirect_addr d i j'))

/-- The number of free data blocks: clear bits of the data bitmap below `sblock.dnum`. -/
def free_blocks (d : Disk) : Nat :=
  (List.range d.sblock.dnum.toNat).countP (bmap_isfree d.dmap)

/-- Data block `b` is marked allocated in the data bitmap. -/
def allocated (d : Disk) (b : Int) : Prop :=
  0 ≤ b ∧ bmap_isfree d.dmap b.toNat = false

/-- Data block `b` is one that `__get_free_dno` may hand out. -/
def is_free (d : Disk) (b : Int) : Prop :=
  0 ≤ b ∧ b < d.sblock.dnum ∧ bmap_isfree d.dmap b.toNat = true

/-- The data block of logical block `k` of file `i`, as `__read_data` looks it up. -/
def block_of (d : Disk) (i : Int) (k : Nat) : Int :=
  if k < BLOCKS_NUM then (d.iptr i).dptrs k
  else get_int d.dptr (indirect_addr d i (k - BLOCKS_NUM))

/-- File `i` has exactly its first `n` logical blocks assigned (a dense prefix), to pairwise
distinct blocks that are marked allocated; the indirect block, if there is one, is allocated
and is none of them. -/
structure file_wf (d : Disk) (i : Int) (n : Nat) : Prop where
  dnum_eq : (d.iptr i).dnum = (n : Int)
  le_max : n ≤ BLOCKS_NUM + BLOCK_SIZE / 4
  alloc : ∀ k, k < n → allocated d (block_of d i k)
  inj : ∀ k k', k < n → k' < n → block_of d i k = block_of d i k' → k = k'
  direct_tail : ∀ k, n ≤ k → k < BLOCKS_NUM → block_of d i k < 0
  ind : ((d.iptr i).indirect_dptr < 0 ∧ n ≤ BLOCKS_NUM) ∨
    (allocated d (d.iptr i).indirect_dptr ∧
      (∀ k, k < n → block_of d i k ≠ (d.iptr i).indirect_dptr) ∧
      ∀ k, n ≤ k → BLOCKS_NUM ≤ k → k < BLOCKS_NUM + BLOCK_SIZE / 4 → block_of d i k < 0)

/-- What a step of `__write_data` on file `i` leaves alone outside the data region. -/
structure write_frame (d d' : Disk) (i : Int) : Prop where
  sblock_eq : d'.sblock = d.sblock
  root_eq : d'.root_ino = d.root_ino
  imap_eq : d'.imap = d.imap
  iptr_other : ∀ j, j ≠ i → d'.iptr j = d.iptr j
  mode_eq : (d'.iptr i).mode = (d.iptr i).mode
  dmap_mono : ∀ q, bmap_isfree d'.dmap q = true → bmap_isfree d.dmap q = true

/-- The number of blocks one iteration of `__write_data` at logical block `ii` takes from
the free blocks. -/
def slot_need (d : Disk) (i : Int) (n ii : Nat) : Nat :=
  (if ii = n then 1 else 0) +
    (if BLOCKS_NUM ≤ ii ∧ (d.iptr i).indirect_dptr < 0 then 1 else 0)

/-- The outcome `r` of `__write_data_slot` at logical block `ii` of a file with `n` blocks;
`n'` is the number of blocks afterwards. -/
structure slot_post (d : Disk) (i : Int) (n ii n' : Nat) (r : Int × Disk) : Prop where
  wf : file_wf r.2 i n'
  dno : r.1 = block_of r.2 i ii
  free : free_blocks r.2 + slot_need d i n ii = free_blocks d
  frame : write_frame d r.2 i
  ind : (r.2.iptr i).indirect_dptr = (d.iptr i).indirect_dptr ∨
    is_free d (r.2.iptr i).indirect_dptr
  fresh : ii = n → is_free d r.1
  blocks : ∀ k, k < n → block_of r.2 i k = block_of d i k
  data : ∀ x : Int, ¬ is_free d (x / 4096) → x / 4096 ≠ (d.iptr i).indirect_dptr →
    r.2.dptr x = d.dptr x

/-- The disk after the step of `__write_data` that makes sure the file has an indirect
block. -/
def ensure_indirect (d : Disk) (file : Int) : Disk :=
  if (d.iptr file).indirect_dptr < 0 then
    let r := __create_indirect_dptr d
    r.2.set_inode file { r.2.iptr file with indirect_dptr := r.1 }
  else d

structure ensure_post (d d1 : Disk) (i : Int) (n : Nat) : Prop where
  wf : file_wf d1 i n
  alloc : allocated d1 (d1.iptr i).indirect_dptr
  free : free_blocks d1 + (if (d.iptr i).indirect_dptr < 0 then 1 else 0) = free_blocks d
  frame : write_frame d d1 i
  ind : (d1.iptr i).indirect_dptr = (d.iptr i).indirect_dptr ∨
    is_free d (d1.iptr i).indirect_dptr
  blocks : ∀ k, k < n → block_of d1 i k = block_of d i k
  data : ∀ x : Int, ¬ is_free d (x / 4096) → d1.dptr x = d.dptr x

/-- The step of `__write_data` that looks up entry `ii - 3` of the indirect block and
assigns a block when the entry is unassigned. -/
def entry_step (d1 : Disk) (file : Int) (ii : Nat) : Int × Disk :=
  if get_int d1.dptr (indirect_addr d1 file (ii - BLOCKS_NUM)) < 0 then
    let r := __get_free_dno d1
    let d2 := { r.2 with dptr := put_int r.2.dptr (indirect_addr r.2 file (ii - BLOCKS_NUM)) r.1 }
    (r.1, d2.set_inode file { d2.iptr file with dnum := (d2.iptr file).dnum + 1 })
  else (get_int d1.dptr (indirect_addr d1 file (ii - BLOCKS_NUM)), d1)

/-- One iteration of the loop of `__write_data` that copies: the disk after the block of
logical block `ii` is found or assigned and `min rem 4096` bytes of `buf` from `w` on are
copied to offset `off` of it. -/
def write_step (d : Disk) (file : Int) (buf : Nat → Nat) (ii rem w off : Nat) : Disk :=
  { (__write_data_slot d file ii).2 with
    dptr := memcpy_to (__write_data_slot d file ii).2.dptr
      (disk_get_dblock (__write_data_slot d file ii).1 + (off : Int)) buf w (min rem 4096) }

structure step_post (d d1 : Disk) (i : Int) (buf : Nat → Nat) (n ii rem w off : Nat) : Prop where
  wf : file_wf d1 i (max n (ii + 1))
  frame : write_frame d d1 i
  ind : (d1.iptr i).indirect_dptr = (d.iptr i).indirect_dptr ∨
    is_free d (d1.iptr i).indirect_dptr
  free : free_blocks d1 + slot_need d i n ii = free_blocks d
  blocks : ∀ k, k < n → block_of d1 i k = block_of d i k
  content : ∀ p, p < min rem 4096 →
    d1.dptr (block_of d1 i ii * 4096 + (off : Int) + (p : Int)) = buf (w + p)
  data : ∀ x : Int, ¬ is_free d (x / 4096) → x / 4096 ≠ (d.iptr i).indirect_dptr →
    (ii < n → block_of d i ii ≠ x / 4096) → d1.dptr x = d.dptr x

/-- The number of free blocks a write needs that leaves the file with `e` logical blocks. -/
def loop_need (d : Disk) (i : Int) (n e : Nat) : Nat :=
  (e - n) + (if 3 < e ∧ (d.iptr i).indirect_dptr < 0 then 1 else 0)

/-- The buffer holding the byte string `B`. -/
def bytes (B : List Nat) : Nat → Nat := fun j => B.getD j 0

/-- The number of free blocks that writing `size` bytes at `offset` to a file with `n`
blocks takes: the blocks up to the last byte written that the file does not have yet, and
an indirect block when it gets its first logical block beyond the direct ones. -/
def blocks_needed (d : Disk) (i : Int) (n size offset : Nat) : Nat :=
  if size = 0 then 0 else loop_need d i n ((offset + size + 4095) / 4096)

/-- Directory `dir` has a live entry (inode field other than -1) for inode `j`. -/
def has_entry (d : Disk) (dir j : Int) : Prop :=
  ∃ k, k < DENTRY_COUNT ∧ get_int d.dptr (dentry_addr d dir k + 48) = j ∧ j ≠ -1

/-- Inode `j` is the root or is reachable from the root through a chain of directory
entries. -/
inductive reachable (d : Disk) : Int → Prop
  | root : reachable d d.root_ino
  | step (dir j : Int) : reachable d dir → is_dir (d.iptr dir) = true → has_entry d dir j →
      reachable d j

/-- Block `b` is referenced by inode `i`: as a direct slot, as the indirect block, or as an
entry of the indirect block. -/
def references (d : Disk) (i b : Int) : Prop :=
  (∃ k, k < BLOCKS_NUM ∧ (d.iptr i).dptrs k = b) ∨ (d.iptr i).indirect_dptr = b ∨
    (0 ≤ (d.iptr i).indirect_dptr ∧
      ∃ k, k < BLOCK_SIZE / 4 ∧ get_int d.dptr (indirect_addr d i k) = b)

/-- The data-bitmap invariant: bit `b` is set exactly for the blocks `b` that some live inode
(one whose inode-bitmap bit is set) references. -/
def dmap_coherent (d : Disk) : Prop :=
  ∀ b, b < d.sblock.dnum.toNat →
    (bmap_isfree d.dmap b = false ↔
      ∃ i, i < d.sblock.inum.toNat ∧ bmap_isfree d.imap i = false ∧ references d i b)

/-- A `stat` structure of zeros. -/
def zero_stat : stat := ⟨0, 0, 0, 0, 0, 0, 0, 0, 0, ⟨0, 0⟩, ⟨0, 0⟩, ⟨0, 0⟩⟩

/-! ## More images -/

/-- The image after `create_disk`, `disk_mkdir "/x"` and `disk_mkdir "/y"`. -/
def image_xy : Disk :=
  image [new_inode 0 DIRECTORY_MODE 0, new_inode 1 DIRECTORY_MODE 1, new_inode 2 DIRECTORY_MODE 2]
    [dir_block [(str "..", 0), (str "x", 1), (str "y", 2)], dir_block [(str "..", 0)],
      dir_block [(str "..", 0)]]

/-- The image after `create_disk`, `disk_mknod "/a"` and `disk_mknod "/b"` (both regular). -/
def image_ab : Disk :=
  image [new_inode 0 DIRECTORY_MODE 0, new_inode 1 FILE_MODE 1, new_inode 2 FILE_MODE 2]
    [dir_block [(str "..", 0), (str "a", 1), (str "b", 2)], zero_block, zero_block]

/-- The image `image_ab` after a `disk_write` of "hello" at offset 0 to `/b`. -/
def image_ab_hello : Disk :=
  image [new_inode 0 DIRECTORY_MODE 0, new_inode 1 FILE_MODE 1,
      { new_inode 2 FILE_MODE 2 with size := 5 }]
    [dir_block [(str "..", 0), (str "a", 1), (str "b", 2)], zero_block, bytes (str "hello")]

/-- The image `image_ab` after `disk_unlink "/a"`: inode 1 and block 1 are free, slot 1 of the
root is free and still holds the name `a`. -/
def image_b_only : Disk :=
  { image [new_inode 0 DIRECTORY_MODE 0, { new_inode 1 FILE_MODE 1 with nlink := 0 },
        new_inode 2 FILE_MODE 2]
      [dir_block [(str "..", 0), (str "a", -1), (str "b", 2)], zero_block, zero_block] with
    imap := fun w => if w = 0 then 5 else 0
    dmap := fun w => if w = 0 then 5 else 0 }

/-- The image after `create_disk`, `disk_mkdir "/a"`, `disk_mknod "/a/g"`, `disk_mknod "/f"`
(both regular), `disk_rename "/f" "/a/a/g"` and `disk_unlink "/a/g"`: in directory `/a`
(inode 1) slot 1 is free and still holds the name `g`, slot 2 is the live entry `g` for
inode 3. -/
def image_stale : Disk :=
  { image [new_inode 0 DIRECTORY_MODE 0, new_inode 1 DIRECTORY_MODE 1,
        { new_inode 2 FILE_MODE 2 with nlink := 0 }, new_inode 3 FILE_MODE 3]
      [dir_block [(str "..", 0), (str "a", 1), (str "f", -1)],
        dir_block [(str "..", 0), (str "g", -1), (str "g", 3)], zero_block, zero_block] with
    imap := fun w => if w = 0 then 11 else 0
    dmap := fun w => if w = 0 then 11 else 0 }

/-- The image after `create_disk`, `disk_mknod "/a"` (regular) and a `disk_write` of 1024000
zero bytes at offset 0 to `/a`: the file has the 250 blocks 1, 2, 3 and 5 to 251, its
indirect block is block 4, and every one of the 252 data blocks is allocated. -/
def image_full : Disk :=
  { sblock := ⟨48, 174, 252, 111, 14286, 252, 0⟩
    root_ino := 0
    imap := fun w => if w = 0 then 3 else 0
    dmap := fun w => if w < 31 then 255 else if w = 31 then 15 else 0
    iptr := fun j =>
      if j = 0 then new_inode 0 DIRECTORY_MODE 0
      else if j = 1 then
        { new_inode 1 FILE_MODE 1 with
          size := 1024000, dnum := 250, dptrs1 := 2, dptrs2 := 3, indirect_dptr := 4 }
      else zero_disk.iptr 0
    dptr := fun x =>
      if 0 ≤ x ∧ x < 4096 then dir_block [(str "..", 0), (str "a", 1)] x.toNat
      else if 4 * 4096 ≤ x ∧ x < 5 * 4096 then
        (if (x.toNat - 4 * 4096) / 4 < 247 then
          ((5 + (x.toNat - 4 * 4096) / 4) / 256 ^ (x.toNat % 4)) % 256
        else 255)
      else 0 }

/-- Inode `j` is live: its bit in the inode bitmap is set. -/
def live (d : Disk) (j : Int) : Prop :=
  0 ≤ j ∧ j < d.sblock.inum ∧ bmap_isfree d.imap j.toNat = false

/-- The block references of inode `j`, numbered: 0 to 2 are the direct slots, 3 is the
indirect pointer, `4 + k` is entry `k` of the indirect block (-1 when the inode has no indirect
block). -/
def slot_val (d : Disk) (j : Int) (s : Nat) : Int :=
  if s < 3 then (d.iptr j).dptrs s
  else if s = 3 then (d.iptr j).indirect_dptr
  else if 0 ≤ (d.iptr j).indirect_dptr then get_int d.dptr (indirect_addr d j (s - 4))
  else -1

/-- The number of the reference that holds logical block `ii`. -/
def slot_of (ii : Nat) : Nat := if ii < 3 then ii else ii + 1

/-- Every block referenced by a live inode has its data-bitmap bit set. -/
def refs_allocated (d : Disk) : Prop :=
  ∀ j s, live d j → s < 1028 → 0 ≤ slot_val d j s → allocated d (slot_val d j s)

/-- No block is referenced twice by live inodes. -/
def refs_unique (d : Disk) : Prop :=
  ∀ j s j' s', live d j → live d j' → s < 1028 → s' < 1028 → 0 ≤ slot_val d j s →
    slot_val d j s = slot_val d j' s' → j = j' ∧ s = s'

/-- The number of free blocks one iteration of `__write_data` at logical block `ii` takes,
whatever the state of the file: one when the block is unassigned, one more when the indirect
block has to be made. -/
def step_need (d : Disk) (i : Int) (ii : Nat) : Nat :=
  (if slot_val d i (slot_of ii) < 0 then 1 else 0) +
    (if 3 ≤ ii ∧ (d.iptr i).indirect_dptr < 0 then 1 else 0)

/-- The fields of the disk `r.2` that `__write_data_slot` returns: the data bitmap `dmap1`, the
data region `dptr1`, the direct slots `dp` and the indirect pointer `ind1` of the file; the
rest is as before. -/
structure slot_fields (d : Disk) (i : Int) (r : Int × Disk) (dmap1 : Nat → Nat) (dptr1 : Mem)
    (dp : Nat → Int) (ind1 : Int) : Prop where
  sblock_eq : r.2.sblock = d.sblock
  root_eq : r.2.root_ino = d.root_ino
  imap_eq : r.2.imap = d.imap
  iptr_other : ∀ j, j ≠ i → r.2.iptr j = d.iptr j
  dmap_eq : r.2.dmap = dmap1
  dptr_eq : r.2.dptr = dptr1
  dptrs_eq : ∀ k, k < 3 → (r.2.iptr i).dptrs k = dp k
  ind_eq : (r.2.iptr i).indirect_dptr = ind1

/-- What `__write_data_slot` does to the references of the file, whatever its state. -/
structure slot_effect (d : Disk) (i : Int) (ii : Nat) (r : Int × Disk) : Prop where
  sblock_eq : r.2.sblock = d.sblock
  root_eq : r.2.root_ino = d.root_ino
  imap_eq : r.2.imap = d.imap
  iptr_other : ∀ j, j ≠ i → r.2.iptr j = d.iptr j
  dno : r.1 = slot_val r.2 i (slot_of ii)
  dno_nonneg : 0 ≤ r.1
  slot_other : ∀ s, s < 1028 → s ≠ slot_of ii → s ≠ 3 → slot_val r.2 i s = slot_val d i s
  ind_keep : ii < 3 ∨ 0 ≤ (d.iptr i).indirect_dptr → slot_val r.2 i 3 = slot_val d i 3
  ind_new : 3 ≤ ii → (d.iptr i).indirect_dptr < 0 → is_free d (slot_val r.2 i 3)
  blk_keep : 0 ≤ slot_val d i (slot_of ii) →
    slot_val r.2 i (slot_of ii) = slot_val d i (slot_of ii)
  blk_new : slot_val d i (slot_of ii) < 0 →
    is_free d (slot_val r.2 i (slot_of ii)) ∧ slot_val r.2 i (slot_of ii) ≠ slot_val r.2 i 3
  dmap_other : ∀ q : Nat, (q : Int) ≠ slot_val r.2 i (slot_of ii) → (q : Int) ≠ slot_val r.2 i 3 →
    bmap_isfree r.2.dmap q = bmap_isfree d.dmap q
  dmap_mono : ∀ q, bmap_isfree r.2.dmap q = true → bmap_isfree d.dmap q = true
  dmap_blk : slot_val d i (slot_of ii) < 0 →
    bmap_isfree r.2.dmap (slot_val r.2 i (slot_of ii)).toNat = false
  dmap_ind : 3 ≤ ii → (d.iptr i).indirect_dptr < 0 →
    bmap_isfree r.2.dmap (slot_val r.2 i 3).toNat = false
  free : free_blocks r.2 + step_need d i ii = free_blocks d
  mem : ∀ x : Int, x / 4096 ≠ slot_val r.2 i 3 → x / 4096 ≠ slot_val r.2 i (slot_of ii) →
    r.2.dptr x = d.dptr x

/-- What the loop of `__write_data` on file `i` leaves alone: the superblock, the inode
bitmap, the other inodes, the set bits of the data bitmap, and every byte outside the blocks
that were free and the blocks the file referenced; a reference of the file is the one it had
or a block that was free. -/
structure isolated (d d1 : Disk) (i : Int) : Prop where
  sblock_eq : d1.sblock = d.sblock
  root_eq : d1.root_ino = d.root_ino
  imap_eq : d1.imap = d.imap
  iptr_other : ∀ j, j ≠ i → d1.iptr j = d.iptr j
  dmap_mono : ∀ q, bmap_isfree d1.dmap q = true → bmap_isfree d.dmap q = true
  own : ∀ s, s < 1028 → slot_val d1 i s = slot_val d i s ∨ is_free d (slot_val d1 i s)
  frame : ∀ x : Int, ¬ is_free d (x / 4096) → (∀ s, s < 1028 → slot_val d i s ≠ x / 4096) →
    d1.dptr x = d.dptr x

set_option maxRecDepth 100000

@[simp] theorem and_then_some {α β : Type} (a : α) (k : α → Option β) :
    and_then (some a) k = k a := rfl

@[simp] theorem and_then_none {α β : Type} (k : α → Option β) :
    and_then (none : Option α) k = none := rfl

theorem put_int_other (m : Mem) (a v x : Int) (h : x < a ∨ a + 4 ≤ x) :
    put_int m a v x = m x := by
  unfold put_int
  have h0 : x ≠ a := by omega
  have h1 : x ≠ a + 1 := by omega
  have h2 : x ≠ a + 2 := by omega
  have h3 : x ≠ a + 3 := by omega
  simp [h0, h1, h2, h3]

theorem get_int_congr (m m' : Mem) (a : Int)
    (h : ∀ x, a ≤ x → x < a + 4 → m' x = m x) : get_int m' a = get_int m a := by
  unfold get_int
  rw [h a (by omega) (by omega), h (a + 1) (by omega) (by omega),
    h (a + 2) (by omega) (by omega), h (a + 3) (by omega) (by omega)]

theorem get_int_put_int_other (m : Mem) (a a' v : Int) (h : a' + 4 ≤ a ∨ a + 4 ≤ a') :
    get_int (put_int m a v) a' = get_int m a' :=
  get_int_congr _ _ _ (fun x h1 h2 => put_int_other m a v x (by omega))

theorem get_int_put_int_same (m : Mem) (a v : Int)
    (hv : -2147483648 ≤ v ∧ v < 2147483648) : get_int (put_int m a v) a = v := by
  unfold get_int put_int
  have e1 : a + 1 ≠ a := by omega
  have e2 : a + 2 ≠ a := by omega
  have e3 : a + 3 ≠ a := by omega
  have e4 : a + 2 ≠ a + 1 := by omega
  have e5 : a + 3 ≠ a + 1 := by omega
  have e6 : a + 3 ≠ a + 2 := by omega
  simp only [if_true, if_false, e1, e2, e3, e4, e5, e6]
  generalize hu : (v % 4294967296).toNat = u
  have hu' : (u : Int) = v % 4294967296 := by omega
  have hlt : u < 4294967296 := by omega
  have hsum : u % 256 + 256 * (u / 256 % 256) + 65536 * (u / 65536 % 256)
      + 16777216 * (u / 16777216 % 256) = u := by omega
  rw [hsum]
  split_ifs with hc <;> omega

theorem get_int_range (m : Mem) (a : Int) (h : ∀ x, a ≤ x → x < a + 4 → m x < 256) :
    -2147483648 ≤ get_int m a ∧ get_int m a < 2147483648 := by
  unfold get_int
  have h0 := h a (by omega) (by omega)
  have h1 := h (a + 1) (by omega) (by omega)
  have h2 := h (a + 2) (by omega) (by omega)
  have h3 := h (a + 3) (by omega) (by omega)
  simp only
  split_ifs with hc <;> omega

theorem bmap_get_eq (b : Nat → Nat) (q : Nat) :
    bmap_get b q = ((b (q / 8)).testBit (q % 8)).toNat := by
  unfold bmap_get
  rw [Nat.toNat_testBit, Nat.and_one_is_mod, Nat.shiftRight_eq_div_pow]

theorem bmap_isfree_eq (b : Nat → Nat) (q : Nat) :
    bmap_isfree b q = !(b (q / 8)).testBit (q % 8) := by
  unfold bmap_isfree
  rw [bmap_get_eq]
  cases (b (q / 8)).testBit (q % 8) <;> rfl

theorem testBit_put (w k k' v : Nat) (hk : k < 8) (hk' : k' < 8) :
    (((w % 256) &&& (255 ^^^ (1 <<< k))) ||| ((v &&& 1) <<< k)).testBit k' =
      if k' = k then v.testBit 0 else w.testBit k' := by
  have h256 : (256 : Nat) = 2 ^ 8 := by norm_num
  have h255 : ∀ j, j < 8 → (255 : Nat).testBit j = true := by
    intro j hj; interval_cases j <;> rfl
  rw [Nat.testBit_lor, Nat.testBit_land, Nat.testBit_xor, h256, Nat.testBit_mod_two_pow,
    h255 k' hk', Nat.testBit_shiftLeft, Nat.testBit_shiftLeft]
  by_cases hkk : k' = k
  · subst hkk
    simp
  · simp only [hkk, if_false]
    by_cases hle : k ≤ k'
    · have hj : 1 ≤ k' - k := by omega
      have hp : 2 ≤ 2 ^ (k' - k) := by
        calc 2 = 2 ^ 1 := by norm_num
          _ ≤ 2 ^ (k' - k) := Nat.pow_le_pow_right (by norm_num) hj
      have t1 : Nat.testBit 1 (k' - k) = false := Nat.testBit_lt_two_pow (by omega)
      have t2 : (v % 2).testBit (k' - k) = false :=
        Nat.testBit_lt_two_pow (by omega)
      have t3 : (v &&& 1).testBit (k' - k) = false := by
        rw [Nat.and_one_is_mod]; exact t2
      simp [hk', t1, t2, t3]
    · simp [hk', hle]

theorem bmap_isfree_put_same (b : Nat → Nat) (p v : Nat) :
    bmap_isfree (bmap_put b p v) p = !v.testBit 0 := by
  rw [bmap_isfree_eq]
  unfold bmap_put
  simp only [if_true]
  rw [testBit_put _ _ _ _ (Nat.mod_lt _ (by norm_num)) (Nat.mod_lt _ (by norm_num))]
  simp

theorem bmap_isfree_put_other (b : Nat → Nat) (p q v : Nat) (h : q ≠ p) :
    bmap_isfree (bmap_put b p v) q = bmap_isfree b q := by
  rw [bmap_isfree_eq, bmap_isfree_eq]
  unfold bmap_put
  by_cases hb : q / 8 = p / 8
  · simp only [hb, if_true]
    rw [testBit_put _ _ _ _ (Nat.mod_lt _ (by norm_num)) (Nat.mod_lt _ (by norm_num))]
    have : q % 8 ≠ p % 8 := by omega
    simp [this]
  · simp [hb]

theorem bmap_isfree_set (b : Nat → Nat) (p q : Nat) :
    bmap_isfree (bmap_set b p) q = if q = p then false else bmap_isfree b q := by
  unfold bmap_set
  by_cases h : q = p
  · subst h; simp [bmap_isfree_put_same]
  · simp [h, bmap_isfree_put_other _ _ _ _ h]

theorem bmap_isfree_clear (b : Nat → Nat) (p q : Nat) :
    bmap_isfree (bmap_put b p 0) q = if q = p then true else bmap_isfree b q := by
  by_cases h : q = p
  · subst h; simp [bmap_isfree_put_same]
  · simp [h, bmap_isfree_put_other _ _ _ _ h]

/-! ## Lemmas: freeing the blocks of an inode -/

theorem and_then_eq_some {α β : Type} (x : Option α) (k : α → Option β) (b : β) :
    and_then x k = some b ↔ ∃ a, x = some a ∧ k a = some b := by
  cases x <;> simp [and_then]

theorem bmap_free_eq_some (b b' : Nat → Nat) (pos : Int) (h : bmap_free b pos = some b') :
    0 ≤ pos ∧ b' = bmap_put b pos.toNat 0 := by
  unfold bmap_free at h
  split_ifs at h with hp
  exact ⟨hp, by simpa using h.symm⟩

theorem delete_direct_spec (node : inode) (n : Nat) :
    ∀ (dmap dmap' : Nat → Nat) (ii : Nat),
      __delete_inode_direct node dmap n ii = some dmap' →
      (∀ q, bmap_isfree dmap q = true → bmap_isfree dmap' q = true) ∧
      (∀ j, ii ≤ j → j < ii + n → (∀ j', ii ≤ j' → j' ≤ j → 0 ≤ node.dptrs j') →
        bmap_isfree dmap' (node.dptrs j).toNat = true) := by
  induction n with
  | zero =>
    intro dmap dmap' ii h
    simp [__delete_inode_direct] at h
    subst h
    exact ⟨fun q hq => hq, fun j h1 h2 => by omega⟩
  | succ n ih =>
    intro dmap dmap' ii h
    rw [__delete_inode_direct] at h
    split_ifs at h with hneg
    · simp at h
      subst h
      refine ⟨fun q hq => hq, fun j h1 h2 hall => ?_⟩
      have := hall ii (le_refl _) h1
      omega
    · rw [and_then_eq_some] at h
      obtain ⟨dmap1, h1, h2⟩ := h
      obtain ⟨hpos, rfl⟩ := bmap_free_eq_some _ _ _ h1
      obtain ⟨ihm, ihc⟩ := ih _ _ _ h2
      have hmono1 : ∀ q, bmap_isfree dmap q = true →
          bmap_isfree (bmap_put dmap (node.dptrs ii).toNat 0) q = true := by
        intro q hq
        rw [bmap_isfree_clear]
        split_ifs <;> simp [hq]
      refine ⟨fun q hq => ihm q (hmono1 q hq), fun j hj1 hj2 hall => ?_⟩
      by_cases hj : j = ii
      · subst hj
        apply ihm
        rw [bmap_isfree_clear]; simp
      · exact ihc j (by omega) (by omega) (fun j' a b => hall j' (by omega) b)

theorem delete_indirect_spec (m : Mem) (base : Int) (n : Nat) :
    ∀ (dmap dmap' : Nat → Nat) (ii : Nat),
      __delete_inode_indirect m base dmap n ii = some dmap' →
      (∀ q, bmap_isfree dmap q = true → bmap_isfree dmap' q = true) ∧
      (∀ j, ii ≤ j → j < ii + n →
        (∀ j', ii ≤ j' → j' ≤ j → 0 ≤ get_int m (base + 4 * (j' : Int))) →
        bmap_isfree dmap' (get_int m (base + 4 * (j : Int))).toNat = true) := by
  induction n with
  | zero =>
    intro dmap dmap' ii h
    simp [__delete_inode_indirect] at h
    subst h
    exact ⟨fun q hq => hq, fun j h1 h2 => by omega⟩
  | succ n ih =>
    intro dmap dmap' ii h
    rw [__delete_inode_indirect] at h
    split_ifs at h with hneg
    · simp at h
      subst h
      refine ⟨fun q hq => hq, fun j h1 h2 hall => ?_⟩
      have := hall ii (le_refl _) h1
      omega
    · rw [and_then_eq_some] at h
      obtain ⟨dmap1, h1, h2⟩ := h
      obtain ⟨hpos, rfl⟩ := bmap_free_eq_some _ _ _ h1
      obtain ⟨ihm, ihc⟩ := ih _ _ _ h2
      have hmono1 : ∀ q, bmap_isfree dmap q = true →
          bmap_isfree (bmap_put dmap (get_int m (base + 4 * (ii : Int))).toNat 0) q = true := by
        intro q hq
        rw [bmap_isfree_clear]
        split_ifs <;> simp [hq]
      refine ⟨fun q hq => ihm q (hmono1 q hq), fun j hj1 hj2 hall => ?_⟩
      by_cases hj : j = ii
      · subst hj
        apply ihm
        rw [bmap_isfree_clear]; simp
      · exact ihc j (by omega) (by omega) (fun j' a b => hall j' (by omega) b)

theorem dir_delete_inode_loop_frame (base ino : Int) (n : Nat) :
    ∀ (m : Mem) (ii : Nat) (x : Int),
      (x < base + 64 * (ii : Int) ∨ base + 64 * ((ii : Int) + n) ≤ x) →
      dir_delete_inode_loop m base ino n ii x = m x := by
  induction n with
  | zero => intro m ii x _; rfl
  | succ n ih =>
    intro m ii x hx
    rw [dir_delete_inode_loop]
    split_ifs with hc
    · apply put_int_other
      push_cast at hx ⊢
      omega
    · apply ih
      push_cast at hx ⊢
      omega

theorem delete_inode_spec (d d' : Disk) (i : Int) (h : __delete_inode d i = some d') :
    d'.iptr = d.iptr ∧ d'.dptr = d.dptr ∧
    bmap_isfree d'.imap (d.iptr i).ino.toNat = true ∧
    (∀ j, j < BLOCKS_NUM → (∀ j', j' ≤ j → 0 ≤ (d.iptr i).dptrs j') →
      bmap_isfree d'.dmap ((d.iptr i).dptrs j).toNat = true) ∧
    (0 ≤ (d.iptr i).indirect_dptr →
      bmap_isfree d'.dmap (d.iptr i).indirect_dptr.toNat = true ∧
      ∀ j, j < BLOCK_SIZE / 4 →
        (∀ j', j' ≤ j → 0 ≤ get_int d.dptr (indirect_addr d i j')) →
        bmap_isfree d'.dmap (get_int d.dptr (indirect_addr d i j)).toNat = true) := by
  unfold __delete_inode at h
  rw [and_then_eq_some] at h
  obtain ⟨imap1, h1, h⟩ := h
  rw [and_then_eq_some] at h
  obtain ⟨dmap1, h2, h⟩ := h
  obtain ⟨_, rfl⟩ := bmap_free_eq_some _ _ _ h1
  obtain ⟨hm1, hc1⟩ := delete_direct_spec _ _ _ _ _ h2
  have himap : bmap_isfree (bmap_put d.imap (d.iptr i).ino.toNat 0) (d.iptr i).ino.toNat = true := by
    rw [bmap_isfree_clear]; simp
  split_ifs at h with hind
  · simp only [Option.some.injEq] at h
    subst h
    refine ⟨rfl, rfl, himap, fun j hj hall => ?_, fun h0 => by omega⟩
    exact hc1 j (Nat.zero_le _) (by omega) (fun j' _ hb => hall j' hb)
  · rw [and_then_eq_some] at h
    obtain ⟨dmap2, h3, h⟩ := h
    obtain ⟨hm2, hc2⟩ := delete_indirect_spec _ _ _ _ _ _ h3
    simp only [Option.map_eq_some'] at h
    obtain ⟨dmap3, h4, rfl⟩ := h
    obtain ⟨_, rfl⟩ := bmap_free_eq_some _ _ _ h4
    have hm3 : ∀ q, bmap_isfree dmap2 q = true →
        bmap_isfree (bmap_put dmap2 (d.iptr i).indirect_dptr.toNat 0) q = true := by
      intro q hq
      rw [bmap_isfree_clear]
      split_ifs <;> simp [hq]
    refine ⟨rfl, rfl, himap, fun j hj hall => ?_, fun _ => ⟨?_, fun j hj hall => ?_⟩⟩
    · exact hm3 _ (hm2 _ (hc1 j (Nat.zero_le _) (by omega) (fun j' _ hb => hall j' hb)))
    · simp only []
      rw [bmap_isfree_clear]; simp
    · apply hm3
      have := hc2 j (Nat.zero_le _) (by omega) (fun j' _ hb => by
        have := hall j' hb
        simpa [indirect_addr] using this)
      simpa [indirect_addr] using this

theorem set_inode_iptr_same (d : Disk) (i : Int) (n : inode) : (d.set_inode i n).iptr i = n := by
  simp [Disk.set_inode]

theorem set_inode_iptr_other (d : Disk) (i j : Int) (n : inode) (h : j ≠ i) :
    (d.set_inode i n).iptr j = d.iptr j := by
  simp [Disk.set_inode, h]

theorem dptrs_congr (n n' : inode) (h0 : n'.dptrs0 = n.dptrs0) (h1 : n'.dptrs1 = n.dptrs1)
    (h2 : n'.dptrs2 = n.dptrs2) (j : Nat) : n'.dptrs j = n.dptrs j := by
  unfold inode.dptrs
  split <;> assumption

/-- What `disk_unlink` does once the path resolves: the steps after the lookup. -/
theorem disk_unlink_steps (d d' : Disk) (p : List Nat) (i tt : Int)
    (hres : __find_ino d p = some i) (hi : 0 ≤ i)
    (hret : disk_unlink d p tt = some (0, d')) :
    ∃ pp dir d2 d3, __parent_path p = some pp ∧ __find_ino d pp = some dir ∧
      d2.sblock = d.sblock ∧ d2.imap = d.imap ∧ d2.dmap = d.dmap ∧
      d2.iptr i = { d.iptr i with nlink := (d.iptr i).nlink - 1 } ∧
      d2.dptr = dir_delete_inode_loop d.dptr (disk_get_dblock (d.iptr dir).dptrs0)
        (d.iptr i).ino DENTRY_COUNT 0 ∧
      (if (d.iptr i).nlink - 1 = 0 then __delete_inode d2 i else some d2) = some d3 ∧
      d'.imap = d3.imap ∧ d'.dmap = d3.dmap ∧ (d'.iptr i).nlink = (d3.iptr i).nlink := by
  unfold disk_unlink at hret
  have hex : __exists_inode d p = some true := by simp [__exists_inode, hres, hi]
  rw [hex] at hret
  simp only [and_then_some, Bool.not_true, Bool.false_eq_true, if_false, __get_inode, hres] at hret
  rw [and_then_eq_some] at hret
  obtain ⟨pp, hpp, hret⟩ := hret
  rw [and_then_eq_some] at hret
  obtain ⟨dir, hdir, hret⟩ := hret
  rw [and_then_eq_some] at hret
  obtain ⟨d1, hd1, hret⟩ := hret
  unfold dir_delete_inode at hd1
  split_ifs at hd1 with hino0
  simp only [Option.some.injEq] at hd1
  subst hd1
  simp only [Option.map_eq_some', Prod.mk.injEq] at hret
  obtain ⟨d3, hd3, -, rfl⟩ := hret
  refine ⟨pp, dir, Disk.set_inode ⟨d.sblock, d.root_ino, d.imap, d.dmap, d.iptr,
      dir_delete_inode_loop d.dptr (disk_get_dblock (d.iptr dir).dptrs0) (d.iptr i).ino
        DENTRY_COUNT 0⟩ i { d.iptr i with nlink := (d.iptr i).nlink - 1 }, d3, hpp, hdir,
      rfl, rfl, rfl, ?_, rfl, ?_, rfl, rfl, ?_⟩
  · simp [Disk.set_inode]
  · simpa [Disk.set_inode] using hd3
  · simp [Disk.set_inode]

/-! ## Lemmas: block allocation and one iteration of `__write_data` -/

theorem get_free_dno_loop_spec (d : Disk) (n : Nat) :
    ∀ start, (∃ q, start ≤ q ∧ q < start + n ∧ bmap_isfree d.dmap q = true) →
      ∃ b, start ≤ b ∧ b < start + n ∧ bmap_isfree d.dmap b = true ∧
        __get_free_dno_loop d n start = ((b : Int), { d with dmap := bmap_set d.dmap b }) := by
  induction n with
  | zero => intro start ⟨q, h1, h2, _⟩; omega
  | succ n ih =>
    intro start ⟨q, h1, h2, h3⟩
    rw [__get_free_dno_loop]
    by_cases hs : bmap_isfree d.dmap start = true
    · exact ⟨start, le_refl _, by omega, hs, by simp [hs]⟩
    · have hq : q ≠ start := by rintro rfl; exact hs h3
      obtain ⟨b, hb1, hb2, hb3, hb4⟩ := ih (start + 1) ⟨q, by omega, by omega, h3⟩
      exact ⟨b, by omega, by omega, hb3, by simp [hs, hb4]⟩

theorem countP_range_flip (p p' : Nat → Bool) (b : Nat) (hb : p b = true) (hb' : p' b = false)
    (hoth : ∀ q, q ≠ b → p' q = p q) :
    ∀ N, b < N → (List.range N).countP p' + 1 = (List.range N).countP p := by
  have hsame : ∀ N, N ≤ b → (List.range N).countP p' = (List.range N).countP p := by
    intro N hN
    apply List.countP_congr
    intro x hx
    have : x < N := List.mem_range.mp hx
    rw [hoth x (by omega)]
  intro N
  induction N with
  | zero => intro h; omega
  | succ N ih =>
    intro hN
    rw [List.range_succ, List.countP_append, List.countP_append]
    by_cases hbN : b = N
    · subst hbN
      rw [hsame b (le_refl _)]
      simp [List.countP_cons, hb, hb']
    · have := ih (by omega)
      have e : p' N = p N := hoth N (by omega)
      simp only [List.countP_cons, List.countP_nil, e]
      omega

theorem get_free_dno_spec (d : Disk) (hfree : 0 < free_blocks d) :
    ∃ b : Nat, (b : Int) < d.sblock.dnum ∧ bmap_isfree d.dmap b = true ∧
      __get_free_dno d = ((b : Int), { d with dmap := bmap_set d.dmap b }) ∧
      free_blocks { d with dmap := bmap_set d.dmap b } + 1 = free_blocks d := by
  unfold free_blocks at hfree
  rw [List.countP_pos_iff] at hfree
  obtain ⟨q, hq1, hq2⟩ := hfree
  have hq := List.mem_range.mp hq1
  obtain ⟨b, -, hb2, hb3, hb4⟩ := get_free_dno_loop_spec d d.sblock.dnum.toNat 0
    ⟨q, Nat.zero_le _, by omega, hq2⟩
  refine ⟨b, by omega, hb3, hb4, ?_⟩
  unfold free_blocks
  apply countP_range_flip _ _ b hb3
  · simp [bmap_isfree_set]
  · intro q hq; simp [bmap_isfree_set, hq]
  · show b < d.sblock.dnum.toNat
    omega

theorem write_frame.refl (d : Disk) (i : Int) : write_frame d d i :=
  ⟨rfl, rfl, rfl, fun _ _ => rfl, rfl, fun _ h => h⟩

theorem write_frame.trans {d d1 d2 : Disk} {i : Int} (h1 : write_frame d d1 i)
    (h2 : write_frame d1 d2 i) : write_frame d d2 i :=
  ⟨h2.sblock_eq.trans h1.sblock_eq, h2.root_eq.trans h1.root_eq, h2.imap_eq.trans h1.imap_eq,
    fun j hj => (h2.iptr_other j hj).trans (h1.iptr_other j hj),
    h2.mode_eq.trans h1.mode_eq, fun q h => h1.dmap_mono q (h2.dmap_mono q h)⟩

theorem write_frame.not_free {d d' : Disk} {i : Int} (h : write_frame d d' i) (b : Int)
    (hb : ¬ is_free d b) : ¬ is_free d' b := by
  intro ⟨h1, h2, h3⟩
  exact hb ⟨h1, by rw [← h.sblock_eq]; exact h2, h.dmap_mono _ h3⟩

theorem write_frame.allocated {d d' : Disk} {i : Int} (h : write_frame d d' i) (b : Int)
    (hb : allocated d b) : allocated d' b := by
  refine ⟨hb.1, ?_⟩
  cases hc : bmap_isfree d'.dmap b.toNat
  · rfl
  · have := h.dmap_mono _ hc
    rw [hb.2] at this
    exact absurd this (by simp)

theorem allocated_not_free {d : Disk} {b : Int} (h : allocated d b) : ¬ is_free d b := by
  intro ⟨_, _, h3⟩
  rw [h.2] at h3
  exact absurd h3 (by simp)

theorem dptrs_set_dptrs (n : inode) (ii k : Nat) (v : Int) (hii : ii < 3) (hk : k < 3) :
    (n.set_dptrs ii v).dptrs k = if k = ii then v else n.dptrs k := by
  interval_cases ii <;> interval_cases k <;> rfl

theorem create_indirect_loop_spec (base : Int) (n : Nat) :
    ∀ (m : Mem) (ii : Nat),
      (∀ k : Nat, ii ≤ k → k < ii + n →
        get_int (__create_indirect_dptr_loop base m n ii) (base + 4 * (k : Int)) = -1) ∧
      (∀ x : Int, (x < base + 4 * (ii : Int) ∨ base + 4 * ((ii : Int) + n) ≤ x) →
        __create_indirect_dptr_loop base m n ii x = m x) := by
  induction n with
  | zero =>
    intro m ii
    exact ⟨fun k h1 h2 => by omega, fun x _ => rfl⟩
  | succ n ih =>
    intro m ii
    obtain ⟨ih1, ih2⟩ := ih (put_int m (base + 4 * (ii : Int)) (-1)) (ii + 1)
    rw [__create_indirect_dptr_loop]
    refine ⟨fun k h1 h2 => ?_, fun x hx => ?_⟩
    · by_cases hk : k = ii
      · subst hk
        rw [get_int_congr (put_int m (base + 4 * (k : Int)) (-1)) _ (base + 4 * (k : Int))
          (fun x hx1 hx2 => ih2 x (by push_cast; omega))]
        exact get_int_put_int_same _ _ _ (by norm_num)
      · exact ih1 k (by omega) (by omega)
    · rw [ih2 x (by push_cast at hx ⊢; omega)]
      exact put_int_other _ _ _ _ (by push_cast at hx ⊢; omega)

theorem block_of_direct (d : Disk) (i : Int) (k : Nat) (hk : k < 3) :
    block_of d i k = (d.iptr i).dptrs k := by
  simp [block_of, hk]

theorem block_of_indirect (d : Disk) (i : Int) (k : Nat) (hk : 3 ≤ k) :
    block_of d i k = get_int d.dptr (indirect_addr d i (k - 3)) := by
  have : ¬ k < 3 := by omega
  simp [block_of, this]

theorem allocated_of_dmap_set (d d' : Disk) (b : Nat) (c : Int)
    (hdmap : d'.dmap = bmap_set d.dmap b) (hc : allocated d c) : allocated d' c := by
  refine ⟨hc.1, ?_⟩
  rw [hdmap, bmap_isfree_set]
  split_ifs
  · rfl
  · exact hc.2

/-- Assigning the free block `b` to logical block `n` of a file with `n` blocks keeps the
file well formed. -/
theorem file_wf_alloc (d d' : Disk) (i : Int) (n b : Nat) (hwf : file_wf d i n)
    (hb : is_free d (b : Int)) (hdmap : d'.dmap = bmap_set d.dmap b)
    (hdnum : (d'.iptr i).dnum = (n : Int) + 1)
    (hind : (d'.iptr i).indirect_dptr = (d.iptr i).indirect_dptr)
    (hblk : ∀ k, k < 1027 → block_of d' i k = if k = n then (b : Int) else block_of d i k)
    (hn1027 : n < 1027)
    (hn : n < 3 ∨ allocated d (d.iptr i).indirect_dptr) :
    file_wf d' i (n + 1) := by
  have hballoc : ∀ c, allocated d c → c ≠ (b : Int) := by
    intro c hc hcb
    subst hcb
    exact allocated_not_free hc hb
  refine ⟨by rw [hdnum]; push_cast; rfl, by show n + 1 ≤ 3 + 4096 / 4; omega, ?_, ?_, ?_, ?_⟩
  · intro k hk
    rw [hblk k (by omega)]
    split_ifs with hkn
    · exact ⟨by omega, by rw [hdmap, bmap_isfree_set]; simp⟩
    · exact allocated_of_dmap_set d d' b _ hdmap (hwf.alloc k (by omega))
  · intro k k' hk hk' he
    rw [hblk k (by omega), hblk k' (by omega)] at he
    split_ifs at he with h1 h2 h2
    · omega
    · exact absurd he.symm (hballoc _ (hwf.alloc k' (by omega)))
    · exact absurd he (hballoc _ (hwf.alloc k (by omega)))
    · exact hwf.inj k k' (by omega) (by omega) he
  · intro k hk hk3
    have hk3' : k < 3 := hk3
    rw [hblk k (by omega)]
    have : k ≠ n := by omega
    simp only [this, if_false]
    exact hwf.direct_tail k (by omega) hk3
  · rw [hind]
    have hsecond : allocated d (d.iptr i).indirect_dptr →
        allocated d' (d.iptr i).indirect_dptr ∧
        (∀ k, k < n + 1 → block_of d' i k ≠ (d.iptr i).indirect_dptr) ∧
        ∀ k, n + 1 ≤ k → BLOCKS_NUM ≤ k → k < BLOCKS_NUM + BLOCK_SIZE / 4 →
          block_of d' i k < 0 := by
      intro h1
      rcases hwf.ind with ⟨h0, _⟩ | ⟨_, h2, h3'⟩
      · have := h1.1; omega
      · refine ⟨allocated_of_dmap_set d d' b _ hdmap h1, fun k hk => ?_, fun k hk hk3 hkm => ?_⟩
        · rw [hblk k (by omega)]
          split_ifs with hki
          · exact fun e => hballoc _ h1 e.symm
          · exact h2 k (by omega)
        · have hkm' : k < 1027 := hkm
          rw [hblk k hkm']
          have : k ≠ n := by omega
          simp only [this, if_false]
          exact h3' k (by omega) hk3 hkm
    rcases hwf.ind with ⟨h1, h2⟩ | ⟨h1, _, _⟩
    · rcases hn with hn | hn
      · exact Or.inl ⟨h1, by show n + 1 ≤ 3; omega⟩
      · exact Or.inr (hsecond hn)
    · exact Or.inr (hsecond h1)

theorem free_blocks_congr (d d' : Disk) (h1 : d'.sblock = d.sblock) (h2 : d'.dmap = d.dmap) :
    free_blocks d' = free_blocks d := by
  unfold free_blocks
  rw [h1, h2]

theorem slot_direct (d : Disk) (i : Int) (n ii : Nat) (hwf : file_wf d i n)
    (hii : ii ≤ n) (h3 : ii < 3) (hfree : slot_need d i n ii ≤ free_blocks d) :
    slot_post d i n ii (max n (ii + 1)) (__write_data_slot d i ii) := by
  have h3' : ii < BLOCKS_NUM := h3
  have hneed : slot_need d i n ii = if ii = n then 1 else 0 := by
    unfold slot_need
    have : ¬ (BLOCKS_NUM ≤ ii) := by show ¬ (3 ≤ ii); omega
    simp [this]
  unfold __write_data_slot
  simp only [h3', if_true]
  by_cases hneg : (d.iptr i).dptrs ii < 0
  · have hiin : ii = n := by
      by_contra hne
      have := (hwf.alloc ii (by omega)).1
      rw [block_of_direct _ _ _ h3] at this
      omega
    subst hiin
    simp only [hneg, if_true]
    rw [hneed] at hfree
    simp only [if_true] at hfree
    obtain ⟨b, hb1, hb2, hb3, hb4⟩ := get_free_dno_spec d (by omega)
    simp only [hb3]
    have hbfree : is_free d (b : Int) := ⟨by omega, hb1, by simpa using hb2⟩
    have hmax : max ii (ii + 1) = ii + 1 := by omega
    rw [hmax]
    have hindr : ((d.iptr i).set_dptrs ii (b : Int)).indirect_dptr = (d.iptr i).indirect_dptr := by
      interval_cases ii <;> rfl
    have hmoder : ((d.iptr i).set_dptrs ii (b : Int)).mode = (d.iptr i).mode := by
      interval_cases ii <;> rfl
    have hblk : ∀ k, k < 1027 → block_of (Disk.set_inode { d with dmap := bmap_set d.dmap b } i
        { (d.iptr i).set_dptrs ii b with dnum := (d.iptr i).dnum + 1 }) i k =
        if k = ii then (b : Int) else block_of d i k := by
      intro k _
      by_cases hk : k < 3
      · rw [block_of_direct _ _ _ hk, block_of_direct _ _ _ hk, set_inode_iptr_same]
        rw [← dptrs_set_dptrs _ _ _ _ h3 hk]
        exact dptrs_congr _ _ rfl rfl rfl k
      · have hk' : 3 ≤ k := by omega
        have hne : k ≠ ii := by omega
        rw [block_of_indirect _ _ _ hk', block_of_indirect _ _ _ hk']
        simp [indirect_addr, Disk.set_inode, hindr, hne]
    refine ⟨?_, ?_, ?_, ⟨rfl, rfl, rfl, ?_, ?_, ?_⟩, Or.inl ?_, fun _ => hbfree, ?_, fun x _ _ => rfl⟩
    · exact file_wf_alloc d _ i ii b hwf hbfree rfl (by simp [Disk.set_inode, hwf.dnum_eq])
        (by simp [Disk.set_inode, hindr]) hblk (by omega) (Or.inl h3)
    · show (b : Int) = _
      rw [hblk ii (by omega)]; simp
    · rw [hneed]; simpa using hb4
    · intro j hj; exact set_inode_iptr_other _ _ _ _ hj
    · simp [Disk.set_inode, hmoder]
    · intro q hq
      have : bmap_isfree (bmap_set d.dmap b) q = true := hq
      rw [bmap_isfree_set] at this
      split_ifs at this
      exact this
    · simp [Disk.set_inode, hindr]
    · intro k hk
      rw [hblk k (by omega)]
      have : k ≠ ii := by omega
      simp [this]
  · simp only [hneg, if_false]
    have hiin : ii < n := by
      by_contra hne
      have := hwf.direct_tail ii (by omega) h3
      rw [block_of_direct _ _ _ h3] at this
      omega
    have hmax : max n (ii + 1) = n := by omega
    rw [hmax]
    refine ⟨hwf, (block_of_direct _ _ _ h3).symm, ?_, write_frame.refl _ _, Or.inl rfl,
      fun h => by omega, fun _ _ => rfl, fun _ _ _ => rfl⟩
    rw [hneed]
    have : ii ≠ n := by omega
    simp [this]

theorem ensure_indirect_spec (d : Disk) (i : Int) (n : Nat) (hwf : file_wf d i n)
    (hn3 : 3 ≤ n)
    (hfree : (if (d.iptr i).indirect_dptr < 0 then 1 else 0) ≤ free_blocks d) :
    ensure_post d (ensure_indirect d i) i n := by
  unfold ensure_indirect
  by_cases hneg : (d.iptr i).indirect_dptr < 0
  · simp only [hneg, if_true] at hfree ⊢
    have hn : n = 3 := by
      rcases hwf.ind with ⟨_, h2⟩ | ⟨h1, _, _⟩
      · have : n ≤ 3 := h2
        omega
      · have := h1.1; omega
    subst hn
    obtain ⟨b, hb1, hb2, hb3, hb4⟩ := get_free_dno_spec d (by omega)
    have hbfree : is_free d (b : Int) := ⟨by omega, hb1, by simpa using hb2⟩
    have hballoc : ∀ c, allocated d c → c ≠ (b : Int) := by
      intro c hc hcb
      subst hcb
      exact allocated_not_free hc hbfree
    unfold __create_indirect_dptr
    simp only [hb3]
    obtain ⟨hl1, hl2⟩ := create_indirect_loop_spec (disk_get_dblock (b : Int)) (BLOCK_SIZE / 4)
      d.dptr 0
    generalize hm : __create_indirect_dptr_loop (disk_get_dblock (b : Int)) d.dptr
      (BLOCK_SIZE / 4) 0 = m at hl1 hl2
    have hblk : ∀ k, block_of (Disk.set_inode ⟨d.sblock, d.root_ino, d.imap,
        bmap_set d.dmap b, d.iptr, m⟩ i { d.iptr i with indirect_dptr := (b : Int) }) i k =
        if k < 3 then block_of d i k else get_int m (disk_get_dblock (b : Int) + 4 * ((k - 3 : Nat) : Int)) := by
      intro k
      by_cases hk : k < 3
      · rw [block_of_direct _ _ _ hk, block_of_direct _ _ _ hk, set_inode_iptr_same]
        simp only [hk, if_true]
        exact dptrs_congr _ _ rfl rfl rfl k
      · rw [block_of_indirect _ _ _ (by omega)]
        simp [hk, indirect_addr, Disk.set_inode]
    refine ⟨⟨?_, hwf.le_max, ?_, ?_, ?_, Or.inr ⟨?_, ?_, ?_⟩⟩, ?_, ?_, ⟨rfl, rfl, rfl, ?_, ?_, ?_⟩,
      Or.inr ?_, ?_, ?_⟩
    · simp [Disk.set_inode, hwf.dnum_eq]
    · intro k hk
      rw [hblk k]; simp only [hk, if_true]
      exact allocated_of_dmap_set d _ b _ rfl (hwf.alloc k hk)
    · intro k k' hk hk' he
      rw [hblk k, hblk k'] at he
      simp only [hk, hk', if_true] at he
      exact hwf.inj k k' hk hk' he
    · intro k hk hk3
      have : k < 3 := hk3
      omega
    · simp only [set_inode_iptr_same]
      exact ⟨by omega, by
        show bmap_isfree (bmap_set d.dmap b) (b : Int).toNat = false
        rw [bmap_isfree_set]; simp⟩
    · intro k hk
      rw [hblk k]; simp only [hk, if_true, set_inode_iptr_same]
      exact hballoc _ (hwf.alloc k hk)
    · intro k hk hk3 hkm
      have hk3' : ¬ k < 3 := by omega
      have hkm' : k < 3 + 1024 := hkm
      rw [hblk k]; simp only [hk3', if_false]
      have := hl1 (k - 3) (Nat.zero_le _) (by show k - 3 < 0 + 4096 / 4; omega)
      rw [this]; norm_num
    · simp only [set_inode_iptr_same]
      exact ⟨by omega, by
        show bmap_isfree (bmap_set d.dmap b) (b : Int).toNat = false
        rw [bmap_isfree_set]; simp⟩
    · rw [← hb4]
      simp only [hneg, if_true]
      rfl
    · intro j hj; exact set_inode_iptr_other _ _ _ _ hj
    · simp [Disk.set_inode]
    · intro q hq
      have : bmap_isfree (bmap_set d.dmap b) q = true := hq
      rw [bmap_isfree_set] at this
      split_ifs at this
      exact this
    · simp only [set_inode_iptr_same]; exact hbfree
    · intro k hk
      rw [hblk k]; simp [hk]
    · intro x hx
      show m x = d.dptr x
      apply hl2
      have hxb : x / 4096 ≠ (b : Int) := by
        intro e; rw [e] at hx; exact hx hbfree
      simp only [disk_get_dblock, BLOCK_SIZE]
      push_cast
      omega
  · simp only [hneg, if_false] at hfree ⊢
    have hal : allocated d (d.iptr i).indirect_dptr := by
      rcases hwf.ind with ⟨h1, _⟩ | ⟨h1, _, _⟩
      · exact absurd h1 hneg
      · exact h1
    exact ⟨hwf, hal, by simp [hneg], write_frame.refl _ _, Or.inl rfl, fun _ _ => rfl,
      fun _ _ => rfl⟩

theorem write_data_slot_indirect (d : Disk) (i : Int) (ii : Nat) (h : 3 ≤ ii) :
    __write_data_slot d i ii = entry_step (ensure_indirect d i) i ii := by
  have : ¬ ii < BLOCKS_NUM := by show ¬ ii < 3; omega
  unfold __write_data_slot
  simp only [this, if_false]
  rfl

theorem slot_entry (d : Disk) (i : Int) (n ii : Nat) (hwf : file_wf d i n)
    (hal : allocated d (d.iptr i).indirect_dptr) (h3 : 3 ≤ ii) (hii : ii ≤ n)
    (hmax : ii < 1027) (hN : d.sblock.dnum ≤ 2147483647)
    (hfree : (if ii = n then 1 else 0) ≤ free_blocks d) :
    slot_post d i n ii (max n (ii + 1)) (entry_step d i ii) := by
  have hneed : slot_need d i n ii = if ii = n then 1 else 0 := by
    unfold slot_need
    have : ¬ ((d.iptr i).indirect_dptr < 0) := by have := hal.1; omega
    simp [this]
  have hentry : get_int d.dptr (indirect_addr d i (ii - BLOCKS_NUM)) = block_of d i ii :=
    (block_of_indirect _ _ _ h3).symm
  unfold entry_step
  rw [hentry]
  by_cases hneg : block_of d i ii < 0
  · have hiin : ii = n := by
      by_contra hne
      have := (hwf.alloc ii (by omega)).1
      omega
    subst hiin
    simp only [hneg, if_true]
    simp only [if_true] at hfree
    obtain ⟨b, hb1, hb2, hb3, hb4⟩ := get_free_dno_spec d (by omega)
    simp only [hb3]
    have hbfree : is_free d (b : Int) := ⟨by omega, hb1, by simpa using hb2⟩
    have hmax' : max ii (ii + 1) = ii + 1 := by omega
    rw [hmax']
    have hia : indirect_addr { d with dmap := bmap_set d.dmap b } i (ii - BLOCKS_NUM) =
        indirect_addr d i (ii - BLOCKS_NUM) := rfl
    rw [hia]
    generalize hm : put_int d.dptr (indirect_addr d i (ii - BLOCKS_NUM)) (b : Int) = m
    have hind0 := hal.1
    have hmx : ∀ x : Int, x / 4096 ≠ (d.iptr i).indirect_dptr → m x = d.dptr x := by
      intro x hx
      rw [← hm]
      apply put_int_other
      simp only [indirect_addr, disk_get_dblock, BLOCK_SIZE, BLOCKS_NUM]
      push_cast
      omega
    have hblk : ∀ k, k < 1027 → block_of (Disk.set_inode ⟨d.sblock, d.root_ino, d.imap,
        bmap_set d.dmap b, d.iptr, m⟩ i { d.iptr i with dnum := (d.iptr i).dnum + 1 }) i k =
        if k = ii then (b : Int) else block_of d i k := by
      intro k hk1027
      by_cases hk : k < 3
      · have hne : k ≠ ii := by omega
        rw [block_of_direct _ _ _ hk, block_of_direct _ _ _ hk, set_inode_iptr_same]
        simp only [hne, if_false]
        exact dptrs_congr _ _ rfl rfl rfl k
      · have hk' : 3 ≤ k := by omega
        rw [block_of_indirect _ _ _ hk', block_of_indirect _ _ _ hk']
        have e : indirect_addr (Disk.set_inode ⟨d.sblock, d.root_ino, d.imap,
            bmap_set d.dmap b, d.iptr, m⟩ i { d.iptr i with dnum := (d.iptr i).dnum + 1 }) i
            (k - 3) = indirect_addr d i (k - 3) := by
          simp [indirect_addr, Disk.set_inode]
        rw [e]
        show get_int m _ = _
        rw [← hm]
        by_cases hki : k = ii
        · subst hki
          simp only [if_true]
          exact get_int_put_int_same _ _ _ (by omega)
        · simp only [hki, if_false]
          apply get_int_put_int_other
          simp only [indirect_addr, BLOCKS_NUM]
          omega
    refine ⟨?_, ?_, ?_, ⟨rfl, rfl, rfl, ?_, ?_, ?_⟩, Or.inl ?_, fun _ => hbfree, ?_, ?_⟩
    · exact file_wf_alloc d _ i ii b hwf hbfree rfl (by simp [Disk.set_inode, hwf.dnum_eq])
        (by simp [Disk.set_inode]) hblk (by omega) (Or.inr hal)
    · show (b : Int) = _
      rw [hblk ii (by omega)]; simp
    · rw [hneed]; simpa using hb4
    · intro j hj; exact set_inode_iptr_other _ _ _ _ hj
    · simp [Disk.set_inode]
    · intro q hq
      have : bmap_isfree (bmap_set d.dmap b) q = true := hq
      rw [bmap_isfree_set] at this
      split_ifs at this
      exact this
    · simp [Disk.set_inode]
    · intro k hk
      rw [hblk k (by omega)]
      have : k ≠ ii := by omega
      simp [this]
    · intro x _ hx
      exact hmx x hx
  · simp only [hneg, if_false]
    have hiin : ii < n := by
      by_contra hne
      have hn : ii = n := by omega
      rcases hwf.ind with ⟨h1, _⟩ | ⟨_, _, h3'⟩
      · have := hal.1; omega
      · exact hneg (h3' ii (by omega) h3 (by show ii < 3 + 4096 / 4; omega))
    have hmax' : max n (ii + 1) = n := by omega
    rw [hmax']
    refine ⟨hwf, rfl, ?_, write_frame.refl _ _, Or.inl rfl,
      fun h => by omega, fun _ _ => rfl, fun _ _ _ => rfl⟩
    rw [hneed]
    have : ii ≠ n := by omega
    simp [this]

theorem write_frame.is_free {d d' : Disk} {i : Int} (h : write_frame d d' i) (b : Int)
    (hb : is_free d' b) : is_free d b := by
  by_contra hc
  exact h.not_free b hc hb

theorem write_data_slot_spec (d : Disk) (i : Int) (n ii : Nat) (hwf : file_wf d i n)
    (hii : ii ≤ n) (hmax : ii < 1027) (hN : d.sblock.dnum ≤ 2147483647)
    (hfree : slot_need d i n ii ≤ free_blocks d) :
    slot_post d i n ii (max n (ii + 1)) (__write_data_slot d i ii) := by
  by_cases h3 : ii < 3
  · exact slot_direct d i n ii hwf hii h3 hfree
  · have h3' : 3 ≤ ii := by omega
    rw [write_data_slot_indirect d i ii h3']
    have hneed : slot_need d i n ii = (if ii = n then 1 else 0) +
        (if (d.iptr i).indirect_dptr < 0 then 1 else 0) := by
      unfold slot_need
      have : BLOCKS_NUM ≤ ii := h3'
      simp [this]
    rw [hneed] at hfree
    have he := ensure_indirect_spec d i n hwf (by omega) (by omega)
    have hs := slot_entry (ensure_indirect d i) i n ii he.wf he.alloc h3' hii hmax
      (by rw [he.frame.sblock_eq]; exact hN) (by have := he.free; omega)
    refine ⟨hs.wf, hs.dno, ?_, he.frame.trans hs.frame, ?_, ?_, ?_, ?_⟩
    · have h1 := hs.free
      have h2 := he.free
      have h3 : slot_need (ensure_indirect d i) i n ii = if ii = n then 1 else 0 := by
        unfold slot_need
        have : ¬ ((ensure_indirect d i).iptr i).indirect_dptr < 0 := by
          have := he.alloc.1; omega
        simp [this]
      rw [h3] at h1
      rw [hneed]
      omega
    · rcases hs.ind with h | h
      · rw [h]; exact he.ind
      · exact Or.inr (he.frame.is_free _ h)
    · intro h; exact he.frame.is_free _ (hs.fresh h)
    · intro k hk; rw [hs.blocks k hk, he.blocks k hk]
    · intro x hx1 hx2
      rw [hs.data x (he.frame.not_free _ hx1) ?_, he.data x hx1]
      rcases he.ind with h | h
      · rw [h]; exact hx2
      · intro e; rw [← e] at h; exact hx1 h

/-- Changing data bytes outside the indirect block keeps a file well formed. -/
theorem file_wf_data (d : Disk) (i : Int) (n : Nat) (m : Mem) (hwf : file_wf d i n)
    (hm : ∀ x : Int, x / 4096 = (d.iptr i).indirect_dptr → m x = d.dptr x) :
    file_wf { d with dptr := m } i n ∧
    ∀ k, (k < 3 ∨ (0 ≤ (d.iptr i).indirect_dptr ∧ k < 1027)) →
      block_of { d with dptr := m } i k = block_of d i k := by
  have hblk : ∀ k, (k < 3 ∨ (0 ≤ (d.iptr i).indirect_dptr ∧ k < 1027)) →
      block_of { d with dptr := m } i k = block_of d i k := by
    intro k hk
    by_cases hk3 : k < 3
    · rw [block_of_direct _ _ _ hk3, block_of_direct _ _ _ hk3]
    · rcases hk with hk | ⟨h0, hk⟩
      · omega
      · rw [block_of_indirect _ _ _ (by omega), block_of_indirect _ _ _ (by omega)]
        show get_int m (indirect_addr d i (k - 3)) = _
        apply get_int_congr
        intro x hx1 hx2
        apply hm
        simp only [indirect_addr, disk_get_dblock, BLOCK_SIZE] at hx1 hx2
        push_cast at hx1 hx2
        omega
  have hn : ∀ k, k < n → (k < 3 ∨ (0 ≤ (d.iptr i).indirect_dptr ∧ k < 1027)) := by
    intro k hk
    have hle : n ≤ 3 + 4096 / 4 := hwf.le_max
    by_cases hk3 : k < 3
    · exact Or.inl hk3
    · rcases hwf.ind with ⟨_, h2⟩ | ⟨h1, _, h3⟩
      · have : n ≤ 3 := h2
        omega
      · exact Or.inr ⟨h1.1, by omega⟩
  refine ⟨⟨hwf.dnum_eq, hwf.le_max, ?_, ?_, ?_, ?_⟩, hblk⟩
  · intro k hk
    rw [hblk k (hn k hk)]
    exact hwf.alloc k hk
  · intro k k' hk hk' he
    rw [hblk k (hn k hk), hblk k' (hn k' hk')] at he
    exact hwf.inj k k' hk hk' he
  · intro k hk hk3
    rw [hblk k (Or.inl hk3)]
    exact hwf.direct_tail k hk hk3
  · rcases hwf.ind with h | ⟨h1, h2, h3⟩
    · exact Or.inl h
    · refine Or.inr ⟨h1, fun k hk => ?_, fun k hk hk3 hkm => ?_⟩
      · show block_of { d with dptr := m } i k ≠ (d.iptr i).indirect_dptr
        rw [hblk k (hn k hk)]
        exact h2 k hk
      · rw [hblk k (Or.inr ⟨h1.1, hkm⟩)]
        exact h3 k hk hk3 hkm

theorem chunk_eq_min (rem : Nat) : (if rem > BLOCK_SIZE then BLOCK_SIZE else rem) = min rem 4096 := by
  show (if rem > 4096 then 4096 else rem) = min rem 4096
  split_ifs <;> omega

theorem write_data_loop_succ (i : Int) (buf : Nat → Nat) (fuel : Nat) (d : Disk)
    (ii curr left woff off : Nat) (h : left - curr ≠ 0) :
    __write_data_loop i buf (fuel + 1) d ii curr left woff off =
      __write_data_loop i buf fuel (write_step d i buf ii (left - curr) (woff + curr) off)
        (ii + 1) (min (left - curr) 4096) (left - curr) (woff + curr) 0 := by
  rw [__write_data_loop]
  simp only [h, if_false, chunk_eq_min]
  rfl

theorem write_data_loop_done (i : Int) (buf : Nat → Nat) (fuel : Nat) (d : Disk)
    (ii curr left woff off : Nat) (h : left - curr = 0) :
    __write_data_loop i buf (fuel + 1) d ii curr left woff off = d := by
  rw [__write_data_loop]
  simp only [h, if_true]

theorem write_step_spec (d : Disk) (i : Int) (buf : Nat → Nat) (n ii rem w off : Nat)
    (hwf : file_wf d i n) (hii : ii ≤ n) (hmax : ii < 1027)
    (hN : d.sblock.dnum ≤ 2147483647) (hfree : slot_need d i n ii ≤ free_blocks d)
    (hspill : off + min rem 4096 ≤ 4096) :
    step_post d (write_step d i buf ii rem w off) i buf n ii rem w off := by
  have hs := write_data_slot_spec d i n ii hwf hii hmax hN hfree
  unfold write_step
  generalize __write_data_slot d i ii = r at hs
  obtain ⟨dno, d1⟩ := r
  simp only at hs ⊢
  have hii1 : ii < max n (ii + 1) := by omega
  have hdno : dno = block_of d1 i ii := hs.dno
  have hswf : file_wf d1 i (max n (ii + 1)) := hs.wf
  have hsframe : write_frame d d1 i := hs.frame
  have hsind : (d1.iptr i).indirect_dptr = (d.iptr i).indirect_dptr ∨
    is_free d (d1.iptr i).indirect_dptr := hs.ind
  have hsfree : free_blocks d1 + slot_need d i n ii = free_blocks d := hs.free
  have hsfresh : ii = n → is_free d dno := hs.fresh
  have hsblocks : ∀ k, k < n → block_of d1 i k = block_of d i k := hs.blocks
  have hsdata : ∀ x : Int, ¬ is_free d (x / 4096) → x / 4096 ≠ (d.iptr i).indirect_dptr →
    d1.dptr x = d.dptr x := hs.data
  clear hs
  have hal := hswf.alloc ii hii1
  rw [← hdno] at hal
  have hdno_ind : dno ≠ (d1.iptr i).indirect_dptr := by
    rcases hswf.ind with ⟨h1, _⟩ | ⟨_, h2, _⟩
    · have := hal.1; omega
    · rw [hdno]; exact h2 ii hii1
  have hcopy : ∀ x : Int, x / 4096 ≠ dno →
      memcpy_to d1.dptr (disk_get_dblock dno + (off : Int)) buf w (min rem 4096) x = d1.dptr x := by
    intro x hx
    unfold memcpy_to
    have : ¬ (disk_get_dblock dno + (off : Int) ≤ x ∧
        x < disk_get_dblock dno + (off : Int) + ((min rem 4096 : Nat) : Int)) := by
      simp only [disk_get_dblock, BLOCK_SIZE]
      push_cast
      omega
    simp only [this, if_false]
  obtain ⟨hwf', hblk'⟩ := file_wf_data d1 i (max n (ii + 1))
    (memcpy_to d1.dptr (disk_get_dblock dno + (off : Int)) buf w (min rem 4096)) hswf
    (fun x hx => hcopy x (by rw [hx]; exact fun e => hdno_ind e.symm))
  have hkn : ∀ k, k < max n (ii + 1) →
      (k < 3 ∨ (0 ≤ (d1.iptr i).indirect_dptr ∧ k < 1027)) := by
    intro k hk
    have hle : max n (ii + 1) ≤ 3 + 4096 / 4 := hswf.le_max
    by_cases hk3 : k < 3
    · exact Or.inl hk3
    · rcases hswf.ind with ⟨_, h2⟩ | ⟨h1, _, _⟩
      · have : max n (ii + 1) ≤ 3 := h2
        omega
      · exact Or.inr ⟨h1.1, by omega⟩
  refine ⟨hwf', ?_, hsind, ?_, ?_, ?_, ?_⟩
  · exact ⟨hsframe.sblock_eq, hsframe.root_eq, hsframe.imap_eq, hsframe.iptr_other,
      hsframe.mode_eq, hsframe.dmap_mono⟩
  · rw [← hsfree]
    exact congrArg (· + _) (free_blocks_congr _ _ rfl rfl)
  · intro k hk
    rw [hblk' k (hkn k (by omega)), hsblocks k hk]
  · intro p hp
    rw [hblk' ii (hkn ii hii1), ← hdno]
    show memcpy_to d1.dptr (disk_get_dblock dno + (off : Int)) buf w (min rem 4096) _ = _
    unfold memcpy_to
    have hin : disk_get_dblock dno + (off : Int) ≤ dno * 4096 + (off : Int) + (p : Int) ∧
        dno * 4096 + (off : Int) + (p : Int) <
          disk_get_dblock dno + (off : Int) + ((min rem 4096 : Nat) : Int) := by
      simp only [disk_get_dblock, BLOCK_SIZE]
      push_cast
      omega
    simp only [hin, and_self, if_true]
    congr 1
    simp only [disk_get_dblock, BLOCK_SIZE]
    push_cast
    omega
  · intro x hx1 hx2 hx3
    show memcpy_to d1.dptr (disk_get_dblock dno + (off : Int)) buf w (min rem 4096) x = _
    rw [hcopy x ?_, hsdata x hx1 hx2]
    by_cases hn : ii < n
    · rw [hdno, hsblocks ii hn]
      exact fun e => hx3 hn e.symm
    · have hfr := hsfresh (by omega)
      intro e
      rw [← e] at hfr
      exact hx1 hfr

/-! ## Lemmas: the loops of `__write_data` and `__read_data` -/

theorem need_step (d d1 : Disk) (i : Int) (n ii e : Nat) (_hii : ii ≤ n) (he : ii + 1 ≤ e)
    (h1 : (d1.iptr i).indirect_dptr < 0 → (d.iptr i).indirect_dptr < 0)
    (h2 : 3 ≤ ii → 0 ≤ (d1.iptr i).indirect_dptr) :
    loop_need d1 i (max n (ii + 1)) e + slot_need d i n ii ≤ loop_need d i n e := by
  unfold loop_need slot_need
  simp only [BLOCKS_NUM]
  split_ifs <;> omega

theorem slot_need_le (d : Disk) (i : Int) (n ii e : Nat) (_hii : ii ≤ n) (he : ii + 1 ≤ e) :
    slot_need d i n ii ≤ loop_need d i n e := by
  unfold loop_need slot_need
  simp only [BLOCKS_NUM]
  split_ifs <;> omega

theorem block_of_congr (d d' : Disk) (i : Int) (k : Nat) (hd : d'.dptr = d.dptr)
    (h0 : (d'.iptr i).dptrs0 = (d.iptr i).dptrs0) (h1 : (d'.iptr i).dptrs1 = (d.iptr i).dptrs1)
    (h2 : (d'.iptr i).dptrs2 = (d.iptr i).dptrs2)
    (h3 : (d'.iptr i).indirect_dptr = (d.iptr i).indirect_dptr) :
    block_of d' i k = block_of d i k := by
  unfold block_of indirect_addr
  rw [hd, h3, dptrs_congr _ _ h0 h1 h2]

theorem to_int_eq (x : Int) (h : -2147483648 ≤ x ∧ x < 2147483648) : to_int x = x := by
  unfold to_int
  omega

theorem image_file_wf : file_wf image_file 1 1 := by
  refine ⟨by decide!, by decide!, ?_, ?_, ?_, Or.inl (by decide!)⟩
  · intro k hk
    interval_cases k
    exact ⟨by decide!, by decide!⟩
  · intro k k' hk hk' _
    omega
  · intro k hk hk3
    have : k < 3 := hk3
    interval_cases k <;> decide!

theorem result_eq (o : Option (Int × Disk)) (dflt : Int × Disk)
    (h : o.map Prod.fst = some 0) : o = some (0, (o.getD dflt).2) := by
  cases o with
  | none => simp at h
  | some r =>
    obtain ⟨a, b⟩ := r
    simp at h
    simp [h]

theorem image_dptr_neg (inodes : List inode) (blocks : List (Nat → Nat)) (x : Int)
    (h : x < 0) : (image inodes blocks).dptr x = 0 := by
  have : ¬ 0 ≤ x := by omega
  simp [image, this]

theorem image_file_dense : dense_slots image_file 1 := by
  have hz : ∀ j : Nat, j < 1024 →
      get_int image_file.dptr (indirect_addr image_file 1 j) = 0 := by
    intro j hj
    have ha : indirect_addr image_file 1 j = -4096 + 4 * (j : Int) := by
      have : (image_file.iptr 1).indirect_dptr = -1 := by decide!
      simp [indirect_addr, disk_get_dblock, this]
    rw [ha]
    unfold get_int image_file
    rw [image_dptr_neg _ _ _ (by omega), image_dptr_neg _ _ _ (by omega),
      image_dptr_neg _ _ _ (by omega), image_dptr_neg _ _ _ (by omega)]
    simp
  refine ⟨?_, ?_⟩
  · intro j hj h0 j' hj'
    have : j < 3 := hj
    interval_cases j
    · omega
    · exact absurd h0 (by decide!)
    · exact absurd h0 (by decide!)
  · intro j hj _ j' hj'
    have : j < 1024 := hj
    rw [hz j' (by omega)]

/-! ## C1: write/read round trip -/

/-- C2 fails on the code: on the image holding the single directory `/a`, the root entry `a`
is inode 1 and directory 1 has no entry `a`, yet `__find_ino "/a/a"` returns 1 and not
-ENOENT: the loop returns as soon as a token equals the name of the final component. -/
theorem find_ino_stops_at_repeated_name :
    __find_ino image_a (str "/a/a") = some 1 ∧
    dir_get_ino image_a image_a.root_ino (str "a") = 1 ∧
    dir_get_ino image_a 1 (str "a") = -1 := by
  decide!

/-- C3 fails on the code: on the image holding the single directory `/a`, the parent path
of `/a/a` resolves (to inode 1) and directory 1 has no entry `a`, yet `disk_mknod "/a/a"`
returns -EEXIST and not 0, because `__find_ino "/a/a"` answers with the directory `/a`. -/
theorem mknod_eexist_without_entry :
    (disk_mknod image_a (str "/a/a") FILE_MODE 0 0 0).map Prod.fst = some (-EEXIST) ∧
    __parent_path (str "/a/a") = some (str "/a/") ∧
    __find_ino image_a (str "/a/") = some 1 ∧
    __get_iname (str "/a/a") = some (str "a") ∧
    dir_get_ino image_a 1 (str "a") = -1 := by
  decide!

/-- C4 fails on the code: on the image where directory `/a` (inode 1) holds a directory `a`
(inode 2) with free slots, and inode 4 and block 4 are free, `disk_mknod "/a/a/h"` returns 0
but afterwards `__find_ino "/a/a/h"` returns -ENOENT: the parent path `/a/a/` was resolved
to inode 1, so the entry `h` (inode 4) went into `/a`, not into `/a/a`. -/
theorem mknod_entry_in_wrong_directory :
    (and_then (disk_mknod image_aa (str "/a/a/h") FILE_MODE 0 0 0) fun r =>
      (__find_ino r.2 (str "/a/a/h")).map fun ino =>
        (r.1, ino, dir_get_ino r.2 1 (str "h"), dir_get_ino r.2 2 (str "h"))) =
      some (0, -ENOENT, 4, -1) ∧
    get_int image_aa.dptr (dentry_addr image_aa 2 1 + 48) = -1 ∧
    bmap_isfree image_aa.imap 4 = true ∧ bmap_isfree image_aa.dmap 4 = true := by
  decide!

/-! ## C5 and C6: unlink -/

/-- C5: link-count correctness of unlink.  Let `p` resolve to inode `i` (whose `ino` field is
`i`) with `nlink = k` and assigned block slots forming a dense prefix, and let the entry block
of the parent directory not be the indirect block of `i`.  After `disk_unlink p` returns 0,
the `nlink` of `i` is `k - 1`; if `k - 1 = 0`, the inode-bitmap bit `i`, the data-bitmap bit
of every direct block of `i`, of the indirect block and of every block listed in it are
clear; if `k - 1 > 0`, both bitmaps are unchanged. -/
theorem unlink_link_count (d d' : Disk) (p : List Nat) (i k tt : Int)
    (hres : __find_ino d p = some i) (hi : 0 ≤ i) (hino : (d.iptr i).ino = i)
    (hk : (d.iptr i).nlink = k) (hdense : dense_slots d i)
    (hsep : ∀ pp dir, __parent_path p = some pp → __find_ino d pp = some dir →
      (d.iptr dir).dptrs0 ≠ (d.iptr i).indirect_dptr)
    (hret : disk_unlink d p tt = some (0, d')) :
    (d'.iptr i).nlink = k - 1 ∧
    (k - 1 = 0 →
      bmap_isfree d'.imap i.toNat = true ∧
      (∀ j, j < BLOCKS_NUM → 0 ≤ (d.iptr i).dptrs j →
        bmap_isfree d'.dmap ((d.iptr i).dptrs j).toNat = true) ∧
      (0 ≤ (d.iptr i).indirect_dptr →
        bmap_isfree d'.dmap (d.iptr i).indirect_dptr.toNat = true ∧
        ∀ j, j < BLOCK_SIZE / 4 → 0 ≤ get_int d.dptr (indirect_addr d i j) →
          bmap_isfree d'.dmap (get_int d.dptr (indirect_addr d i j)).toNat = true)) ∧
    (0 < k - 1 → d'.imap = d.imap ∧ d'.dmap = d.dmap) := by
  obtain ⟨pp, dir, d2, d3, hpp, hdir, -, h2i, h2d, h2n, h2m, hd3, e1, e2, e3⟩ :=
    disk_unlink_steps d d' p i tt hres hi hret
  have hsep' := hsep pp dir hpp hdir
  rw [e1, e2, e3]
  have hdp : ∀ j, (d2.iptr i).dptrs j = (d.iptr i).dptrs j := by
    intro j; rw [h2n]; exact dptrs_congr _ _ rfl rfl rfl j
  have hind : (d2.iptr i).indirect_dptr = (d.iptr i).indirect_dptr := by rw [h2n]
  have hia : ∀ j, indirect_addr d2 i j = indirect_addr d i j := by
    intro j; simp [indirect_addr, hind]
  have henc : ∀ j, j < BLOCK_SIZE / 4 → 0 ≤ (d.iptr i).indirect_dptr →
      get_int d2.dptr (indirect_addr d2 i j) = get_int d.dptr (indirect_addr d i j) := by
    intro j hj h0
    rw [hia, h2m]
    apply get_int_congr
    intro x hx1 hx2
    apply dir_delete_inode_loop_frame
    simp only [indirect_addr, disk_get_dblock, BLOCK_SIZE, DENTRY_COUNT, SIZEOF_DENTRY] at hx1 hx2 hj ⊢
    push_cast at hx1 hx2 ⊢
    omega
  refine ⟨?_, ?_, ?_⟩
  · split_ifs at hd3 with hz
    · obtain ⟨h1, -⟩ := delete_inode_spec _ _ _ hd3
      rw [h1, h2n]; simp [hk]
    · simp only [Option.some.injEq] at hd3
      subst hd3
      rw [h2n]; simp [hk]
  · intro hz
    have hz' : (d.iptr i).nlink - 1 = 0 := by omega
    simp only [hz', if_true] at hd3
    obtain ⟨-, -, h3, h4, h5⟩ := delete_inode_spec _ _ _ hd3
    have hino2 : (d2.iptr i).ino = i := by rw [h2n]; exact hino
    rw [hino2] at h3
    refine ⟨h3, fun j hj hj0 => ?_, fun h0 => ?_⟩
    · have := h4 j hj (fun j' hj' => by
        rw [hdp]
        rcases Nat.lt_or_ge j' j with hlt | hge
        · exact hdense.1 j hj hj0 j' hlt
        · have : j' = j := by omega
          subst this; exact hj0)
      rwa [hdp] at this
    · rw [hind] at h5
      obtain ⟨h5a, h5b⟩ := h5 h0
      refine ⟨h5a, fun j hj hj0 => ?_⟩
      have := h5b j hj (fun j' hj' => by
        rw [henc j' (by omega) h0]
        rcases Nat.lt_or_ge j' j with hlt | hge
        · exact hdense.2 j hj hj0 j' hlt
        · have : j' = j := by omega
          subst this; exact hj0)
      rwa [henc j hj h0] at this
  · intro hpos
    have hz' : ¬ ((d.iptr i).nlink - 1 = 0) := by omega
    simp only [hz', if_false, Option.some.injEq] at hd3
    subst hd3
    exact ⟨h2i, h2d⟩

/-- C5 at a concrete input: on the image holding the new regular file `/a` (inode 1, block
1, `nlink = 1`), after `disk_unlink "/a"` returns 0 the `nlink` is 0 and inode-bitmap bit 1
and data-bitmap bit 1, both set before, are clear. -/
theorem unlink_link_count_witness :
    __find_ino image_file (str "/a") = some 1 ∧ (image_file.iptr 1).nlink = 1 ∧
    (image_file.iptr 1).dptrs 0 = 1 ∧
    bmap_isfree image_file.imap 1 = false ∧ bmap_isfree image_file.dmap 1 = false ∧
    (((disk_unlink image_file (str "/a") 0).getD (0, image_file)).2.iptr 1).nlink = 0 ∧
    bmap_isfree ((disk_unlink image_file (str "/a") 0).getD (0, image_file)).2.imap 1 = true ∧
    bmap_isfree ((disk_unlink image_file (str "/a") 0).getD (0, image_file)).2.dmap 1 = true :=
  have h := unlink_link_count image_file
    ((disk_unlink image_file (str "/a") 0).getD (0, image_file)).2 (str "/a") 1 1 0
    (by decide!) (by decide!) (by decide!) (by decide!) image_file_dense
    (fun pp dir h1 h2 => by
      have e1 : __parent_path (str "/a") = some (str "/") := by decide!
      rw [e1] at h1
      cases h1
      have e2 : __find_ino image_file (str "/") = some 0 := by decide!
      rw [e2] at h2
      cases h2
      decide!)
    (result_eq _ _ (by decide!))
  ⟨by decide!, by decide!, by decide!, by decide!, by decide!, h.1, (h.2.1 rfl).1,
    (h.2.1 rfl).2.1 0 (by decide) (by decide!)⟩

/-- C6 fails on the code: on the image where `/a` (slot 1) and `/b` (slot 2) are hard links
to inode 1, `disk_unlink "/b"` returns 0, but afterwards `/b` still resolves to inode 1 and
`/a` resolves to -ENOENT: `dir_delete_inode` frees the first slot holding the inode number,
which is the slot of `a`. -/
theorem unlink_removes_other_name :
    (and_then (disk_unlink image_links (str "/b") 0) fun r =>
      and_then (__find_ino r.2 (str "/b")) fun b =>
        (__find_ino r.2 (str "/a")).map fun a => (r.1, b, a)) = some (0, 1, -ENOENT) ∧
    __find_ino image_links (str "/a") = some 1 ∧ __find_ino image_links (str "/b") = some 1 := by
  decide!

/-! ## C7 to C10: link, rename, rmdir, symlink -/

/-- C7 fails on the code: on the image where `/f` is a regular file (inode 3) and directory
`/a` (inode 1) holds a directory `a` (inode 2) with free slots, `/a/a/g` does not resolve and
`disk_link "/f" "/a/a/g"` returns 0, but afterwards `__find_ino "/a/a/g"` is -ENOENT and not
3: the parent path `/a/a/` was resolved to inode 1. -/
theorem link_entry_in_wrong_directory :
    (and_then (disk_link image_aa (str "/f") (str "/a/a/g") 0) fun r =>
      and_then (__find_ino r.2 (str "/a/a/g")) fun t =>
        (__find_ino r.2 (str "/f")).map fun f => (r.1, t, f)) = some (0, -ENOENT, 3) ∧
    __find_ino image_aa (str "/f") = some 3 ∧
    __find_ino image_aa (str "/a/a/g") = some (-ENOENT) ∧
    get_int image_aa.dptr (dentry_addr image_aa 2 1 + 48) = -1 := by
  decide!

/-- C8 fails on the code: on the image where `/f` is a regular file (inode 3) and directory
`/a` (inode 1) holds a directory `a` (inode 2) with free slots, `disk_rename "/f" "/a/a/g"`
returns 0, but afterwards `__find_ino "/a/a/g"` is -ENOENT and not 3: the parent path
`/a/a/` was resolved to inode 1. -/
theorem rename_entry_in_wrong_directory :
    (and_then (disk_rename image_aa (str "/f") (str "/a/a/g") 0) fun r =>
      (__find_ino r.2 (str "/a/a/g")).map fun t => (r.1, t)) = some (0, -ENOENT) ∧
    __find_ino image_aa (str "/f") = some 3 ∧
    get_int image_aa.dptr (dentry_addr image_aa 2 1 + 48) = -1 := by
  decide!

/-- C9 fails on the code: on the image where directory `/d` (inode 1) holds the live entry
`x`, `disk_rmdir "/d"` returns 0 and not -ENOTEMPTY, and removes the entry of `/d` from the
root: the test is `dir->size == 0`, and no operation changes the size of a directory. -/
theorem rmdir_removes_nonempty_directory :
    (and_then (disk_rmdir image_dx (str "/d")) fun r =>
      (__find_ino r.2 (str "/d")).map fun t => (r.1, t)) = some (0, -ENOENT) ∧
    __find_ino image_dx (str "/d") = some 1 ∧
    dir_get_ino image_dx 1 (str "x") = 2 := by
  decide!

/-- C10 fails on the code: on the image where `/f` is a regular file and directory `/a`
(inode 1) holds a directory `a` (inode 2) with free slots, `disk_symlink "/f" "/a/a/l"`
returns 0, but afterwards `/a/a/l` resolves to -ENOENT and `disk_readlink "/a/a/l"` returns
-ENOENT and not 0: the parent path `/a/a/` was resolved to inode 1. -/
theorem symlink_entry_in_wrong_directory :
    (and_then (disk_symlink image_aa (str "/f") (str "/a/a/l") 0 0 0) fun r =>
      and_then (__find_ino r.2 (str "/a/a/l")) fun t =>
        (disk_readlink r.2 (str "/a/a/l") (fun _ => 0) 16 0).map fun l => (r.1, t, l.1)) =
      some (0, -ENOENT, -ENOENT) ∧
    __find_ino image_aa (str "/f") = some 3 ∧
    get_int image_aa.dptr (dentry_addr image_aa 2 1 + 48) = -1 := by
  decide!

/-! ## Lemmas: what `__write_data` does whatever the state of the file -/

/-- What `__get_free_dno` leaves alone, whether or not a block is free. -/
theorem get_free_dno_loop_frame (d : Disk) (n : Nat) :
    ∀ start, (__get_free_dno_loop d n start).2.iptr = d.iptr ∧
      (__get_free_dno_loop d n start).2.dptr = d.dptr ∧
      (__get_free_dno_loop d n start).2.sblock = d.sblock ∧
      ∀ q, bmap_isfree (__get_free_dno_loop d n start).2.dmap q = true →
        bmap_isfree d.dmap q = true := by
  induction n with
  | zero => intro start; exact ⟨rfl, rfl, rfl, fun _ h => h⟩
  | succ n ih =>
    intro start
    rw [__get_free_dno_loop]
    by_cases hs : bmap_isfree d.dmap start = true
    · rw [if_pos hs]
      refine ⟨rfl, rfl, rfl, ?_⟩
      intro q hq
      rw [bmap_isfree_set] at hq
      split_ifs at hq with h
      exact hq
    · rw [if_neg hs]
      exact ih (start + 1)

theorem get_free_dno_frame (d : Disk) :
    (__get_free_dno d).2.iptr = d.iptr ∧ (__get_free_dno d).2.dptr = d.dptr ∧
      (__get_free_dno d).2.sblock = d.sblock ∧
      ∀ q, bmap_isfree (__get_free_dno d).2.dmap q = true → bmap_isfree d.dmap q = true :=
  get_free_dno_loop_frame d _ 0

theorem entry_step_frame (d1 : Disk) (i : Int) (ii : Nat) :
    ((entry_step d1 i ii).2.iptr i).indirect_dptr = (d1.iptr i).indirect_dptr ∧
      ∀ q, bmap_isfree (entry_step d1 i ii).2.dmap q = true → bmap_isfree d1.dmap q = true := by
  obtain ⟨g1, -, -, g4⟩ := get_free_dno_frame d1
  unfold entry_step
  split_ifs
  · simp only [Disk.set_inode, g1, if_true]
    exact ⟨trivial, g4⟩
  · exact ⟨rfl, fun _ h => h⟩

theorem ensure_indirect_frame (d : Disk) (i : Int) :
    (0 ≤ (d.iptr i).indirect_dptr → ensure_indirect d i = d) ∧
      (∀ q, bmap_isfree (ensure_indirect d i).dmap q = true → bmap_isfree d.dmap q = true) ∧
      ((d.iptr i).indirect_dptr < 0 → 0 < free_blocks d →
        ∃ b : Nat, is_free d (b : Int) ∧ ((ensure_indirect d i).iptr i).indirect_dptr = (b : Int) ∧
          bmap_isfree (ensure_indirect d i).dmap b = false) := by
  obtain ⟨g1, -, -, g4⟩ := get_free_dno_frame d
  unfold ensure_indirect
  refine ⟨?_, ?_, ?_⟩
  · intro h
    rw [if_neg (by omega)]
  · intro q hq
    split_ifs at hq
    · exact g4 q hq
    · exact hq
  · intro hneg hfree
    obtain ⟨b, hb1, hb2, hb3, -⟩ := get_free_dno_spec d hfree
    refine ⟨b, ⟨by omega, hb1, by simpa using hb2⟩, ?_, ?_⟩
    · rw [if_pos hneg]
      simp [__create_indirect_dptr, Disk.set_inode, hb3]
    · rw [if_pos hneg]
      simp [__create_indirect_dptr, Disk.set_inode, hb3, bmap_isfree_set]

/-- What one iteration of `__write_data` does to the indirect pointer and the data bitmap,
whatever the state of the file. -/
theorem write_step_frame (d : Disk) (i : Int) (buf : Nat → Nat) (ii rem w off : Nat) :
    (ii < 3 ∨ 0 ≤ (d.iptr i).indirect_dptr →
      ((write_step d i buf ii rem w off).iptr i).indirect_dptr = (d.iptr i).indirect_dptr) ∧
    (∀ q, bmap_isfree (write_step d i buf ii rem w off).dmap q = true →
      bmap_isfree d.dmap q = true) ∧
    (3 ≤ ii → (d.iptr i).indirect_dptr < 0 → 0 < free_blocks d →
      ∃ b : Nat, is_free d (b : Int) ∧
        ((write_step d i buf ii rem w off).iptr i).indirect_dptr = (b : Int) ∧
        bmap_isfree (write_step d i buf ii rem w off).dmap b = false) := by
  by_cases hii : 3 ≤ ii
  · have hslot := write_data_slot_indirect d i ii hii
    unfold write_step
    rw [hslot]
    obtain ⟨e1, e2⟩ := entry_step_frame (ensure_indirect d i) i ii
    obtain ⟨f1, f2, f3⟩ := ensure_indirect_frame d i
    refine ⟨?_, ?_, ?_⟩
    · intro h
      have h0 : 0 ≤ (d.iptr i).indirect_dptr := by omega
      show ((entry_step (ensure_indirect d i) i ii).2.iptr i).indirect_dptr = _
      rw [e1, f1 h0]
    · intro q hq
      exact f2 q (e2 q hq)
    · intro _ hneg hfree
      obtain ⟨b, hb1, hb2, hb3⟩ := f3 hneg hfree
      refine ⟨b, hb1, ?_, ?_⟩
      · show ((entry_step (ensure_indirect d i) i ii).2.iptr i).indirect_dptr = _
        rw [e1, hb2]
      · show bmap_isfree (entry_step (ensure_indirect d i) i ii).2.dmap b = false
        cases hq : bmap_isfree (entry_step (ensure_indirect d i) i ii).2.dmap b with
        | false => rfl
        | true => rw [e2 b hq] at hb3; exact absurd hb3 (by simp)
  · have hlt : ii < BLOCKS_NUM := by show ii < 3; omega
    obtain ⟨g1, -, -, g4⟩ := get_free_dno_frame d
    unfold write_step __write_data_slot
    simp only [hlt, if_true]
    refine ⟨?_, ?_, fun h => absurd h hii⟩
    · intro _
      split_ifs
      · simp only [Disk.set_inode, g1, if_true]
        unfold inode.set_dptrs
        split <;> rfl
      · rfl
    · intro q hq
      split_ifs at hq
      · exact g4 q hq
      · exact hq

/-- The loop of `__write_data` clears no bit of the data bitmap and keeps an indirect block
that the file has. -/
theorem write_data_loop_keep (i : Int) (buf : Nat → Nat) :
    ∀ (fuel : Nat) (d : Disk) (ii curr left woff off : Nat),
      (∀ q, bmap_isfree (__write_data_loop i buf fuel d ii curr left woff off).dmap q = true →
        bmap_isfree d.dmap q = true) ∧
      (0 ≤ (d.iptr i).indirect_dptr →
        ((__write_data_loop i buf fuel d ii curr left woff off).iptr i).indirect_dptr =
          (d.iptr i).indirect_dptr) := by
  intro fuel
  induction fuel with
  | zero => intro d ii curr left woff off; exact ⟨fun _ h => h, fun _ => rfl⟩
  | succ fuel ih =>
    intro d ii curr left woff off
    by_cases hz : left - curr = 0
    · rw [write_data_loop_done _ _ _ _ _ _ _ _ _ hz]
      exact ⟨fun _ h => h, fun _ => rfl⟩
    · rw [write_data_loop_succ _ _ _ _ _ _ _ _ _ hz]
      obtain ⟨s1, s2, -⟩ := write_step_frame d i buf ii (left - curr) (woff + curr) off
      obtain ⟨k1, k2⟩ := ih (write_step d i buf ii (left - curr) (woff + curr) off) (ii + 1)
        (min (left - curr) 4096) (left - curr) (woff + curr) 0
      refine ⟨fun q hq => s2 q (k1 q hq), ?_⟩
      intro h0
      have e := s1 (Or.inr h0)
      rw [k2 (by rw [e]; exact h0), e]

/-- The number of blocks and the indirect pointer of the file after the loop of
`__write_data`. -/
theorem write_data_loop_exact (i : Int) (buf : Nat → Nat) :
    ∀ (fuel : Nat) (d : Disk) (ii curr left woff off n rem w : Nat),
      left - curr = rem → woff + curr = w →
      file_wf d i n → ii ≤ n → off + min rem 4096 ≤ 4096 →
      ii + (rem + 4095) / 4096 ≤ 1027 →
      (rem + 4095) / 4096 < fuel →
      d.sblock.dnum ≤ 2147483647 →
      loop_need d i n (ii + (rem + 4095) / 4096) ≤ free_blocks d →
      file_wf (__write_data_loop i buf fuel d ii curr left woff off) i
          (max n (ii + (rem + 4095) / 4096)) ∧
        (((__write_data_loop i buf fuel d ii curr left woff off).iptr i).indirect_dptr < 0 ↔
          (d.iptr i).indirect_dptr < 0 ∧ (rem = 0 ∨ ii + (rem + 4095) / 4096 ≤ 3)) ∧
        (ii + (rem + 4095) / 4096 ≤ 3 →
          ((__write_data_loop i buf fuel d ii curr left woff off).iptr i).indirect_dptr =
            (d.iptr i).indirect_dptr) := by
  intro fuel
  induction fuel with
  | zero => intro d ii curr left woff off n rem w _ _ _ _ _ _ h; omega
  | succ fuel ih =>
    intro d ii curr left woff off n rem w hrem hw hwf hii hspill hmax hfuel hN hfree
    by_cases hz : left - curr = 0
    · rw [write_data_loop_done _ _ _ _ _ _ _ _ _ hz]
      have hr0 : rem = 0 := by omega
      subst hr0
      have e : max n (ii + (0 + 4095) / 4096) = n := by omega
      rw [e]
      exact ⟨hwf, ⟨fun h => ⟨h, Or.inl rfl⟩, fun h => h.1⟩, fun _ => rfl⟩
    · rw [write_data_loop_succ _ _ _ _ _ _ _ _ _ hz, hrem, hw]
      have hrem0 : 0 < rem := by omega
      have hchunks : (rem + 4095) / 4096 = (rem - min rem 4096 + 4095) / 4096 + 1 := by omega
      have hst := write_step_spec d i buf n ii rem w off hwf hii (by omega) hN
        (le_trans (slot_need_le d i n ii _ hii (by omega)) hfree) hspill
      obtain ⟨s1, -, -⟩ := write_step_frame d i buf ii rem w off
      generalize write_step d i buf ii rem w off = d1 at hst s1 ⊢
      have hA1 : (d1.iptr i).indirect_dptr < 0 → (d.iptr i).indirect_dptr < 0 := by
        intro h
        rcases hst.ind with e | e
        · rw [← e]; exact h
        · have := e.1; omega
      have hB : 3 ≤ ii → 0 ≤ (d1.iptr i).indirect_dptr := by
        intro h3
        rcases hst.wf.ind with ⟨_, h2⟩ | ⟨h1, _, _⟩
        · have : max n (ii + 1) ≤ 3 := h2
          omega
        · exact h1.1
      have hneed := need_step d d1 i n ii (ii + (rem + 4095) / 4096) hii (by omega) hA1 hB
      have he2 : ii + 1 + (rem - min rem 4096 + 4095) / 4096 = ii + (rem + 4095) / 4096 := by
        omega
      have ihh := ih d1 (ii + 1) (min rem 4096) rem w 0 (max n (ii + 1)) (rem - min rem 4096)
        (w + min rem 4096) rfl rfl hst.wf (by omega)
        (by omega) (by omega) (by omega) (by rw [hst.frame.sblock_eq]; exact hN) (by
          rw [he2]
          have h1 := hst.free
          omega)
      generalize __write_data_loop i buf fuel d1 (ii + 1) (min rem 4096) rem w 0 = d' at ihh ⊢
      obtain ⟨hwf', hind', hkeep'⟩ := ihh
      have em : max (max n (ii + 1)) (ii + 1 + (rem - min rem 4096 + 4095) / 4096) =
          max n (ii + (rem + 4095) / 4096) := by omega
      rw [em] at hwf'
      refine ⟨hwf', ?_, ?_⟩
      · rw [hind']
        constructor
        · rintro ⟨h1, h2⟩
          have hlt : ii < 3 := by
            by_contra hc
            have := hB (by omega)
            omega
          refine ⟨hA1 h1, Or.inr ?_⟩
          rcases h2 with h2 | h2
          · omega
          · omega
        · rintro ⟨h1, h2⟩
          have h3 : ii + (rem + 4095) / 4096 ≤ 3 := by
            rcases h2 with h2 | h2
            · omega
            · exact h2
          have e := s1 (Or.inl (by omega))
          refine ⟨by rw [e]; exact h1, Or.inr (by omega)⟩
      · intro h3
        have e := s1 (Or.inl (by omega))
        rw [hkeep' (by omega), e]

/-- The disk `disk_write` returns once the path resolves, field by field. -/
theorem disk_write_fields (d : Disk) (P : List Nat) (i : Int) (buf : Nat → Nat)
    (size offset : Nat) (tt : Int) (hres : __find_ino d P = some i) (hi : 0 ≤ i) :
    ∃ dw, disk_write d P buf size offset tt = some (to_int size, dw) ∧
      dw.dmap = (__write_data d i buf size offset).dmap ∧
      dw.dptr = (__write_data d i buf size offset).dptr ∧
      (dw.iptr i).size = to_int (((__write_data d i buf size offset).iptr i).size + size) ∧
      (dw.iptr i).dnum = ((__write_data d i buf size offset).iptr i).dnum ∧
      (dw.iptr i).dptrs0 = ((__write_data d i buf size offset).iptr i).dptrs0 ∧
      (dw.iptr i).dptrs1 = ((__write_data d i buf size offset).iptr i).dptrs1 ∧
      (dw.iptr i).dptrs2 = ((__write_data d i buf size offset).iptr i).dptrs2 ∧
      (dw.iptr i).indirect_dptr = ((__write_data d i buf size offset).iptr i).indirect_dptr := by
  have hex : __exists_inode d P = some true := by simp [__exists_inode, hres, hi]
  unfold disk_write
  rw [hex]
  simp only [and_then_some, Bool.not_true, Bool.false_eq_true, if_false, __get_inode, hres,
    Option.map_some']
  refine ⟨_, rfl, rfl, rfl, ?_, ?_, ?_, ?_, ?_, ?_⟩
  all_goals simp [Disk.set_inode]

/-! ## Lemmas: the new image -/

/-- The owner and the three times are the only things in the result of `__create_inode`
for a root directory that depend on `uid`, `gid` and the time. -/
theorem create_inode_owner (d : Disk) (mode uid gid tt : Int) :
    __create_inode d none none mode uid gid tt =
      (__create_inode d none none mode 0 0 0).map fun r =>
        (r.1, r.2.set_inode r.1
          { r.2.iptr r.1 with uid := uid, gid := gid, atime := tt, ctime := tt, mtime := tt }) := by
  unfold __create_inode dir_init
  simp only [set_inode_iptr_same]
  generalize (__get_free_ino d).1 = node
  generalize (__get_free_dno (__get_free_ino d).2).1 = dno
  generalize (__get_free_dno (__get_free_ino d).2).2 = d2
  by_cases h : 0 ≤ node
  · simp only [h, if_true, Option.map_some', Option.some.injEq, Prod.mk.injEq, true_and]
    simp only [Disk.set_inode]
    congr 1
    funext j
    by_cases hj : j = node <;> simp [hj]
  · simp [h]

/-- The image `create_disk` makes differs from the one made with uid, gid and time 0 only in
the owner and the times of inodes. -/
theorem create_disk_owner (uid gid tt : Int) (d0 : Disk) (h0 : create_disk 0 0 0 = some d0) :
    ∃ d, create_disk uid gid tt = some d ∧ d.sblock = d0.sblock ∧ d.root_ino = d0.root_ino ∧
      d.imap = d0.imap ∧ d.dmap = d0.dmap ∧ d.dptr = d0.dptr ∧
      ∀ j, (d.iptr j).ino = (d0.iptr j).ino ∧ (d.iptr j).mode = (d0.iptr j).mode ∧
        (d.iptr j).size = (d0.iptr j).size ∧ (d.iptr j).nlink = (d0.iptr j).nlink ∧
        (d.iptr j).dnum = (d0.iptr j).dnum ∧ (d.iptr j).dptrs0 = (d0.iptr j).dptrs0 ∧
        (d.iptr j).dptrs1 = (d0.iptr j).dptrs1 ∧ (d.iptr j).dptrs2 = (d0.iptr j).dptrs2 ∧
        (d.iptr j).indirect_dptr = (d0.iptr j).indirect_dptr := by
  unfold create_disk at h0 ⊢
  simp only at h0 ⊢
  generalize div_up (__get_max_inum ONE_MB).toNat 4 = o1 at h0 ⊢
  cases o1 with
  | none => simp at h0
  | some a =>
    simp only [and_then_some] at h0 ⊢
    generalize bmap_init zero_disk.imap (a : Int) = o2 at h0 ⊢
    cases o2 with
    | none => simp at h0
    | some imap1 =>
      simp only [and_then_some] at h0 ⊢
      generalize bmap_init zero_disk.dmap (a : Int) = o3 at h0 ⊢
      cases o3 with
      | none => simp at h0
      | some dmap1 =>
        simp only [and_then_some] at h0 ⊢
        rw [create_inode_owner]
        generalize __create_inode _ none none DIRECTORY_MODE 0 0 0 = o4 at h0 ⊢
        cases o4 with
        | none => simp at h0
        | some r =>
          simp only [Option.map_some', Option.some.injEq] at h0 ⊢
          subst h0
          refine ⟨_, rfl, ?_, ?_, rfl, rfl, rfl, ?_⟩
          · simp [Disk.set_inode]
          · simp [Disk.set_inode]
          · intro j
            by_cases hj : j = r.1 <;> simp [Disk.set_inode, hj]

/-- The image `create_disk` makes with uid, gid and time 0, evaluated. -/
theorem create_disk_zero :
    (create_disk 0 0 0).isSome = true ∧
    ((create_disk 0 0 0).getD zero_disk).root_ino = 0 ∧
    ((create_disk 0 0 0).getD zero_disk).sblock = ⟨48, 174, 252, 111, 14286, 252, 0⟩ ∧
    ((create_disk 0 0 0).getD zero_disk).iptr 0 = new_inode 0 DIRECTORY_MODE 0 ∧
    streq_mem ((create_disk 0 0 0).getD zero_disk).dptr 0 (str "..") = true ∧
    (∀ k, k < DENTRY_COUNT →
      get_int ((create_disk 0 0 0).getD zero_disk).dptr ((k : Int) * SIZEOF_DENTRY + 48) =
        if k = 0 then 0 else -1) ∧
    (∀ b, b < 252 → (bmap_isfree ((create_disk 0 0 0).getD zero_disk).imap b = false ↔ b = 0)) ∧
    (∀ b, b < 252 → (bmap_isfree ((create_disk 0 0 0).getD zero_disk).dmap b = false ↔ b = 0)) := by
  decide!

/-- The data-bitmap invariant holds on `image_two`. -/
theorem image_two_coherent : dmap_coherent image_two := by
  unfold dmap_coherent references
  decide!

/-! ## C11 and C12: truncate -/

/-- C11 fails on the code: on the image where `/a` has size 8192 and the two blocks 1 and 2,
`disk_truncate "/a" 0` returns 0 and sets the size to 0, but the bits of blocks 1 and 2 are
still set and three more blocks are allocated (slot 2 gets block 3, the new indirect block is
4, its entry 0 is 5): `__truncate_down` starts at block `(8192 - 0) / 4096 = 2`, which is
unassigned, and `__truncate` goes on to `__truncate_up`, which writes 8192 zero bytes at
offset 8192. -/
theorem truncate_shrink_frees_nothing :
    (disk_truncate image_two (str "/a") 0 0).map (fun r =>
      (r.1, (r.2.iptr 1).size, bmap_isfree r.2.dmap 1, bmap_isfree r.2.dmap 2)) =
      some (0, 0, false, false) ∧
    (disk_truncate image_two (str "/a") 0 0).map (fun r =>
      ((r.2.iptr 1).dptrs2, (r.2.iptr 1).indirect_dptr,
        get_int r.2.dptr (indirect_addr r.2 1 0), free_blocks r.2)) = some (3, 4, 5, 246) ∧
    __find_ino image_two (str "/a") = some 1 ∧ (image_two.iptr 1).size = 8192 ∧
    (image_two.iptr 1).dptrs0 = 1 ∧ (image_two.iptr 1).dptrs1 = 2 ∧
    (image_two.iptr 1).dptrs2 = -1 ∧ (image_two.iptr 1).indirect_dptr = -1 ∧
    free_blocks image_two = 249 := by
  decide!

/-- C12 fails on the code: on the image holding the new regular file `/a` (size 0, 250 free
blocks), `disk_truncate "/a" 5` does not return, and neither does `disk_truncate "/a" 8193`
on the file of size 8192: `__truncate_up` computes `file->size - size` in `size_t`, which for
a grow by 5 is 2^64 - 5, `malloc` of that many bytes returns NULL and `assert(buf != NULL)`
stops the process. -/
theorem truncate_grow_dies :
    (disk_truncate image_file (str "/a") 5 0).map Prod.fst = none ∧
    (disk_truncate image_two (str "/a") 8193 0).map Prod.fst = none ∧
    __find_ino image_file (str "/a") = some 1 ∧ (image_file.iptr 1).size = 0 ∧
    __find_ino image_two (str "/a") = some 1 ∧ (image_two.iptr 1).size = 8192 ∧
    free_blocks image_file = 250 ∧
    to_size_t (image_file.iptr 1).size + (18446744073709551616 - 5) = 18446744073709551611 ∧
    malloc_ok 18446744073709551611 = false := by
  decide!

/-! ## C13 and C14: write -/

/-- C14: block allocation and indirect promotion on write.  Let the path `P` resolve to a
new file `i`: one block (`file_wf d i 1`: `dnum = 1`, `dptrs[0]` allocated, `dptrs[1]` and
`dptrs[2]` unassigned) and `indirect_dptr = -1`.  For every `n` with
`0 < n ≤ (3 + 1024) * 4096`, when enough data blocks are free, `disk_write P buf n 0`
returns `n`, and afterwards `dnum` is `⌈n / 4096⌉`, the logical blocks below `⌈n / 4096⌉` are
pairwise distinct blocks whose bitmap bits are set, `indirect_dptr ≠ -1` exactly when
`n > 3 * 4096`, and then the indirect block is allocated and is none of the data blocks.
Moreover, when a block is free, every non-empty write at offset `3 * 4096` leaves the file
with an indirect block that was free before and is allocated now. -/
theorem write_allocates_blocks (d : Disk) (P : List Nat) (i : Int) (buf : Nat → Nat) (n : Nat)
    (tt : Int) (hres : __find_ino d P = some i) (hi : 0 ≤ i)
    (hwf : file_wf d i 1) (hind : (d.iptr i).indirect_dptr = -1)
    (hN : d.sblock.dnum ≤ 2147483647) (hn0 : 0 < n) (hn : n ≤ (3 + 1024) * 4096)
    (hfree : blocks_needed d i 1 n 0 ≤ free_blocks d) :
    (∃ dw, disk_write d P buf n 0 tt = some ((n : Int), dw) ∧
      (dw.iptr i).dnum = (((n + 4095) / 4096 : Nat) : Int) ∧
      (∀ k, k < (n + 4095) / 4096 → allocated dw (block_of dw i k)) ∧
      (∀ k k', k < (n + 4095) / 4096 → k' < (n + 4095) / 4096 →
        block_of dw i k = block_of dw i k' → k = k') ∧
      ((dw.iptr i).indirect_dptr ≠ -1 ↔ 3 * 4096 < n) ∧
      (3 * 4096 < n → allocated dw (dw.iptr i).indirect_dptr ∧
        ∀ k, k < (n + 4095) / 4096 → block_of dw i k ≠ (dw.iptr i).indirect_dptr)) ∧
    (0 < free_blocks d → ∀ m, 0 < m → m ≤ 2147483647 →
      ∃ dw, disk_write d P buf m (3 * 4096) tt = some ((m : Int), dw) ∧
        is_free d (dw.iptr i).indirect_dptr ∧ allocated dw (dw.iptr i).indirect_dptr) := by
  constructor
  · obtain ⟨dw, h1, hdm, hdp, -, hdnum, h0, h1', h2, h3⟩ :=
      disk_write_fields d P i buf n 0 tt hres hi
    rw [to_int_eq _ (by omega)] at h1
    have hfree' : loop_need d i 1 (0 + (n + 4095) / 4096) ≤ free_blocks d := by
      unfold blocks_needed at hfree
      rw [if_neg (by omega)] at hfree
      simpa using hfree
    have hex := write_data_loop_exact i buf (n + 1) d 0 0 n 0 0 1 n 0 rfl rfl hwf (by omega)
      (by omega) (by omega) (by omega) hN hfree'
    have hwd : __write_data d i buf n 0 = __write_data_loop i buf (n + 1) d 0 0 n 0 0 := rfl
    rw [← hwd] at hex
    generalize __write_data d i buf n 0 = wd at hex hdm hdp hdnum h0 h1' h2 h3
    obtain ⟨xwf, xind, xkeep⟩ := hex
    have em : max 1 (0 + (n + 4095) / 4096) = (n + 4095) / 4096 := by omega
    rw [em] at xwf
    have hblk : ∀ k, block_of dw i k = block_of wd i k :=
      fun k => block_of_congr wd dw i k hdp h0 h1' h2 h3
    have hal : ∀ b, allocated wd b → allocated dw b := by
      intro b hb
      unfold allocated at hb ⊢
      rw [hdm]
      exact hb
    refine ⟨dw, h1, ?_, ?_, ?_, ?_, ?_⟩
    · rw [hdnum]; exact xwf.dnum_eq
    · intro k hk
      rw [hblk]
      exact hal _ (xwf.alloc k hk)
    · intro k k' hk hk' e
      rw [hblk, hblk] at e
      exact xwf.inj k k' hk hk' e
    · rw [h3]
      constructor
      · intro hne
        by_contra hle
        have := xkeep (by omega)
        rw [this] at hne
        exact hne hind
      · intro hlt hneg
        have h4 : (wd.iptr i).indirect_dptr < 0 := by omega
        have := (xind.mp h4).2
        omega
    · intro hlt
      rcases xwf.ind with ⟨_, hle⟩ | ⟨ha, hb, _⟩
      · have : (n + 4095) / 4096 ≤ 3 := hle
        omega
      · rw [h3]
        refine ⟨hal _ ha, ?_⟩
        intro k hk
        rw [hblk]
        exact hb k hk
  · intro hfree1 m hm0 hm
    obtain ⟨dw, h1, hdm, -, -, -, -, -, -, h3⟩ :=
      disk_write_fields d P i buf m (3 * 4096) tt hres hi
    rw [to_int_eq _ (by omega)] at h1
    have hwd : __write_data d i buf m (3 * 4096) =
        __write_data_loop i buf (m + 1) d 3 0 m 0 0 := rfl
    rw [hwd] at hdm h3
    rw [write_data_loop_succ _ _ _ _ _ _ _ _ _ (by omega : m - 0 ≠ 0)] at hdm h3
    obtain ⟨-, -, s3⟩ := write_step_frame d i buf 3 (m - 0) (0 + 0) 0
    obtain ⟨b, hb1, hb2, hb3⟩ := s3 (le_refl _) (by omega) hfree1
    obtain ⟨k1, k2⟩ := write_data_loop_keep i buf m
      (write_step d i buf 3 (m - 0) (0 + 0) 0) (3 + 1) (min (m - 0) 4096) (m - 0) (0 + 0) 0
    rw [k2 (by rw [hb2]; omega), hb2] at h3
    refine ⟨dw, h1, by rw [h3]; exact hb1, ?_⟩
    rw [h3]
    refine ⟨by omega, ?_⟩
    rw [hdm]
    simp only [Int.toNat_ofNat]
    cases hq : bmap_isfree (__write_data_loop i buf m (write_step d i buf 3 (m - 0) (0 + 0) 0)
        (3 + 1) (min (m - 0) 4096) (m - 0) (0 + 0) 0).dmap b with
    | false => rfl
    | true => rw [k1 b hq] at hb3; exact absurd hb3 (by simp)

/-- C14 at a concrete input: on the image holding the new regular file `/a`, writing 16384
bytes at offset 0 returns 16384 and leaves the file with `dnum = 4` and an indirect block. -/
theorem write_allocates_blocks_witness :
    __find_ino image_file (str "/a") = some 1 ∧ file_wf image_file 1 1 ∧
    (image_file.iptr 1).indirect_dptr = -1 ∧
    ∃ dw, disk_write image_file (str "/a") (fun _ => 65) 16384 0 0 = some (16384, dw) ∧
      (dw.iptr 1).dnum = 4 ∧ (dw.iptr 1).indirect_dptr ≠ -1 := by
  obtain ⟨⟨dw, h1, h2, -, -, h5, -⟩, -⟩ :=
    write_allocates_blocks image_file (str "/a") 1 (fun _ => 65) 16384 0
      (by decide!) (by decide!) image_file_wf (by decide!) (by decide!) (by decide!) (by decide!)
      (by decide!)
  exact ⟨by decide!, image_file_wf, by decide!, dw, h1, h2, h5.mpr (by decide)⟩

/-! ## C15 and C16: attributes and the new image -/

/-- C15 fails on the code: on the image holding the new regular file `/a` (all times 0),
after `disk_utimens "/a"` with `ts[1].tv_sec = 7` the inode has `mtime = 7` and `ctime = 0`,
but `disk_getattr "/a"` reports `st_mtim.tv_sec = 0` and `st_ctim.tv_sec = 7`:
`__update_stat` assigns `st_ctim = mtime_spec` and `st_mtim = ctime_spec`. -/
theorem getattr_swaps_mtime_and_ctime :
    (and_then (disk_utimens image_file (str "/a") 5 7) fun u =>
      (disk_getattr u.2 (str "/a") zero_stat 9).map fun g =>
        (u.1, g.1, g.2.1.st_mtim.tv_sec, g.2.1.st_ctim.tv_sec)) = some (0, 0, 0, 7) ∧
    (and_then (disk_utimens image_file (str "/a") 5 7) fun u =>
      (disk_getattr u.2 (str "/a") zero_stat 9).map fun g =>
        ((g.2.2.iptr 1).mtime, (g.2.2.iptr 1).ctime)) = some (7, 0) := by
  decide!

/-- C16: the new image.  For every uid, gid and time, `create_disk` on the zero-filled image
returns an image in which the root inode index is 0 and is recorded in the superblock, inode 0
has mode `S_IFDIR|0755`, `nlink = 1`, `size = 0`, `dnum = 1`, `dptrs[0] = 0` and
`dptrs[1] = dptrs[2] = indirect_dptr = -1`, slot 0 of its directory block is the entry `..`
for inode 0, every other slot has inode field -1, in each of the two bitmaps exactly bit 0 is
set, and `__find_ino "/"` returns 0. -/
theorem create_disk_fresh_image (uid gid tt : Int) :
    ∃ d, create_disk uid gid tt = some d ∧
      d.root_ino = 0 ∧ d.sblock.root_ino = 0 ∧
      (d.iptr 0).mode = DIRECTORY_MODE ∧ (d.iptr 0).nlink = 1 ∧ (d.iptr 0).size = 0 ∧
      (d.iptr 0).dnum = 1 ∧ (d.iptr 0).dptrs0 = 0 ∧ (d.iptr 0).dptrs1 = -1 ∧
      (d.iptr 0).dptrs2 = -1 ∧ (d.iptr 0).indirect_dptr = -1 ∧
      streq_mem d.dptr (dentry_addr d 0 0) (str "..") = true ∧
      get_int d.dptr (dentry_addr d 0 0 + 48) = 0 ∧
      (∀ k, 1 ≤ k → k < DENTRY_COUNT → get_int d.dptr (dentry_addr d 0 k + 48) = -1) ∧
      (∀ b, b < d.sblock.inum.toNat → (bmap_isfree d.imap b = false ↔ b = 0)) ∧
      (∀ b, b < d.sblock.dnum.toNat → (bmap_isfree d.dmap b = false ↔ b = 0)) ∧
      __find_ino d (str "/") = some 0 := by
  obtain ⟨z1, z2, z3, z4, z5, z6, z7, z8⟩ := create_disk_zero
  cases h0 : create_disk 0 0 0 with
  | none => rw [h0] at z1; simp at z1
  | some d0 =>
    rw [h0] at z2 z3 z4 z5 z6 z7 z8
    simp only [Option.getD_some] at z2 z3 z4 z5 z6 z7 z8
    obtain ⟨d, hd, hs, hr, him, hdm, hdp, hi⟩ := create_disk_owner uid gid tt d0 h0
    obtain ⟨-, i2, i3, i4, i5, i6, i7, i8, i9⟩ := hi 0
    rw [z4] at i2 i3 i4 i5 i6 i7 i8 i9
    have haddr : ∀ k : Nat, dentry_addr d 0 k = (k : Int) * SIZEOF_DENTRY := by
      intro k
      unfold dentry_addr disk_get_dblock
      rw [i6]
      simp [new_inode]
    refine ⟨d, hd, by rw [hr, z2], by rw [hs, z3], i2, i4, i3, i5, i6, i7, i8, i9, ?_, ?_, ?_,
      ?_, ?_, ?_⟩
    · rw [haddr, hdp]
      simpa using z5
    · rw [haddr, hdp]
      simpa using z6 0 (by decide)
    · intro k hk1 hk2
      rw [haddr, hdp, z6 k hk2]
      simp only [ite_eq_right_iff]
      omega
    · intro b hb
      rw [hs, z3] at hb
      rw [him]
      exact z7 b hb
    · intro b hb
      rw [hs, z3] at hb
      rw [hdm]
      exact z8 b hb
    · simp [__find_ino, hr, z2]

/-! ## C17 and C18: the bitmaps -/

/-- C17 fails on the code: on the image after `create_disk` and `disk_mkdir "/a"` (inode 1 is
reachable from the root), `disk_rmdir "/a"` returns 0, and afterwards inode-bitmap bit 1 is
still set although inode 1 is not reachable from the root: `disk_rmdir` removes the entry and
frees nothing. -/
theorem rmdir_leaves_inode_bit_set :
    (disk_rmdir image_a (str "/a")).map Prod.fst = some 0 ∧
    bmap_isfree ((disk_rmdir image_a (str "/a")).getD (0, image_a)).2.imap 1 = false ∧
    ¬ reachable ((disk_rmdir image_a (str "/a")).getD (0, image_a)).2 1 ∧
    reachable image_a 1 := by
  refine ⟨by decide!, by decide!, ?_, ?_⟩
  · have key : ∀ j, reachable ((disk_rmdir image_a (str "/a")).getD (0, image_a)).2 j → j = 0 := by
      intro j h
      induction h with
      | root => decide!
      | step dir j _ _ he ih =>
        subst ih
        obtain ⟨k, hk, hj, hne⟩ := he
        have hall : ∀ k, k < DENTRY_COUNT →
            get_int ((disk_rmdir image_a (str "/a")).getD (0, image_a)).2.dptr
              (dentry_addr ((disk_rmdir image_a (str "/a")).getD (0, image_a)).2 0 k + 48) = 0 ∨
            get_int ((disk_rmdir image_a (str "/a")).getD (0, image_a)).2.dptr
              (dentry_addr ((disk_rmdir image_a (str "/a")).getD (0, image_a)).2 0 k + 48) = -1 := by
          decide!
        rcases hall k hk with h | h
        · rw [h] at hj; exact hj.symm
        · rw [h] at hj; exact absurd hj.symm hne
    intro h
    have := key 1 h
    omega
  · have h0 : reachable image_a image_a.root_ino := reachable.root
    exact reachable.step image_a.root_ino 1 h0 (by decide!) ⟨1, by decide!, by decide!, by decide!⟩

/-- C18 fails on the code: on the image where `/a` has size 8192 and the two blocks 1 and 2,
the data-bitmap invariant holds; `disk_truncate "/a" 8191` returns 0, and afterwards inode 1
is live and its slot `dptrs[1]` still holds block 2 while data-bitmap bit 2 is clear, so the
invariant does not hold: `__truncate_down` clears the bits and leaves the slots as they
are. -/
theorem truncate_frees_referenced_block :
    dmap_coherent image_two ∧
    (disk_truncate image_two (str "/a") 8191 0).map (fun r =>
      (r.1, bmap_isfree r.2.imap 1, (r.2.iptr 1).dptrs 1, bmap_isfree r.2.dmap 2)) =
      some (0, false, 2, true) ∧
    ¬ dmap_coherent ((disk_truncate image_two (str "/a") 8191 0).getD (0, image_two)).2 := by
  refine ⟨image_two_coherent, by decide!, ?_⟩
  unfold dmap_coherent references
  decide!

/-! ## C19 and C20: errors -/

/-- C19 fails on the code: on the new image the path `/x` does not resolve, `disk_access` and
`disk_truncate` return -ENOENT, but `nufs_open "/x"` and `nufs_truncate "/x"` return 0: both
callbacks end with `return 0` instead of `return rv`. -/
theorem open_and_truncate_hide_enoent :
    (nufs_open image_new (str "/x") 0).map Prod.fst = some 0 ∧
    (disk_access image_new (str "/x") 0).map Prod.fst = some (-ENOENT) ∧
    (nufs_truncate image_new (str "/x") 0 0).map Prod.fst = some 0 ∧
    (disk_truncate image_new (str "/x") 0 0).map Prod.fst = some (-ENOENT) ∧
    __find_ino image_new (str "/x") = some (-ENOENT) := by
  decide!

theorem slot_val_direct (d : Disk) (j : Int) (s : Nat) (h : s < 3) :
    slot_val d j s = (d.iptr j).dptrs s := by
  unfold slot_val; rw [if_pos h]

theorem slot_val_three (d : Disk) (j : Int) : slot_val d j 3 = (d.iptr j).indirect_dptr := by
  unfold slot_val; rw [if_neg (by omega), if_pos rfl]

theorem slot_val_entry (d : Disk) (j : Int) (s : Nat) (h : 4 ≤ s) :
    slot_val d j s = if 0 ≤ (d.iptr j).indirect_dptr then
      get_int d.dptr (indirect_addr d j (s - 4)) else -1 := by
  unfold slot_val; rw [if_neg (by omega), if_neg (by omega)]

/-- The references of an inode depend on its pointers and on the bytes of its indirect
block only. -/
theorem slot_val_congr (d d1 : Disk) (j : Int)
    (h0 : (d1.iptr j).dptrs0 = (d.iptr j).dptrs0) (h1 : (d1.iptr j).dptrs1 = (d.iptr j).dptrs1)
    (h2 : (d1.iptr j).dptrs2 = (d.iptr j).dptrs2)
    (h3 : (d1.iptr j).indirect_dptr = (d.iptr j).indirect_dptr)
    (hm : 0 ≤ (d.iptr j).indirect_dptr →
      ∀ x : Int, x / 4096 = (d.iptr j).indirect_dptr → d1.dptr x = d.dptr x) :
    ∀ s, s < 1028 → slot_val d1 j s = slot_val d j s := by
  intro s hs
  unfold slot_val
  rw [h3, dptrs_congr _ _ h0 h1 h2]
  by_cases e1 : s < 3
  · simp only [e1, if_true]
  · simp only [e1, if_false]
    by_cases e2 : s = 3
    · simp only [e2, if_true]
    · simp only [e2, if_false]
      by_cases e3 : 0 ≤ (d.iptr j).indirect_dptr
      · simp only [e3, if_true]
        have ea : indirect_addr d1 j (s - 4) = indirect_addr d j (s - 4) := by
          unfold indirect_addr; rw [h3]
        rw [ea]
        apply get_int_congr
        intro x hx1 hx2
        apply hm e3
        unfold indirect_addr disk_get_dblock at hx1 hx2
        simp only [BLOCK_SIZE] at hx1 hx2
        push_cast at hx1 hx2
        omega
      · simp only [e3, if_false]

/-- The references of every inode are the same on two disks that agree on the data region
and on the pointers of the inodes. -/
theorem slot_val_same (d d1 : Disk) (j : Int) (hd : d1.dptr = d.dptr)
    (h0 : (d1.iptr j).dptrs0 = (d.iptr j).dptrs0) (h1 : (d1.iptr j).dptrs1 = (d.iptr j).dptrs1)
    (h2 : (d1.iptr j).dptrs2 = (d.iptr j).dptrs2)
    (h3 : (d1.iptr j).indirect_dptr = (d.iptr j).indirect_dptr) (s : Nat) :
    slot_val d1 j s = slot_val d j s := by
  unfold slot_val indirect_addr
  rw [hd, h3, dptrs_congr _ _ h0 h1 h2]

theorem memcpy_to_other (m : Mem) (v : Int) (buf : Nat → Nat) (w off len : Nat) (x : Int)
    (hspill : off + len ≤ 4096) (hx : x / 4096 ≠ v) :
    memcpy_to m (disk_get_dblock v + (off : Int)) buf w len x = m x := by
  unfold memcpy_to disk_get_dblock
  simp only [BLOCK_SIZE]
  push_cast
  rw [if_neg]
  intro ⟨h1, h2⟩
  apply hx
  omega

theorem is_free_of_spec (d : Disk) (b : Nat) (h1 : (b : Int) < d.sblock.dnum)
    (h2 : bmap_isfree d.dmap b = true) : is_free d (b : Int) :=
  ⟨by omega, h1, by simpa using h2⟩

theorem slot_fields_direct_keep (d : Disk) (i : Int) (ii : Nat) (hii : ii < 3)
    (h : 0 ≤ (d.iptr i).dptrs ii) :
    (__write_data_slot d i ii).1 = (d.iptr i).dptrs ii ∧
      slot_fields d i (__write_data_slot d i ii) d.dmap d.dptr (d.iptr i).dptrs
        (d.iptr i).indirect_dptr := by
  have hlt : ii < BLOCKS_NUM := hii
  unfold __write_data_slot
  rw [if_pos hlt, if_neg (by omega)]
  exact ⟨rfl, rfl, rfl, rfl, fun _ _ => rfl, rfl, rfl, fun _ _ => rfl, rfl⟩

theorem slot_fields_direct_alloc (d : Disk) (i : Int) (ii : Nat) (hii : ii < 3)
    (h : (d.iptr i).dptrs ii < 0) (hfree : 0 < free_blocks d) :
    ∃ b : Nat, is_free d (b : Int) ∧ (__write_data_slot d i ii).1 = (b : Int) ∧
      free_blocks (__write_data_slot d i ii).2 + 1 = free_blocks d ∧
      slot_fields d i (__write_data_slot d i ii) (bmap_set d.dmap b) d.dptr
        (fun k => if k = ii then (b : Int) else (d.iptr i).dptrs k) (d.iptr i).indirect_dptr := by
  have hlt : ii < BLOCKS_NUM := hii
  obtain ⟨b, hb1, hb2, hb3, hb4⟩ := get_free_dno_spec d hfree
  refine ⟨b, is_free_of_spec d b hb1 hb2, ?_, ?_, ?_⟩
  · unfold __write_data_slot
    rw [if_pos hlt, if_pos h, hb3]
  · unfold __write_data_slot
    rw [if_pos hlt, if_pos h, hb3, ← hb4]
    rfl
  · unfold __write_data_slot
    rw [if_pos hlt, if_pos h, hb3]
    refine ⟨rfl, rfl, rfl, ?_, rfl, rfl, ?_, ?_⟩
    · intro j hj; simp [Disk.set_inode, hj]
    · intro k hk
      simp only [Disk.set_inode, if_true]
      rw [← dptrs_set_dptrs (d.iptr i) ii k b hii hk]
      interval_cases ii <;> interval_cases k <;> rfl
    · simp only [Disk.set_inode, if_true]
      interval_cases ii <;> rfl

theorem slot_fields_entry_keep (d : Disk) (i : Int) (ii : Nat) (hii : 3 ≤ ii)
    (hind : 0 ≤ (d.iptr i).indirect_dptr)
    (h : 0 ≤ get_int d.dptr (indirect_addr d i (ii - 3))) :
    (__write_data_slot d i ii).1 = get_int d.dptr (indirect_addr d i (ii - 3)) ∧
      slot_fields d i (__write_data_slot d i ii) d.dmap d.dptr (d.iptr i).dptrs
        (d.iptr i).indirect_dptr := by
  rw [write_data_slot_indirect d i ii hii, (ensure_indirect_frame d i).1 hind]
  unfold entry_step
  rw [if_neg (by show ¬ get_int d.dptr (indirect_addr d i (ii - 3)) < 0; omega)]
  exact ⟨rfl, rfl, rfl, rfl, fun _ _ => rfl, rfl, rfl, fun _ _ => rfl, rfl⟩

theorem slot_fields_entry_alloc (d : Disk) (i : Int) (ii : Nat) (hii : 3 ≤ ii)
    (hind : 0 ≤ (d.iptr i).indirect_dptr)
    (h : get_int d.dptr (indirect_addr d i (ii - 3)) < 0) (hfree : 0 < free_blocks d) :
    ∃ b : Nat, is_free d (b : Int) ∧ (__write_data_slot d i ii).1 = (b : Int) ∧
      free_blocks (__write_data_slot d i ii).2 + 1 = free_blocks d ∧
      slot_fields d i (__write_data_slot d i ii) (bmap_set d.dmap b)
        (put_int d.dptr (indirect_addr d i (ii - 3)) b) (d.iptr i).dptrs
        (d.iptr i).indirect_dptr := by
  obtain ⟨b, hb1, hb2, hb3, hb4⟩ := get_free_dno_spec d hfree
  have e : __write_data_slot d i ii = entry_step d i ii := by
    rw [write_data_slot_indirect d i ii hii, (ensure_indirect_frame d i).1 hind]
  have hh : get_int d.dptr (indirect_addr d i (ii - BLOCKS_NUM)) < 0 := h
  refine ⟨b, is_free_of_spec d b hb1 hb2, ?_, ?_, ?_⟩
  · rw [e]; unfold entry_step; rw [if_pos hh, hb3]
  · rw [e]; unfold entry_step; rw [if_pos hh, hb3, ← hb4]; rfl
  · rw [e]; unfold entry_step; rw [if_pos hh, hb3]
    refine ⟨rfl, rfl, rfl, ?_, rfl, rfl, ?_, ?_⟩
    · intro j hj; simp [Disk.set_inode, hj]
    · intro k hk
      simp only [Disk.set_inode, if_true]
      rfl
    · simp only [Disk.set_inode, if_true]

/-- The disk after `ensure_indirect` makes the indirect block. -/
theorem ensure_indirect_fields (d : Disk) (i : Int) (hind : (d.iptr i).indirect_dptr < 0)
    (hfree : 0 < free_blocks d) :
    ∃ c : Nat, is_free d (c : Int) ∧ free_blocks (ensure_indirect d i) + 1 = free_blocks d ∧
      (ensure_indirect d i).sblock = d.sblock ∧ (ensure_indirect d i).root_ino = d.root_ino ∧
      (ensure_indirect d i).imap = d.imap ∧
      (∀ j, j ≠ i → (ensure_indirect d i).iptr j = d.iptr j) ∧
      (ensure_indirect d i).dmap = bmap_set d.dmap c ∧
      (ensure_indirect d i).dptr =
        __create_indirect_dptr_loop (disk_get_dblock c) d.dptr (BLOCK_SIZE / 4) 0 ∧
      (ensure_indirect d i).iptr i = { d.iptr i with indirect_dptr := (c : Int) } := by
  obtain ⟨c, hc1, hc2, hc3, hc4⟩ := get_free_dno_spec d hfree
  refine ⟨c, is_free_of_spec d c hc1 hc2, ?_, ?_, ?_, ?_, ?_, ?_, ?_, ?_⟩
  all_goals unfold ensure_indirect __create_indirect_dptr
  all_goals rw [if_pos hind, hc3]
  · rw [← hc4]; rfl
  · rfl
  · rfl
  · rfl
  · intro j hj; simp [Disk.set_inode, hj]
  · rfl
  · rfl
  · simp [Disk.set_inode]

theorem slot_fields_new_indirect (d : Disk) (i : Int) (ii : Nat) (hii : 3 ≤ ii)
    (hmax : ii < 1027) (hind : (d.iptr i).indirect_dptr < 0) (hfree : 2 ≤ free_blocks d) :
    ∃ c b : Nat, is_free d (c : Int) ∧ is_free d (b : Int) ∧ b ≠ c ∧
      (__write_data_slot d i ii).1 = (b : Int) ∧
      free_blocks (__write_data_slot d i ii).2 + 2 = free_blocks d ∧
      slot_fields d i (__write_data_slot d i ii) (bmap_set (bmap_set d.dmap c) b)
        (put_int (__create_indirect_dptr_loop (disk_get_dblock c) d.dptr (BLOCK_SIZE / 4) 0)
          (disk_get_dblock c + 4 * ((ii - 3 : Nat) : Int)) b)
        (d.iptr i).dptrs (c : Int) := by
  obtain ⟨c, hc, hfA, a1, a2, a3, a4, a5, a6, a7⟩ := ensure_indirect_fields d i hind (by omega)
  have hslot : __write_data_slot d i ii = __write_data_slot (ensure_indirect d i) i ii := by
    rw [write_data_slot_indirect d i ii hii, write_data_slot_indirect _ i ii hii]
    congr 1
    have : 0 ≤ ((ensure_indirect d i).iptr i).indirect_dptr := by
      rw [a7]; exact hc.1
    rw [(ensure_indirect_frame (ensure_indirect d i) i).1 this]
  rw [hslot]
  generalize ensure_indirect d i = dA at hfA a1 a2 a3 a4 a5 a6 a7
  have hindA : (dA.iptr i).indirect_dptr = (c : Int) := by rw [a7]
  have haddr : indirect_addr dA i (ii - 3) = disk_get_dblock c + 4 * ((ii - 3 : Nat) : Int) := by
    unfold indirect_addr; rw [hindA]
  have hentry : get_int dA.dptr (indirect_addr dA i (ii - 3)) = -1 := by
    rw [haddr, a6]
    have := (create_indirect_loop_spec (disk_get_dblock c) (BLOCK_SIZE / 4) d.dptr 0).1 (ii - 3)
      (Nat.zero_le _) (by show ii - 3 < 0 + 4096 / 4; omega)
    exact this
  obtain ⟨b, hb, hb1, hb2, hf⟩ := slot_fields_entry_alloc dA i ii hii (by rw [hindA]; exact hc.1)
    (by rw [hentry]; omega) (by omega)
  have hbc : b ≠ c := by
    intro e
    have := hb.2.2
    rw [a5, e] at this
    simp [bmap_isfree_set] at this
  have hbd : is_free d (b : Int) := by
    refine ⟨hb.1, by rw [← a1]; exact hb.2.1, ?_⟩
    have := hb.2.2
    rw [a5] at this
    simp only [Int.toNat_ofNat] at this ⊢
    rw [bmap_isfree_set, if_neg hbc] at this
    exact this
  refine ⟨c, b, hc, hbd, hbc, hb1, by omega, ?_⟩
  refine ⟨hf.sblock_eq.trans a1, hf.root_eq.trans a2, hf.imap_eq.trans a3, ?_, ?_, ?_, ?_, ?_⟩
  · intro j hj; rw [hf.iptr_other j hj, a4 j hj]
  · rw [hf.dmap_eq, a5]
  · rw [hf.dptr_eq, haddr, a6]
  · intro k hk
    rw [hf.dptrs_eq k hk, a7]
    interval_cases k <;> rfl
  · rw [hf.ind_eq, hindA]

/-- The references of the file after `__write_data_slot`, from the fields of the disk. -/
theorem slot_val_of_fields (d : Disk) (i : Int) (r : Int × Disk) (dmap1 : Nat → Nat)
    (dptr1 : Mem) (dp : Nat → Int) (ind1 : Int) (hf : slot_fields d i r dmap1 dptr1 dp ind1)
    (s : Nat) :
    slot_val r.2 i s =
      if s < 3 then dp s else if s = 3 then ind1
      else if 0 ≤ ind1 then get_int dptr1 (disk_get_dblock ind1 + 4 * ((s - 4 : Nat) : Int))
      else -1 := by
  unfold slot_val indirect_addr
  rw [hf.ind_eq, hf.dptr_eq]
  by_cases e : s < 3
  · rw [if_pos e, if_pos e, hf.dptrs_eq s e]
  · rw [if_neg e, if_neg e]

theorem slot_effect_same (d : Disk) (i : Int) (ii : Nat) (r : Int × Disk)
    (hf : slot_fields d i r d.dmap d.dptr (d.iptr i).dptrs (d.iptr i).indirect_dptr)
    (h1 : r.1 = slot_val d i (slot_of ii)) (h2 : 0 ≤ slot_val d i (slot_of ii))
    (h3 : ¬ (3 ≤ ii ∧ (d.iptr i).indirect_dptr < 0)) :
    slot_effect d i ii r := by
  have hsv : ∀ s, slot_val r.2 i s = slot_val d i s := by
    intro s
    rw [slot_val_of_fields d i r _ _ _ _ hf s]
    rfl
  refine ⟨hf.sblock_eq, hf.root_eq, hf.imap_eq, hf.iptr_other, by rw [hsv, h1], by rw [h1]; exact h2,
    fun s _ _ _ => hsv s, fun _ => hsv 3, fun a b => absurd ⟨a, b⟩ h3, fun _ => hsv _,
    fun h => by omega, fun q _ _ => by rw [hf.dmap_eq], fun q hq => by rw [hf.dmap_eq] at hq; exact hq,
    fun h => by omega, fun a b => absurd ⟨a, b⟩ h3, ?_, fun x _ _ => by rw [hf.dptr_eq]⟩
  unfold step_need
  rw [if_neg (by omega), if_neg h3]
  exact free_blocks_congr _ _ hf.sblock_eq hf.dmap_eq

theorem slot_effect_direct_alloc (d : Disk) (i : Int) (ii : Nat) (r : Int × Disk) (b : Nat)
    (hii : ii < 3) (hneg : (d.iptr i).dptrs ii < 0) (hb : is_free d (b : Int))
    (hr : r.1 = (b : Int)) (hfree : free_blocks r.2 + 1 = free_blocks d)
    (hf : slot_fields d i r (bmap_set d.dmap b) d.dptr
      (fun k => if k = ii then (b : Int) else (d.iptr i).dptrs k) (d.iptr i).indirect_dptr)
    (ha : 0 ≤ (d.iptr i).indirect_dptr → allocated d (d.iptr i).indirect_dptr) :
    slot_effect d i ii r := by
  have hs0 : slot_of ii = ii := by unfold slot_of; rw [if_pos hii]
  have hsv : ∀ s, slot_val r.2 i s = if s = ii then (b : Int) else slot_val d i s := by
    intro s
    rw [slot_val_of_fields d i r _ _ _ _ hf s]
    unfold slot_val indirect_addr
    by_cases e : s < 3
    · simp only [e, if_true]
    · have : s ≠ ii := by omega
      simp only [e, if_false, this]
  have hold : slot_val d i ii = (d.iptr i).dptrs ii := slot_val_direct d i ii hii
  have h3 : slot_val r.2 i 3 = (d.iptr i).indirect_dptr := by
    rw [hsv 3, if_neg (by omega), slot_val_three]
  have hbind : (b : Int) ≠ (d.iptr i).indirect_dptr := by
    intro e
    by_cases h0 : 0 ≤ (d.iptr i).indirect_dptr
    · rw [← e] at ha
      exact allocated_not_free (ha (by omega)) hb
    · omega
  refine ⟨hf.sblock_eq, hf.root_eq, hf.imap_eq, hf.iptr_other, ?_, by rw [hr]; exact hb.1, ?_, ?_,
    fun h => by omega, ?_, ?_, ?_, ?_, ?_, fun h => by omega, ?_, ?_⟩
  · rw [hs0, hsv, if_pos rfl, hr]
  · intro s _ h1 _
    rw [hs0] at h1
    rw [hsv, if_neg h1]
  · intro _; rw [h3, slot_val_three]
  · intro h; rw [hs0, hold] at h; omega
  · intro _
    rw [hs0, hsv, if_pos rfl, h3]
    exact ⟨hb, hbind⟩
  · intro q h1 _
    rw [hs0, hsv, if_pos rfl] at h1
    rw [hf.dmap_eq, bmap_isfree_set, if_neg (by omega)]
  · intro q hq
    rw [hf.dmap_eq, bmap_isfree_set] at hq
    split_ifs at hq
    exact hq
  · intro _
    rw [hs0, hsv, if_pos rfl, hf.dmap_eq]
    simp [bmap_isfree_set]
  · unfold step_need
    rw [hs0, hold, if_pos hneg, if_neg (by omega)]
    exact hfree
  · intro x _ _; rw [hf.dptr_eq]

theorem slot_effect_entry_alloc (d : Disk) (i : Int) (ii : Nat) (r : Int × Disk) (b : Nat)
    (hii : 3 ≤ ii) (hmax : ii < 1027) (hN : d.sblock.dnum ≤ 2147483647)
    (hind : 0 ≤ (d.iptr i).indirect_dptr)
    (hneg : get_int d.dptr (indirect_addr d i (ii - 3)) < 0) (hb : is_free d (b : Int))
    (hr : r.1 = (b : Int)) (hfree : free_blocks r.2 + 1 = free_blocks d)
    (hf : slot_fields d i r (bmap_set d.dmap b)
      (put_int d.dptr (indirect_addr d i (ii - 3)) b) (d.iptr i).dptrs (d.iptr i).indirect_dptr)
    (ha : 0 ≤ (d.iptr i).indirect_dptr → allocated d (d.iptr i).indirect_dptr) :
    slot_effect d i ii r := by
  have hs0 : slot_of ii = ii + 1 := by unfold slot_of; rw [if_neg (by omega)]
  have hbr := hb.2.1
  have hsv : ∀ s, slot_val r.2 i s = if s = ii + 1 then (b : Int) else slot_val d i s := by
    intro s
    rw [slot_val_of_fields d i r _ _ _ _ hf s]
    unfold slot_val indirect_addr
    by_cases e : s < 3
    · have : s ≠ ii + 1 := by omega
      simp only [e, if_true, this, if_false]
    · by_cases e3 : s = 3
      · subst e3
        have h33 : ¬ (3 = ii + 1) := by omega
        simp only [h33, if_false, if_true]
      · simp only [e, e3, if_false, hind, if_true]
        by_cases e4 : s = ii + 1
        · subst e4
          simp only [if_true]
          have : ii + 1 - 4 = ii - 3 := by omega
          rw [this]
          exact get_int_put_int_same _ _ _ ⟨by have := hb.1; omega, by omega⟩
        · simp only [e4, if_false]
          apply get_int_put_int_other
          omega
  have hold : slot_val d i (ii + 1) = get_int d.dptr (indirect_addr d i (ii - 3)) := by
    rw [slot_val_entry _ _ _ (by omega), if_pos hind]
    have : ii + 1 - 4 = ii - 3 := by omega
    rw [this]
  have h3 : slot_val r.2 i 3 = (d.iptr i).indirect_dptr := by
    rw [hsv 3, if_neg (by omega), slot_val_three]
  have hbind : (b : Int) ≠ (d.iptr i).indirect_dptr := by
    intro e
    rw [← e] at ha
    exact allocated_not_free (ha (by omega)) hb
  refine ⟨hf.sblock_eq, hf.root_eq, hf.imap_eq, hf.iptr_other, ?_, by rw [hr]; exact hb.1, ?_, ?_,
    fun h1 h2 => by omega, ?_, ?_, ?_, ?_, ?_, fun h1 h2 => by omega, ?_, ?_⟩
  · rw [hs0, hsv, if_pos rfl, hr]
  · intro s _ h1 _
    rw [hs0] at h1
    rw [hsv, if_neg h1]
  · intro _; rw [h3, slot_val_three]
  · intro h; rw [hs0, hold] at h; omega
  · intro _
    rw [hs0, hsv, if_pos rfl, h3]
    exact ⟨hb, hbind⟩
  · intro q h1 _
    rw [hs0, hsv, if_pos rfl] at h1
    rw [hf.dmap_eq, bmap_isfree_set, if_neg (by omega)]
  · intro q hq
    rw [hf.dmap_eq, bmap_isfree_set] at hq
    split_ifs at hq
    exact hq
  · intro _
    rw [hs0, hsv, if_pos rfl, hf.dmap_eq]
    simp [bmap_isfree_set]
  · unfold step_need
    rw [hs0, hold, if_pos hneg, if_neg (by omega)]
    exact hfree
  · intro x hx _
    rw [h3] at hx
    rw [hf.dptr_eq]
    apply put_int_other
    unfold indirect_addr disk_get_dblock
    simp only [BLOCK_SIZE]
    push_cast
    omega

theorem slot_effect_new_indirect (d : Disk) (i : Int) (ii : Nat) (r : Int × Disk) (c b : Nat)
    (hii : 3 ≤ ii) (hmax : ii < 1027) (hN : d.sblock.dnum ≤ 2147483647)
    (hind : (d.iptr i).indirect_dptr < 0)
    (hc : is_free d (c : Int)) (hb : is_free d (b : Int)) (hbc : b ≠ c)
    (hr : r.1 = (b : Int)) (hfree : free_blocks r.2 + 2 = free_blocks d)
    (hf : slot_fields d i r (bmap_set (bmap_set d.dmap c) b)
      (put_int (__create_indirect_dptr_loop (disk_get_dblock c) d.dptr (BLOCK_SIZE / 4) 0)
        (disk_get_dblock c + 4 * ((ii - 3 : Nat) : Int)) b)
      (d.iptr i).dptrs (c : Int)) :
    slot_effect d i ii r := by
  have hs0 : slot_of ii = ii + 1 := by unfold slot_of; rw [if_neg (by omega)]
  have hbr := hb.2.1
  have hc0 : (0 : Int) ≤ (c : Int) := hc.1
  have hsv : ∀ s, s < 1028 → slot_val r.2 i s =
      if s = ii + 1 then (b : Int) else if s = 3 then (c : Int) else slot_val d i s := by
    intro s hs
    rw [slot_val_of_fields d i r _ _ _ _ hf s]
    by_cases e : s < 3
    · have h1 : s ≠ ii + 1 := by omega
      have h2 : s ≠ 3 := by omega
      rw [if_pos e, if_neg h1, if_neg h2, slot_val_direct d i s e]
    · rw [if_neg e]
      by_cases e3 : s = 3
      · have h33 : ¬ (s = ii + 1) := by omega
        rw [if_pos e3, if_neg h33, if_pos e3]
      · rw [if_neg e3, if_pos hc0]
        by_cases e4 : s = ii + 1
        · rw [if_pos e4]
          have : s - 4 = ii - 3 := by omega
          rw [this]
          exact get_int_put_int_same _ _ _ ⟨by have := hb.1; omega, by omega⟩
        · rw [if_neg e4, if_neg e3, slot_val_entry d i s (by omega), if_neg (by omega)]
          rw [get_int_put_int_other _ _ _ _ (by omega)]
          exact (create_indirect_loop_spec (disk_get_dblock c) (BLOCK_SIZE / 4) d.dptr 0).1 (s - 4)
            (Nat.zero_le _) (by show s - 4 < 0 + 4096 / 4; omega)
  have hold : slot_val d i (ii + 1) = -1 := by
    rw [slot_val_entry _ _ _ (by omega), if_neg (by omega)]
  have h3 : slot_val r.2 i 3 = (c : Int) := by
    rw [hsv 3 (by omega), if_neg (by omega), if_pos rfl]
  have hv : slot_val r.2 i (ii + 1) = (b : Int) := by
    rw [hsv _ (by omega), if_pos rfl]
  have hbcI : (b : Int) ≠ (c : Int) := by
    intro e; exact hbc (by exact_mod_cast e)
  refine ⟨hf.sblock_eq, hf.root_eq, hf.imap_eq, hf.iptr_other, ?_, by rw [hr]; exact hb.1, ?_,
    fun h => by omega, ?_, ?_, ?_, ?_, ?_, ?_, ?_, ?_, ?_⟩
  · rw [hs0, hv, hr]
  · intro s hs h1 h2
    rw [hs0] at h1
    rw [hsv s hs, if_neg h1, if_neg h2]
  · intro _ _; rw [h3]; exact hc
  · intro h; rw [hs0, hold] at h; omega
  · intro _
    rw [hs0, hv, h3]
    exact ⟨hb, hbcI⟩
  · intro q h1 h2
    rw [hs0, hv] at h1
    rw [h3] at h2
    rw [hf.dmap_eq, bmap_isfree_set, if_neg (by omega), bmap_isfree_set, if_neg (by omega)]
  · intro q hq
    rw [hf.dmap_eq, bmap_isfree_set] at hq
    split_ifs at hq
    rw [bmap_isfree_set] at hq
    split_ifs at hq
    exact hq
  · intro _
    rw [hs0, hv, hf.dmap_eq]
    simp [bmap_isfree_set]
  · intro _ _
    rw [h3, hf.dmap_eq]
    simp [bmap_isfree_set, hbc.symm]
  · unfold step_need
    rw [hs0, hold, if_pos (by omega), if_pos ⟨hii, hind⟩]
    exact hfree
  · intro x hx _
    rw [h3] at hx
    rw [hf.dptr_eq, put_int_other]
    · exact (create_indirect_loop_spec (disk_get_dblock c) (BLOCK_SIZE / 4) d.dptr 0).2 x (by
        unfold disk_get_dblock
        simp only [BLOCK_SIZE]
        push_cast
        omega)
    · unfold disk_get_dblock
      simp only [BLOCK_SIZE]
      push_cast
      omega

theorem step_need_direct (d : Disk) (i : Int) (ii : Nat) (hii : ii < 3) :
    step_need d i ii = if (d.iptr i).dptrs ii < 0 then 1 else 0 := by
  unfold step_need slot_of
  rw [if_pos hii, slot_val_direct d i ii hii]
  have h : ¬ (3 ≤ ii ∧ (d.iptr i).indirect_dptr < 0) := by omega
  rw [if_neg h, Nat.add_zero]

theorem step_need_le (d : Disk) (i : Int) (ii : Nat) :
    step_need d i ii ≤ 1 + (if 3 ≤ ii ∧ (d.iptr i).indirect_dptr < 0 then 1 else 0) := by
  unfold step_need
  split_ifs <;> omega

/-- What `__write_data_slot` does to the references of the file: the block of logical block
`ii` is kept or taken from the free blocks, the indirect block likewise, and no other reference
changes. -/
theorem write_data_slot_effect (d : Disk) (i : Int) (ii : Nat) (hii : ii < 1027)
    (hN : d.sblock.dnum ≤ 2147483647) (hfree : step_need d i ii ≤ free_blocks d)
    (ha : 0 ≤ (d.iptr i).indirect_dptr → allocated d (d.iptr i).indirect_dptr) :
    slot_effect d i ii (__write_data_slot d i ii) := by
  by_cases h3 : ii < 3
  · have hs0 : slot_of ii = ii := by unfold slot_of; rw [if_pos h3]
    rw [step_need_direct d i ii h3] at hfree
    by_cases hneg : (d.iptr i).dptrs ii < 0
    · rw [if_pos hneg] at hfree
      obtain ⟨b, hb, hr, hfr, hf⟩ := slot_fields_direct_alloc d i ii h3 hneg (by omega)
      exact slot_effect_direct_alloc d i ii _ b h3 hneg hb hr hfr hf ha
    · obtain ⟨hr, hf⟩ := slot_fields_direct_keep d i ii h3 (by omega)
      exact slot_effect_same d i ii _ hf (by rw [hs0, slot_val_direct d i ii h3]; exact hr)
        (by rw [hs0, slot_val_direct d i ii h3]; omega) (by omega)
  · have hs0 : slot_of ii = ii + 1 := by unfold slot_of; rw [if_neg h3]
    have e4 : ii + 1 - 4 = ii - 3 := by omega
    by_cases hind : 0 ≤ (d.iptr i).indirect_dptr
    · have hold : slot_val d i (ii + 1) = get_int d.dptr (indirect_addr d i (ii - 3)) := by
        rw [slot_val_entry _ _ _ (by omega), if_pos hind, e4]
      by_cases hneg : get_int d.dptr (indirect_addr d i (ii - 3)) < 0
      · have hf1 : 0 < free_blocks d := by
          unfold step_need at hfree
          rw [hs0, hold, if_pos hneg] at hfree
          omega
        obtain ⟨b, hb, hr, hfr, hf⟩ := slot_fields_entry_alloc d i ii (by omega) hind hneg hf1
        exact slot_effect_entry_alloc d i ii _ b (by omega) hii hN hind hneg hb hr hfr hf ha
      · obtain ⟨hr, hf⟩ := slot_fields_entry_keep d i ii (by omega) hind (by omega)
        exact slot_effect_same d i ii _ hf (by rw [hs0, hold]; exact hr)
          (by rw [hs0, hold]; omega) (by omega)
    · have hf2 : 2 ≤ free_blocks d := by
        unfold step_need at hfree
        rw [hs0, slot_val_entry _ _ _ (by omega), if_neg hind, if_pos (by omega),
          if_pos ⟨by omega, by omega⟩] at hfree
        omega
      obtain ⟨c, b, hc, hb, hbc, hr, hfr, hf⟩ :=
        slot_fields_new_indirect d i ii (by omega) hii (by omega) hf2
      exact slot_effect_new_indirect d i ii _ c b (by omega) hii hN (by omega) hc hb hbc hr hfr hf

theorem slot_of_lt (ii : Nat) (h : ii < 1027) : slot_of ii < 1028 := by
  unfold slot_of; split_ifs <;> omega

theorem slot_of_ne_three (ii : Nat) : slot_of ii ≠ 3 := by
  unfold slot_of; split_ifs <;> omega

/-- The block found by `__write_data_slot` is not the indirect block of the file, when the
block the file had there was allocated and was not its indirect block. -/
theorem slot_effect_ne (d : Disk) (i : Int) (ii : Nat) (r : Int × Disk)
    (E : slot_effect d i ii r)
    (hv : 0 ≤ slot_val d i (slot_of ii) → allocated d (slot_val d i (slot_of ii)) ∧
      slot_val d i (slot_of ii) ≠ slot_val d i 3) :
    slot_val r.2 i (slot_of ii) ≠ slot_val r.2 i 3 := by
  by_cases hold : 0 ≤ slot_val d i (slot_of ii)
  · obtain ⟨h1, h2⟩ := hv hold
    rw [E.blk_keep hold]
    by_cases hk : ii < 3 ∨ 0 ≤ (d.iptr i).indirect_dptr
    · rw [E.ind_keep hk]; exact h2
    · intro e
      have := E.ind_new (by omega) (by omega)
      rw [← e] at this
      exact allocated_not_free h1 this
  · exact (E.blk_new (by omega)).2

/-- Copying into the block found leaves what `__write_data_slot` did to the references. -/
theorem slot_effect_after_copy (d : Disk) (i : Int) (ii : Nat) (r : Int × Disk) (d2 : Disk)
    (E : slot_effect d i ii r) (hne : slot_val r.2 i (slot_of ii) ≠ slot_val r.2 i 3)
    (hii : ii < 1027)
    (e1 : d2.sblock = r.2.sblock) (e2 : d2.root_ino = r.2.root_ino) (e3 : d2.imap = r.2.imap)
    (e4 : d2.iptr = r.2.iptr) (e5 : d2.dmap = r.2.dmap)
    (e6 : ∀ x : Int, x / 4096 ≠ r.1 → d2.dptr x = r.2.dptr x) :
    slot_effect d i ii (r.1, d2) ∧ ∀ j s, s < 1028 →
      (0 ≤ (r.2.iptr j).indirect_dptr → (r.2.iptr j).indirect_dptr ≠ r.1) →
      slot_val d2 j s = slot_val r.2 j s := by
  have hcong : ∀ j s, s < 1028 →
      (0 ≤ (r.2.iptr j).indirect_dptr → (r.2.iptr j).indirect_dptr ≠ r.1) →
      slot_val d2 j s = slot_val r.2 j s := by
    intro j s hs hj
    apply slot_val_congr r.2 d2 j (by rw [e4]) (by rw [e4]) (by rw [e4]) (by rw [e4]) _ s hs
    intro h0 x hx
    apply e6
    rw [hx]
    exact hj h0
  have hsv : ∀ s, s < 1028 → slot_val d2 i s = slot_val r.2 i s := by
    intro s hs
    apply hcong i s hs
    intro _
    rw [E.dno, ← slot_val_three]
    exact fun e => hne e.symm
  have hb := hsv (slot_of ii) (slot_of_lt ii hii)
  have h3 := hsv 3 (by omega)
  refine ⟨⟨e1.trans E.sblock_eq, e2.trans E.root_eq, e3.trans E.imap_eq, ?_, ?_, E.dno_nonneg,
    ?_, ?_, ?_, ?_, ?_, ?_, ?_, ?_, ?_, ?_, ?_⟩, hcong⟩
  · intro j hj
    show d2.iptr j = d.iptr j
    rw [e4]; exact E.iptr_other j hj
  · show r.1 = slot_val d2 i (slot_of ii)
    rw [hb]; exact E.dno
  · intro s hs a b
    show slot_val d2 i s = slot_val d i s
    rw [hsv s hs]; exact E.slot_other s hs a b
  · intro a
    show slot_val d2 i 3 = slot_val d i 3
    rw [h3]; exact E.ind_keep a
  · intro a b
    show is_free d (slot_val d2 i 3)
    rw [h3]; exact E.ind_new a b
  · intro a
    show slot_val d2 i (slot_of ii) = slot_val d i (slot_of ii)
    rw [hb]; exact E.blk_keep a
  · intro a
    show is_free d (slot_val d2 i (slot_of ii)) ∧ slot_val d2 i (slot_of ii) ≠ slot_val d2 i 3
    rw [hb, h3]; exact E.blk_new a
  · intro q a b
    show bmap_isfree d2.dmap q = bmap_isfree d.dmap q
    have a1 : (q : Int) ≠ slot_val d2 i (slot_of ii) := a
    have b1 : (q : Int) ≠ slot_val d2 i 3 := b
    rw [hb] at a1
    rw [h3] at b1
    rw [e5]; exact E.dmap_other q a1 b1
  · intro q a
    have a1 : bmap_isfree d2.dmap q = true := a
    rw [e5] at a1
    exact E.dmap_mono q a1
  · intro a
    show bmap_isfree d2.dmap (slot_val d2 i (slot_of ii)).toNat = false
    rw [hb, e5]; exact E.dmap_blk a
  · intro a b
    show bmap_isfree d2.dmap (slot_val d2 i 3).toNat = false
    rw [h3, e5]; exact E.dmap_ind a b
  · show free_blocks d2 + step_need d i ii = free_blocks d
    rw [free_blocks_congr r.2 d2 e1 e5]; exact E.free
  · intro x a b
    show d2.dptr x = d.dptr x
    have a1 : x / 4096 ≠ slot_val d2 i 3 := a
    have b1 : x / 4096 ≠ slot_val d2 i (slot_of ii) := b
    rw [h3] at a1
    rw [hb] at b1
    rw [e6 x (by rw [E.dno]; exact b1)]
    exact E.mem x a1 b1

/-- What one iteration of `__write_data` does to the references of the file, when the chunk
stays inside its block: the block of logical block `ii` is kept or taken from the free
blocks, the indirect block likewise, no other reference of the file changes, and outside these
two blocks no byte changes. -/
theorem write_step_effect (d : Disk) (i : Int) (buf : Nat → Nat) (ii rem w off : Nat)
    (hii : ii < 1027) (hN : d.sblock.dnum ≤ 2147483647)
    (hfree : step_need d i ii ≤ free_blocks d)
    (ha : 0 ≤ (d.iptr i).indirect_dptr → allocated d (d.iptr i).indirect_dptr)
    (hv : 0 ≤ slot_val d i (slot_of ii) → allocated d (slot_val d i (slot_of ii)) ∧
      slot_val d i (slot_of ii) ≠ slot_val d i 3)
    (hspill : off + min rem 4096 ≤ 4096) :
    slot_effect d i ii ((__write_data_slot d i ii).1, write_step d i buf ii rem w off) ∧
      ∀ j s, s < 1028 →
        (0 ≤ ((__write_data_slot d i ii).2.iptr j).indirect_dptr →
          ((__write_data_slot d i ii).2.iptr j).indirect_dptr ≠ (__write_data_slot d i ii).1) →
        slot_val (write_step d i buf ii rem w off) j s =
          slot_val (__write_data_slot d i ii).2 j s := by
  have E := write_data_slot_effect d i ii hii hN hfree ha
  have hne := slot_effect_ne d i ii _ E hv
  exact slot_effect_after_copy d i ii _ (write_step d i buf ii rem w off) E hne hii rfl rfl rfl
    rfl rfl (fun x hx => memcpy_to_other _ _ _ _ _ _ x hspill hx)

/-! ## Lemmas: isolation of a write -/

theorem live_congr (d d1 : Disk) (h1 : d1.sblock = d.sblock) (h2 : d1.imap = d.imap) (j : Int) :
    live d1 j ↔ live d j := by
  unfold live; rw [h1, h2]

theorem allocated_mono (d d1 : Disk)
    (h : ∀ q, bmap_isfree d1.dmap q = true → bmap_isfree d.dmap q = true) (b : Int)
    (hb : allocated d b) : allocated d1 b := by
  refine ⟨hb.1, ?_⟩
  cases hq : bmap_isfree d1.dmap b.toNat with
  | false => rfl
  | true => exact absurd (h _ hq) (by rw [hb.2]; simp)

theorem is_free_mono (d d1 : Disk) (h1 : d1.sblock = d.sblock)
    (h : ∀ q, bmap_isfree d1.dmap q = true → bmap_isfree d.dmap q = true) (b : Int)
    (hb : is_free d1 b) : is_free d b :=
  ⟨hb.1, by rw [← h1]; exact hb.2.1, h _ hb.2.2⟩

/-- After `__write_data_slot` and the copy, a reference of the file is the one it had or a
block that was free; only the block of logical block `ii` and the indirect block can be
new. -/
theorem slot_old_or_fresh (d : Disk) (i : Int) (ii : Nat) (r : Int × Disk)
    (E : slot_effect d i ii r) (s : Nat) (hs : s < 1028) :
    slot_val r.2 i s = slot_val d i s ∨
      (is_free d (slot_val r.2 i s) ∧ allocated r.2 (slot_val r.2 i s) ∧
        (s = slot_of ii ∨ s = 3)) := by
  by_cases e1 : s = slot_of ii
  · subst e1
    by_cases h0 : 0 ≤ slot_val d i (slot_of ii)
    · exact Or.inl (E.blk_keep h0)
    · refine Or.inr ⟨(E.blk_new (by omega)).1, ⟨?_, E.dmap_blk (by omega)⟩, Or.inl rfl⟩
      rw [← E.dno]; exact E.dno_nonneg
  · by_cases e3 : s = 3
    · subst e3
      by_cases hk : ii < 3 ∨ 0 ≤ (d.iptr i).indirect_dptr
      · exact Or.inl (E.ind_keep hk)
      · have hf := E.ind_new (by omega) (by omega)
        exact Or.inr ⟨hf, ⟨hf.1, E.dmap_ind (by omega) (by omega)⟩, Or.inr rfl⟩
    · exact Or.inl (E.slot_other s hs e1 e3)

theorem isolated_refl (d : Disk) (i : Int) : isolated d d i :=
  ⟨rfl, rfl, rfl, fun _ _ => rfl, fun _ h => h, fun _ _ => Or.inl rfl, fun _ _ _ => rfl⟩

theorem isolated_trans {d d1 d2 : Disk} {i : Int} (h1 : isolated d d1 i)
    (h2 : isolated d1 d2 i) : isolated d d2 i := by
  have hfm := is_free_mono d d1 h1.sblock_eq h1.dmap_mono
  refine ⟨h2.sblock_eq.trans h1.sblock_eq, h2.root_eq.trans h1.root_eq,
    h2.imap_eq.trans h1.imap_eq, fun j hj => (h2.iptr_other j hj).trans (h1.iptr_other j hj),
    fun q hq => h1.dmap_mono q (h2.dmap_mono q hq), ?_, ?_⟩
  · intro s hs
    rcases h2.own s hs with e | f
    · rcases h1.own s hs with e1 | f1
      · exact Or.inl (e.trans e1)
      · exact Or.inr (by rw [e]; exact f1)
    · exact Or.inr (hfm _ f)
  · intro x hx hs
    rw [h2.frame x (fun f => hx (hfm _ f)) ?_]
    · exact h1.frame x hx hs
    · intro s hs1 e
      rcases h1.own s hs1 with e1 | f1
      · exact hs s hs1 (e1.symm.trans e)
      · rw [e] at f1; exact hx f1

/-- With the references of live inodes allocated and pairwise distinct, a change of the
references of file `i` as `__write_data_slot` makes it leaves the other inodes and their blocks
alone and keeps the references allocated and distinct. -/
theorem slot_effect_isolated (d : Disk) (i : Int) (ii : Nat) (r : Int × Disk)
    (E : slot_effect d i ii r) (hii : ii < 1027)
    (hA : refs_allocated d) (hU : refs_unique d) (hl : live d i) :
    isolated d r.2 i ∧ refs_allocated r.2 ∧ refs_unique r.2 := by
  have hlive : ∀ j, live r.2 j ↔ live d j := live_congr d r.2 E.sblock_eq E.imap_eq
  have hv : 0 ≤ slot_val d i (slot_of ii) → allocated d (slot_val d i (slot_of ii)) ∧
      slot_val d i (slot_of ii) ≠ slot_val d i 3 := by
    intro h0
    refine ⟨hA i _ hl (slot_of_lt ii hii) h0, ?_⟩
    intro e
    exact slot_of_ne_three ii (hU i _ i 3 hl hl (slot_of_lt ii hii) (by omega) h0 e).2
  have hne := slot_effect_ne d i ii r E hv
  have hnot : ∀ j s', j ≠ i → live d j → s' < 1028 → 0 ≤ slot_val d j s' →
      ∀ s, s < 1028 → slot_val r.2 i s ≠ slot_val d j s' := by
    intro j s' hj hlj hs' h0 s hs e
    rcases slot_old_or_fresh d i ii r E s hs with h | ⟨h, -, -⟩
    · rw [h] at e
      exact hj (hU j s' i s hlj hl hs' hs h0 e.symm).1
    · rw [e] at h
      exact allocated_not_free (hA j s' hlj hs' h0) h
  have hdata : ∀ j s, j ≠ i → live d j → s < 1028 → 0 ≤ slot_val d j s →
      ∀ x : Int, x / 4096 = slot_val d j s → r.2.dptr x = d.dptr x := by
    intro j s hj hlj hs h0 x hx
    apply E.mem x
    · rw [hx]; exact fun e => hnot j s hj hlj hs h0 3 (by omega) e.symm
    · rw [hx]; exact fun e => hnot j s hj hlj hs h0 _ (slot_of_lt ii hii) e.symm
  have hothers : ∀ j s, j ≠ i → live d j → s < 1028 → slot_val r.2 j s = slot_val d j s := by
    intro j s hj hlj hs
    have e := E.iptr_other j hj
    apply slot_val_congr d r.2 j (by rw [e]) (by rw [e]) (by rw [e]) (by rw [e]) _ s hs
    intro h0 x hx
    exact hdata j 3 hj hlj (by omega) (by rw [slot_val_three]; exact h0) x
      (by rw [slot_val_three]; exact hx)
  have hmono := allocated_mono d r.2 E.dmap_mono
  have hown : ∀ s, s < 1028 → slot_val r.2 i s = slot_val d i s ∨ is_free d (slot_val r.2 i s) := by
    intro s hs
    rcases slot_old_or_fresh d i ii r E s hs with h | ⟨h, -, -⟩
    · exact Or.inl h
    · exact Or.inr h
  have hframe : ∀ x : Int, ¬ is_free d (x / 4096) →
      (∀ s, s < 1028 → slot_val d i s ≠ x / 4096) → r.2.dptr x = d.dptr x := by
    intro x hx hs
    have hno : ∀ s, s < 1028 → x / 4096 ≠ slot_val r.2 i s := by
      intro s hs1 e
      rcases hown s hs1 with e1 | f1
      · exact hs s hs1 (e1.symm.trans e.symm)
      · rw [← e] at f1; exact hx f1
    exact E.mem x (hno 3 (by omega)) (hno _ (slot_of_lt ii hii))
  refine ⟨⟨E.sblock_eq, E.root_eq, E.imap_eq, E.iptr_other, E.dmap_mono, hown, hframe⟩, ?_, ?_⟩
  · intro j s hlj hs h0
    have hlj' := (hlive j).mp hlj
    by_cases hj : j = i
    · subst hj
      rcases slot_old_or_fresh d j ii r E s hs with h | ⟨-, h, -⟩
      · rw [h] at h0 ⊢
        exact hmono _ (hA j s hlj' hs h0)
      · exact h
    · rw [hothers j s hj hlj' hs] at h0 ⊢
      exact hmono _ (hA j s hlj' hs h0)
  · intro j s j' s' hlj hlj' hs hs' h0 he
    have hd := (hlive j).mp hlj
    have hd' := (hlive j').mp hlj'
    by_cases hj : j = i
    · by_cases hj' : j' = i
      · rw [hj] at he h0
        rw [hj'] at he
        refine ⟨hj.trans hj'.symm, ?_⟩
        rcases slot_old_or_fresh d i ii r E s hs with h | ⟨hf, -, hp⟩
        · rcases slot_old_or_fresh d i ii r E s' hs' with h' | ⟨hf', -, -⟩
          · rw [h, h'] at he
            rw [h] at h0
            exact (hU i s i s' hl hl hs hs' h0 he).2
          · rw [← he, h] at hf'
            rw [h] at h0
            exact absurd hf' (allocated_not_free (hA i s hl hs h0))
        · rcases slot_old_or_fresh d i ii r E s' hs' with h' | ⟨-, -, hp'⟩
          · rw [he, h'] at hf
            rw [he, h'] at h0
            exact absurd hf (allocated_not_free (hA i s' hl hs' h0))
          · rcases hp with hp | hp <;> rcases hp' with hp' | hp'
            · rw [hp, hp']
            · rw [hp, hp'] at he; exact absurd he hne
            · rw [hp, hp'] at he; exact absurd he.symm hne
            · rw [hp, hp']
      · rw [hj] at he h0
        rw [hothers j' s' hj' hd' hs'] at he
        have h0' : 0 ≤ slot_val d j' s' := by rw [← he]; exact h0
        exact absurd he (hnot j' s' hj' hd' hs' h0' s hs)
    · by_cases hj' : j' = i
      · rw [hj'] at he
        rw [hothers j s hj hd hs] at he h0
        exact absurd he.symm (hnot j s hj hd hs h0 s' hs')
      · rw [hothers j s hj hd hs] at he h0
        rw [hothers j' s' hj' hd' hs'] at he
        exact hU j s j' s' hd hd' hs hs' h0 he

/-- The loop of `__write_data` on file `i`, started on a block boundary or with a first chunk
that stays inside its block, leaves the other inodes and their blocks alone and keeps the
references of live inodes allocated and pairwise distinct. -/
theorem write_data_loop_isolated (i : Int) (buf : Nat → Nat) :
    ∀ (fuel : Nat) (d : Disk) (ii curr left woff off rem : Nat),
      left - curr = rem → off + min rem 4096 ≤ 4096 →
      ii + (rem + 4095) / 4096 ≤ 1027 →
      (rem + 4095) / 4096 < fuel →
      d.sblock.dnum ≤ 2147483647 →
      (rem + 4095) / 4096 +
        (if 3 < ii + (rem + 4095) / 4096 ∧ (d.iptr i).indirect_dptr < 0 then 1 else 0) ≤
          free_blocks d →
      refs_allocated d → refs_unique d → live d i →
      isolated d (__write_data_loop i buf fuel d ii curr left woff off) i ∧
        refs_allocated (__write_data_loop i buf fuel d ii curr left woff off) ∧
        refs_unique (__write_data_loop i buf fuel d ii curr left woff off) := by
  intro fuel
  induction fuel with
  | zero => intro d ii curr left woff off rem _ _ _ h; omega
  | succ fuel ih =>
    intro d ii curr left woff off rem hrem hspill hmax hfuel hN hfree hA hU hl
    by_cases hz : left - curr = 0
    · rw [write_data_loop_done _ _ _ _ _ _ _ _ _ hz]
      exact ⟨isolated_refl d i, hA, hU⟩
    · rw [write_data_loop_succ _ _ _ _ _ _ _ _ _ hz, hrem]
      have hrem0 : 0 < rem := by omega
      have hchunks : (rem + 4095) / 4096 = (rem - min rem 4096 + 4095) / 4096 + 1 := by omega
      have hii : ii < 1027 := by omega
      have hle := step_need_le d i ii
      have hneed : step_need d i ii ≤ free_blocks d := by
        split_ifs at hle hfree <;> omega
      have ha : 0 ≤ (d.iptr i).indirect_dptr → allocated d (d.iptr i).indirect_dptr := by
        intro h0
        have := hA i 3 hl (by omega) (by rw [slot_val_three]; exact h0)
        rw [slot_val_three] at this
        exact this
      have hv : 0 ≤ slot_val d i (slot_of ii) → allocated d (slot_val d i (slot_of ii)) ∧
          slot_val d i (slot_of ii) ≠ slot_val d i 3 := by
        intro h0
        refine ⟨hA i _ hl (slot_of_lt ii hii) h0, ?_⟩
        intro e
        exact slot_of_ne_three ii (hU i _ i 3 hl hl (slot_of_lt ii hii) (by omega) h0 e).2
      obtain ⟨E, -⟩ := write_step_effect d i buf ii rem (woff + curr) off hii hN hneed ha hv hspill
      obtain ⟨I1, A1, U1⟩ := slot_effect_isolated d i ii _ E hii hA hU hl
      have hfr : free_blocks (write_step d i buf ii rem (woff + curr) off) + step_need d i ii =
          free_blocks d := E.free
      have hkeep : ii < 3 ∨ 0 ≤ (d.iptr i).indirect_dptr →
          ((write_step d i buf ii rem (woff + curr) off).iptr i).indirect_dptr =
            (d.iptr i).indirect_dptr := by
        intro h
        have := E.ind_keep h
        rw [slot_val_three, slot_val_three] at this
        exact this
      have hnew : 3 ≤ ii → (d.iptr i).indirect_dptr < 0 →
          0 ≤ ((write_step d i buf ii rem (woff + curr) off).iptr i).indirect_dptr := by
        intro h1 h2
        have := (E.ind_new h1 h2).1
        rw [slot_val_three] at this
        exact this
      have hs1 : (write_step d i buf ii rem (woff + curr) off).sblock = d.sblock := E.sblock_eq
      have hl1 : live (write_step d i buf ii rem (woff + curr) off) i :=
        (live_congr d _ E.sblock_eq E.imap_eq i).mpr hl
      generalize write_step d i buf ii rem (woff + curr) off = d1 at I1 A1 U1 hfr hkeep hnew hs1 hl1 ⊢
      have he2 : ii + 1 + (rem - min rem 4096 + 4095) / 4096 = ii + (rem + 4095) / 4096 := by
        omega
      have hbudget : (rem - min rem 4096 + 4095) / 4096 +
          (if 3 < ii + 1 + (rem - min rem 4096 + 4095) / 4096 ∧ (d1.iptr i).indirect_dptr < 0
            then 1 else 0) ≤ free_blocks d1 := by
        rw [he2]
        by_cases hc : 3 ≤ ii ∧ (d.iptr i).indirect_dptr < 0
        · have := hnew hc.1 hc.2
          rw [if_pos hc] at hle
          have h3 : 3 < ii + (rem + 4095) / 4096 := by omega
          rw [if_pos ⟨h3, hc.2⟩] at hfree
          rw [if_neg (by omega)]
          omega
        · have hk := hkeep (by omega)
          rw [if_neg hc] at hle
          rw [hk]
          split_ifs at hfree ⊢ <;> omega
      obtain ⟨I2, A2, U2⟩ := ih d1 (ii + 1) (min rem 4096) rem (woff + curr) 0
        (rem - min rem 4096) rfl (by omega) (by omega) (by omega) (by rw [hs1]; exact hN)
        hbudget A1 U1 hl1
      exact ⟨isolated_trans I1 I2, A2, U2⟩

/-- The disk `disk_write` returns once the path resolves: all but the size and the times of
the file is as `__write_data` leaves it. -/
theorem disk_write_refs (d : Disk) (P : List Nat) (i : Int) (buf : Nat → Nat)
    (size offset : Nat) (tt : Int) (hres : __find_ino d P = some i) (hi : 0 ≤ i) :
    ∃ dw, disk_write d P buf size offset tt = some (to_int size, dw) ∧
      dw.sblock = (__write_data d i buf size offset).sblock ∧
      dw.imap = (__write_data d i buf size offset).imap ∧
      dw.dmap = (__write_data d i buf size offset).dmap ∧
      dw.dptr = (__write_data d i buf size offset).dptr ∧
      (∀ j, j ≠ i → dw.iptr j = (__write_data d i buf size offset).iptr j) ∧
      (dw.iptr i).dnum = ((__write_data d i buf size offset).iptr i).dnum ∧
      (dw.iptr i).dptrs0 = ((__write_data d i buf size offset).iptr i).dptrs0 ∧
      (dw.iptr i).dptrs1 = ((__write_data d i buf size offset).iptr i).dptrs1 ∧
      (dw.iptr i).dptrs2 = ((__write_data d i buf size offset).iptr i).dptrs2 ∧
      (dw.iptr i).indirect_dptr = ((__write_data d i buf size offset).iptr i).indirect_dptr := by
  have hex : __exists_inode d P = some true := by simp [__exists_inode, hres, hi]
  unfold disk_write
  rw [hex]
  simp only [and_then_some, Bool.not_true, Bool.false_eq_true, if_false, __get_inode, hres,
    Option.map_some']
  refine ⟨_, rfl, rfl, rfl, rfl, rfl, ?_, ?_, ?_, ?_, ?_, ?_⟩
  · intro j hj; simp [Disk.set_inode, hj]
  all_goals simp [Disk.set_inode]

/-! ## Lemmas: the dense prefix -/

theorem slot_val_no_indirect (d : Disk) (j : Int) (s : Nat)
    (h : (d.iptr j).indirect_dptr = -1) (h0 : 0 ≤ slot_val d j s) :
    s < 3 ∧ slot_val d j s = (d.iptr j).dptrs s := by
  unfold slot_val at h0 ⊢
  rw [h] at h0 ⊢
  by_cases e : s < 3
  · rw [if_pos e]
    exact ⟨e, rfl⟩
  · exfalso
    simp only [e, if_false] at h0
    split_ifs at h0 <;> omega

/-- The live inodes of the image with `/a` and `/b` are 0, 1 and 2. -/
theorem image_ab_hello_live (j : Int) (h : live image_ab_hello j) : j = 0 ∨ j = 1 ∨ j = 2 := by
  obtain ⟨h0, -, h2⟩ := h
  obtain ⟨q, rfl⟩ := Int.eq_ofNat_of_zero_le h0
  simp only [Int.toNat_ofNat] at h2
  have hq : q < 3 := by
    by_contra hc
    rw [bmap_isfree_eq] at h2
    have e : image_ab_hello.imap = fun w => if w = 0 then 7 else 0 := rfl
    rw [e] at h2
    by_cases h8 : q < 8
    · interval_cases q
      all_goals exact absurd h2 (by decide)
    · have : q / 8 ≠ 0 := by omega
      simp [this] at h2
  interval_cases q <;> simp

/-- On the image with `/a` and `/b`, the only reference of a live inode `j` is its direct slot
0, which holds block `j`. -/
theorem image_ab_hello_slots (j : Int) (s : Nat) (h : live image_ab_hello j)
    (h0 : 0 ≤ slot_val image_ab_hello j s) : s = 0 ∧ slot_val image_ab_hello j s = j := by
  rcases image_ab_hello_live j h with rfl | rfl | rfl
  · obtain ⟨h1, h2⟩ := slot_val_no_indirect image_ab_hello 0 s (by decide!) h0
    rw [h2] at h0 ⊢
    interval_cases s
    · exact ⟨rfl, by decide!⟩
    · exact absurd h0 (by decide!)
    · exact absurd h0 (by decide!)
  · obtain ⟨h1, h2⟩ := slot_val_no_indirect image_ab_hello 1 s (by decide!) h0
    rw [h2] at h0 ⊢
    interval_cases s
    · exact ⟨rfl, by decide!⟩
    · exact absurd h0 (by decide!)
    · exact absurd h0 (by decide!)
  · obtain ⟨h1, h2⟩ := slot_val_no_indirect image_ab_hello 2 s (by decide!) h0
    rw [h2] at h0 ⊢
    interval_cases s
    · exact ⟨rfl, by decide!⟩
    · exact absurd h0 (by decide!)
    · exact absurd h0 (by decide!)

theorem image_ab_hello_allocated : refs_allocated image_ab_hello := by
  intro j s hl _ h0
  obtain ⟨-, h2⟩ := image_ab_hello_slots j s hl h0
  rw [h2]
  rcases image_ab_hello_live j hl with rfl | rfl | rfl
  · exact ⟨by decide, by decide!⟩
  · exact ⟨by decide, by decide!⟩
  · exact ⟨by decide, by decide!⟩

theorem image_ab_hello_unique : refs_unique image_ab_hello := by
  intro j s j' s' hl hl' _ _ h0 he
  obtain ⟨h1, h2⟩ := image_ab_hello_slots j s hl h0
  obtain ⟨h1', h2'⟩ := image_ab_hello_slots j' s' hl' (by rw [← he]; exact h0)
  rw [h2, h2'] at he
  exact ⟨he, by rw [h1, h1']⟩

/-! ## Lemmas: the loops of directory.c -/

/-- C21 fails on the code: on the image where `/a` has 250 blocks (size 1024000, indirect
block 4) and every one of the 252 data blocks is allocated, `disk_write "/a"` of one byte at
offset 1024000 needs a new block (entry 247 of the indirect block is -1) and returns 1:
`dnum` goes from 250 to 251, the entry holds -1, the value `__get_free_dno` returned, and the
byte is copied to the address of block -1, 4096 bytes before the data region.  `__write_data`
uses the result of `__get_free_dno` without testing it. -/
theorem write_on_full_disk_returns_success :
    (disk_write image_full (str "/a") (fun _ => 65) 1 1024000 0).map (fun r =>
      (r.1, (r.2.iptr 1).dnum, get_int r.2.dptr (indirect_addr r.2 1 247), r.2.dptr (-4096))) =
      some (1, 251, -1, 65) ∧
    free_blocks image_full = 0 ∧ __find_ino image_full (str "/a") = some 1 ∧
    (image_full.iptr 1).dnum = 250 ∧ (image_full.iptr 1).indirect_dptr = 4 ∧
    get_int image_full.dptr (indirect_addr image_full 1 247) = -1 ∧
    image_full.dptr (-4096) = 0 := by
  decide!

/-- C23 fails on the code: on the image after `create_disk`, `disk_mkdir "/x"` (inode 1) and
`disk_mkdir "/y"` (inode 2), `disk_rename "/x" "/y/x"` returns 0; afterwards the root has no
entry `x`, directory `/y` holds the entry `x` for inode 1, the path `/y/x` resolves to the
directory inode 1, and slot 0 of inode 1 is still the entry `..` for inode 0, the root, not
for inode 2: `disk_rename` moves the entry and leaves the `..` entry of the moved directory as
it is. -/
theorem rename_keeps_old_parent_link :
    (disk_rename image_xy (str "/x") (str "/y/x") 0).map (fun r =>
      (r.1, dir_get_ino r.2 0 (str "x"), dir_get_ino r.2 2 (str "x"),
        get_int r.2.dptr (dentry_addr r.2 1 0 + 48))) = some (0, -1, 1, 0) ∧
    (disk_rename image_xy (str "/x") (str "/y/x") 0).map (fun r =>
      (__find_ino r.2 (str "/y/x"), __find_ino r.2 (str "/y"), is_dir (r.2.iptr 1),
        streq_mem r.2.dptr (dentry_addr r.2 1 0) (str ".."))) =
      some (some 1, some 2, true, true) ∧
    __find_ino image_xy (str "/x") = some 1 ∧ __find_ino image_xy (str "/y") = some 2 := by
  decide!

/-- C24 fails on the code: on the image where `/a` (inode 1) has block 1 and `/b` (inode 2) has
block 2, which starts with "hello", `disk_read "/a"` of 4096 bytes at offset 1 returns 4096
and leaves in `buf[4095]` the byte 104 (`h`), the first byte of block 2; `disk_write "/a"` of
4096 bytes 65 at offset 1 returns 4096 and leaves 65 in the first byte of block 2, with `dnum`
of `/a` still 1.  Both loops copy `min(left, 4096) = 4096` bytes from offset 1 of block 1 on,
one byte beyond the end of the block, where the claim says `min(4096, 4096 - 1)` bytes. -/
theorem copy_runs_past_the_block :
    (disk_read image_ab_hello (str "/a") (fun _ => 0) 4096 1 0).map (fun r =>
      (r.1, r.2.1 4095)) = some (4096, 104) ∧
    (disk_write image_ab_hello (str "/a") (fun _ => 65) 4096 1 0).map (fun r =>
      (r.1, r.2.dptr (disk_get_dblock 2), (r.2.iptr 1).dnum)) = some (4096, 65, 1) ∧
    image_ab_hello.dptr (disk_get_dblock 2) = 104 ∧
    (image_ab_hello.iptr 1).dptrs0 = 1 ∧ (image_ab_hello.iptr 1).dnum = 1 ∧
    (image_ab_hello.iptr 2).dptrs0 = 2 ∧
    __find_ino image_ab_hello (str "/a") = some 1 ∧
    __find_ino image_ab_hello (str "/b") = some 2 := by
  decide!

/-! ## C25: write isolation -/

/-- C25: write isolation for block-aligned writes.  Let every block referenced by a live inode
be allocated (`refs_allocated`) and no block be referenced twice by live inodes
(`refs_unique`), and let the path `P` resolve to the live inode `i`.  For every offset that is
a multiple of 4096 and every size with `offset + size ≤ (3 + 1024) * 4096`, when there is a
free block for every block written and one more if the file gets its indirect block,
`disk_write P buf size offset` returns `size` and leaves unchanged every byte of every block
referenced by another live inode, every field of every other inode, and the inode bitmap; and
afterwards still no block is referenced twice.  Moreover no byte changes outside the blocks
that were free and the blocks that `i` referenced. -/
theorem write_isolation (d : Disk) (P : List Nat) (i : Int) (buf : Nat → Nat)
    (size offset : Nat) (tt : Int)
    (hres : __find_ino d P = some i) (hl : live d i)
    (hA : refs_allocated d) (hU : refs_unique d)
    (hal : offset % 4096 = 0) (hmax : offset + size ≤ (3 + 1024) * 4096)
    (hN : d.sblock.dnum ≤ 2147483647)
    (hfree : (size + 4095) / 4096 +
      (if 3 < offset / 4096 + (size + 4095) / 4096 ∧ (d.iptr i).indirect_dptr < 0
        then 1 else 0) ≤ free_blocks d) :
    ∃ dw, disk_write d P buf size offset tt = some ((size : Int), dw) ∧
      (∀ j s, j ≠ i → live d j → s < 1028 → 0 ≤ slot_val d j s →
        ∀ x : Int, x / 4096 = slot_val d j s → dw.dptr x = d.dptr x) ∧
      (∀ j, j ≠ i → dw.iptr j = d.iptr j) ∧
      dw.imap = d.imap ∧
      refs_unique dw ∧
      (∀ x : Int, ¬ is_free d (x / 4096) → (∀ s, s < 1028 → slot_val d i s ≠ x / 4096) →
        dw.dptr x = d.dptr x) := by
  obtain ⟨dw, h1, k1, k2, -, k4, k5, -, k7, k8, k9, k10⟩ :=
    disk_write_refs d P i buf size offset tt hres hl.1
  rw [to_int_eq _ (by omega)] at h1
  have hwd : __write_data d i buf size offset =
      __write_data_loop i buf (size + 1) d (offset / 4096) 0 size 0 (offset % 4096) := rfl
  have hL := write_data_loop_isolated i buf (size + 1) d (offset / 4096) 0 size 0
    (offset % 4096) size rfl (by omega) (by omega) (by omega) hN hfree hA hU hl
  rw [← hwd] at hL
  generalize __write_data d i buf size offset = wd at hL k1 k2 k4 k5 k7 k8 k9 k10
  obtain ⟨I, -, U⟩ := hL
  have hsv : ∀ j s, slot_val dw j s = slot_val wd j s := by
    intro j s
    by_cases hj : j = i
    · rw [hj]; exact slot_val_same wd dw i k4 k7 k8 k9 k10 s
    · have e := k5 j hj
      exact slot_val_same wd dw j k4 (by rw [e]) (by rw [e]) (by rw [e]) (by rw [e]) s
  refine ⟨dw, h1, ?_, ?_, k2.trans I.imap_eq, ?_, ?_⟩
  · intro j s hj hlj hs h0 x hx
    rw [k4]
    apply I.frame x
    · rw [hx]; exact allocated_not_free (hA j s hlj hs h0)
    · intro s' hs' e
      rw [hx] at e
      exact hj (hU i s' j s hl hlj hs' hs (by rw [e]; exact h0) e).1.symm
  · intro j hj
    rw [k5 j hj]
    exact I.iptr_other j hj
  · intro j s j' s' hlj hlj' hs hs' h0 he
    rw [hsv, hsv] at he
    rw [hsv] at h0
    exact U j s j' s' ((live_congr wd dw k1 k2 j).mp hlj) ((live_congr wd dw k1 k2 j').mp hlj')
      hs hs' h0 he
  · intro x hx hs
    rw [k4]
    exact I.frame x hx hs

/-- C25 at a concrete input: on the image where `/a` (inode 1) has block 1 and `/b` (inode 2)
has block 2, which holds "hello", writing 16384 bytes at offset 0 to `/a` (four blocks, and a
new indirect block) returns 16384 and leaves block 2, inode 2 and the inode bitmap as they
were, and no block referenced twice. -/
theorem write_isolation_witness :
    __find_ino image_ab_hello (str "/a") = some 1 ∧ live image_ab_hello 1 ∧
    live image_ab_hello 2 ∧ slot_val image_ab_hello 2 0 = 2 ∧
    ∃ dw, disk_write image_ab_hello (str "/a") (fun _ => 65) 16384 0 0 = some (16384, dw) ∧
      (∀ x : Int, x / 4096 = 2 → dw.dptr x = image_ab_hello.dptr x) ∧
      dw.iptr 2 = image_ab_hello.iptr 2 ∧ dw.imap = image_ab_hello.imap ∧ refs_unique dw := by
  have hl1 : live image_ab_hello 1 := ⟨by decide, by decide!, by decide!⟩
  have hl2 : live image_ab_hello 2 := ⟨by decide, by decide!, by decide!⟩
  have hs : slot_val image_ab_hello 2 0 = 2 := by decide!
  obtain ⟨dw, h1, h2, h3, h4, h5, -⟩ :=
    write_isolation image_ab_hello (str "/a") 1 (fun _ => 65) 16384 0 0 (by decide!) hl1
      image_ab_hello_allocated image_ab_hello_unique (by decide) (by decide) (by decide!)
      (by decide!)
  refine ⟨by decide!, hl1, hl2, hs, dw, h1, ?_, h3 2 (by decide), h4, h5⟩
  intro x hx
  exact h2 2 0 (by decide) hl2 (by decide) (by rw [hs]; decide) x (by rw [hs]; exact hx)

/-! ## C26 and C27: errors and link counts -/

/-- C26 fails on the code: on the image holding the new regular file `/a` (inode 1, slot 1 of
the root), where no directory `/x` exists, `disk_rename "/a" "/x/b"` returns -ENOENT, and
afterwards the inode field of slot 1 of the root is -1 and `/a` does not resolve any more:
`disk_rename` deletes the old entry before it looks for the new parent directory. -/
theorem rename_error_after_entry_removed :
    (disk_rename image_file (str "/a") (str "/x/b") 0).map (fun r =>
      (r.1, __find_ino r.2 (str "/a"), get_int r.2.dptr (dentry_addr r.2 0 1 + 48))) =
      some (-ENOENT, some (-ENOENT), -1) ∧
    __find_ino image_file (str "/a") = some 1 ∧
    get_int image_file.dptr (dentry_addr image_file 0 1 + 48) = 1 ∧
    __find_ino image_file (str "/x/") = some (-ENOENT) := by
  decide!

/-- C27 fails on the code: on the image holding the new regular file `/a` (inode 1,
`nlink = 1`, its entry is slot 1 of the root), `disk_unlink "/a/a"` returns 0 and clears
inode-bitmap bit 1, while slot 1 of the root is still the entry `a` for inode 1: a directory
entry refers to an inode whose bit is clear.  `__find_ino` returns at the first token equal to
the name of the last component, so `/a/a` resolves to inode 1, and `dir_delete_inode` looks for
the entry in the block of the parent path `/a`, the file itself. -/
theorem unlink_frees_inode_with_entry :
    (disk_unlink image_file (str "/a/a") 0).map (fun r =>
      (r.1, bmap_isfree r.2.imap 1, get_int r.2.dptr (dentry_addr r.2 0 1 + 48),
        streq_mem r.2.dptr (dentry_addr r.2 0 1) (str "a"))) = some (0, true, 1, true) ∧
    (image_file.iptr 1).mode = FILE_MODE ∧ (image_file.iptr 1).nlink = 1 ∧
    bmap_isfree image_file.imap 1 = false := by
  decide!

/-! ## C28, C29 and C30: directory entries -/

/-- C28 fails on the code: on the image where slot 1 of the root is free and slot 2 is the
live entry `b` for inode 2, `dir_add_inode` of inode 1 under a name of 64 bytes `x` changes
slot 2: the first byte of its name goes from 98 (`b`) to 0 and `dir_get_ino "b"` returns -1
instead of 2, the inode field of slot 2 still being 2.  Likewise `disk_mknod` of the path `/`
followed by the 64 bytes returns 0 and afterwards `/b` does not resolve.  A slot has 64 bytes,
48 of them for the name; `dir_add_inode` copies the name with `strcpy`, whatever its
length. -/
theorem dir_add_long_name_changes_next_slot :
    (dir_add_inode image_b_only 0 1 (List.replicate 64 120)).map (fun r =>
      (r.dptr (dentry_addr r 0 2), dir_get_ino r 0 (str "b"),
        get_int r.dptr (dentry_addr r 0 2 + 48))) = some (0, -1, 2) ∧
    image_b_only.dptr (dentry_addr image_b_only 0 2) = 98 ∧
    dir_get_ino image_b_only 0 (str "b") = 2 ∧
    get_int image_b_only.dptr (dentry_addr image_b_only 0 0 + 48) = 0 ∧
    get_int image_b_only.dptr (dentry_addr image_b_only 0 1 + 48) = -1 ∧
    (disk_mknod image_b_only (47 :: List.replicate 64 120) FILE_MODE 0 0 0).map (fun r =>
      (r.1, __find_ino r.2 (str "/b"))) = some (0, some (-ENOENT)) ∧
    __find_ino image_b_only (str "/b") = some 2 := by
  decide!

/-- C29 fails on the code: on the image where directory `/a` (inode 1) has the free slot 1
that still holds the name `g` and the live entry `g` for inode 3 in slot 2,
`dir_get_ino(/a, "g")` returns -1 and the path `/a/g` does not resolve: the loop returns the
inode field of the first slot with the name, free or not. -/
theorem dir_get_ino_stops_at_stale_name :
    dir_get_ino image_stale 1 (str "g") = -1 ∧
    streq_mem image_stale.dptr (dentry_addr image_stale 1 1) (str "g") = true ∧
    get_int image_stale.dptr (dentry_addr image_stale 1 1 + 48) = -1 ∧
    streq_mem image_stale.dptr (dentry_addr image_stale 1 2) (str "g") = true ∧
    get_int image_stale.dptr (dentry_addr image_stale 1 2 + 48) = 3 ∧
    __find_ino image_stale (str "/a/g") = some (-ENOENT) := by
  decide!

/-- The loop of `__get_free_ino` stops at the first clear bit. -/
theorem get_free_ino_loop_first (d : Disk) (i : Nat) :
    ∀ n start, start ≤ i → i < start + n → bmap_isfree d.imap i = true →
      (∀ q, start ≤ q → q < i → bmap_isfree d.imap q = false) →
      __get_free_ino_loop d n start = ((i : Int), { d with imap := bmap_set d.imap i }) := by
  intro n
  induction n with
  | zero => intro start h1 h2; omega
  | succ n ih =>
    intro start h1 h2 hi hlow
    rw [__get_free_ino_loop]
    by_cases e : start = i
    · subst e
      rw [if_pos hi]
    · rw [hlow start (le_refl _) (by omega)]
      simp only [Bool.false_eq_true, if_false]
      exact ih (start + 1) (by omega) (by omega) hi (fun q h3 h4 => hlow q (by omega) h4)

/-- The loop of `__get_free_ino` over set bits returns -1 and the disk as it is. -/
theorem get_free_ino_loop_none (d : Disk) :
    ∀ n start, (∀ q, start ≤ q → q < start + n → bmap_isfree d.imap q = false) →
      __get_free_ino_loop d n start = (-1, d) := by
  intro n
  induction n with
  | zero => intro start _; rfl
  | succ n ih =>
    intro start h
    rw [__get_free_ino_loop, h start (le_refl _) (by omega)]
    simp only [Bool.false_eq_true, if_false]
    exact ih (start + 1) (fun q h1 h2 => h q (by omega) (by omega))

/-- The loop of `__get_free_dno` stops at the first clear bit. -/
theorem get_free_dno_loop_first (d : Disk) (i : Nat) :
    ∀ n start, start ≤ i → i < start + n → bmap_isfree d.dmap i = true →
      (∀ q, start ≤ q → q < i → bmap_isfree d.dmap q = false) →
      __get_free_dno_loop d n start = ((i : Int), { d with dmap := bmap_set d.dmap i }) := by
  intro n
  induction n with
  | zero => intro start h1 h2; omega
  | succ n ih =>
    intro start h1 h2 hi hlow
    rw [__get_free_dno_loop]
    by_cases e : start = i
    · subst e
      rw [if_pos hi]
    · rw [hlow start (le_refl _) (by omega)]
      simp only [Bool.false_eq_true, if_false]
      exact ih (start + 1) (by omega) (by omega) hi (fun q h3 h4 => hlow q (by omega) h4)

/-- The loop of `__get_free_dno` over set bits returns -1 and the disk as it is. -/
theorem get_free_dno_loop_none (d : Disk) :
    ∀ n start, (∀ q, start ≤ q → q < start + n → bmap_isfree d.dmap q = false) →
      __get_free_dno_loop d n start = (-1, d) := by
  intro n
  induction n with
  | zero => intro start _; rfl
  | succ n ih =>
    intro start h
    rw [__get_free_dno_loop, h start (le_refl _) (by omega)]
    simp only [Bool.false_eq_true, if_false]
    exact ih (start + 1) (fun q h1 h2 => h q (by omega) (by omega))

/-- A bitmap has a lowest clear bit below `count`, or every bit below `count` is set. -/
theorem first_clear_or_none (bm : Nat → Nat) (count : Nat) :
    (∃ i, i < count ∧ bmap_isfree bm i = true ∧ ∀ q, q < i → bmap_isfree bm q = false) ∨
      (∀ q, q < count → bmap_isfree bm q = false) := by
  by_cases h : ∃ i, i < count ∧ bmap_isfree bm i = true
  · left
    refine ⟨Nat.find h, (Nat.find_spec h).1, (Nat.find_spec h).2, ?_⟩
    intro q hq
    have := Nat.find_min h hq
    cases hc : bmap_isfree bm q with
    | false => rfl
    | true => exact absurd ⟨by have := (Nat.find_spec h).1; omega, hc⟩ this
  · right
    intro q hq
    cases hc : bmap_isfree bm q with
    | false => rfl
    | true => exact absurd ⟨q, hq, hc⟩ h

/-- The bytes `bmap_set` leaves alone. -/
theorem bmap_put_other_byte (b : Nat → Nat) (p v w : Nat) (h : w ≠ p / 8) :
    bmap_put b p v w = b w := by
  unfold bmap_put
  rw [if_neg h]

/-! ## Lemmas: bits of a byte -/

theorem byte_eq_of_testBit (x y : Nat) (hx : x < 256) (hy : y < 256)
    (h : ∀ j, j < 8 → x.testBit j = y.testBit j) : x = y := by
  apply Nat.eq_of_testBit_eq
  intro j
  by_cases hj : j < 8
  · exact h j hj
  · have hp : 256 ≤ 2 ^ j := by
      calc 256 = 2 ^ 8 := by norm_num
        _ ≤ 2 ^ j := Nat.pow_le_pow_right (by norm_num) (by omega)
    rw [Nat.testBit_lt_two_pow (by omega), Nat.testBit_lt_two_pow (by omega)]

theorem one_shift_testBit (k j : Nat) : (1 <<< k).testBit j = decide (k = j) := by
  rw [Nat.one_shiftLeft, Nat.testBit_two_pow]

theorem one_shift_lt (k : Nat) (hk : k < 8) : 1 <<< k < 256 := by
  interval_cases k <;> decide

theorem bit_shift_lt (v k : Nat) (hk : k < 8) : (v &&& 1) <<< k < 256 := by
  rw [Nat.and_one_is_mod]
  have hv : v % 2 = 0 ∨ v % 2 = 1 := by omega
  rcases hv with e | e <;> rw [e] <;> interval_cases k <;> decide

/-- The byte `bmap_put` stores is a byte. -/
theorem put_byte_lt (w v k : Nat) (hk : k < 8) :
    ((w % 256) &&& (255 ^^^ (1 <<< k))) ||| ((v &&& 1) <<< k) < 256 := by
  have h256 : (256 : Nat) = 2 ^ 8 := by norm_num
  rw [h256]
  apply Nat.or_lt_two_pow
  · rw [← h256]
    exact lt_of_le_of_lt Nat.and_le_left (Nat.mod_lt _ (by norm_num))
  · rw [← h256]
    exact bit_shift_lt v k hk

/-- Source `bmap_set` on a byte: OR with `1 << (pos % 8)`. -/
theorem bmap_set_byte (buf : Nat → Nat) (pos : Nat) (h : buf (pos / 8) < 256) :
    bmap_set buf pos (pos / 8) = buf (pos / 8) ||| (1 <<< (pos % 8)) := by
  have hk : pos % 8 < 8 := Nat.mod_lt _ (by norm_num)
  unfold bmap_set bmap_put
  rw [if_pos rfl]
  apply byte_eq_of_testBit _ _ (put_byte_lt _ _ _ hk)
  · have h256 : (256 : Nat) = 2 ^ 8 := by norm_num
    rw [h256]
    apply Nat.or_lt_two_pow
    · rw [← h256]; exact h
    · rw [← h256]; exact one_shift_lt _ hk
  · intro j hj
    rw [testBit_put _ _ _ _ hk hj, Nat.testBit_lor, one_shift_testBit]
    by_cases e : j = pos % 8
    · simp [e]
    · have e' : ¬ (pos % 8 = j) := fun x => e x.symm
      simp [e, e']

/-- Source `bmap_free` on a byte: AND with the complement of `1 << (pos % 8)`. -/
theorem bmap_clear_byte (buf : Nat → Nat) (pos : Nat) (h : buf (pos / 8) < 256) :
    bmap_put buf pos 0 (pos / 8) = buf (pos / 8) &&& (255 ^^^ (1 <<< (pos % 8))) := by
  unfold bmap_put
  rw [if_pos rfl, Nat.mod_eq_of_lt h]
  simp

/-- Source `bmap_put` twice with the same bit is `bmap_put` once. -/
theorem bmap_put_idem (b : Nat → Nat) (p v : Nat) :
    bmap_put (bmap_put b p v) p v = bmap_put b p v := by
  have hk : p % 8 < 8 := Nat.mod_lt _ (by norm_num)
  funext w
  by_cases hw : w = p / 8
  · subst hw
    have e : ∀ c : Nat → Nat, bmap_put c p v (p / 8) =
        ((c (p / 8) % 256) &&& (255 ^^^ (1 <<< (p % 8)))) ||| ((v &&& 1) <<< (p % 8)) := by
      intro c; unfold bmap_put; rw [if_pos rfl]
    rw [e (bmap_put b p v), e b]
    apply byte_eq_of_testBit _ _ (put_byte_lt _ _ _ hk) (put_byte_lt _ _ _ hk)
    intro j hj
    rw [testBit_put _ _ _ _ hk hj, testBit_put _ _ _ _ hk hj]
    by_cases ej : j = p % 8
    · simp [ej]
    · simp [ej]
  · rw [bmap_put_other_byte _ _ _ _ hw, bmap_put_other_byte _ _ _ _ hw]

/-- The bits after the loop of `bmap_init`. -/
theorem bmap_init_loop_spec (n : Nat) :
    ∀ (bm : Nat → Nat) (ii q : Nat),
      bmap_isfree (bmap_init_loop bm n ii) q =
        if ii ≤ q ∧ q < ii + n then true else bmap_isfree bm q := by
  induction n with
  | zero =>
    intro bm ii q
    rw [bmap_init_loop, if_neg (by omega)]
  | succ n ih =>
    intro bm ii q
    rw [bmap_init_loop, ih, bmap_isfree_clear]
    by_cases e : q = ii
    · subst e
      simp
    · by_cases h1 : ii + 1 ≤ q ∧ q < ii + 1 + n
      · rw [if_pos h1, if_pos (by omega)]
      · rw [if_neg h1, if_neg e, if_neg (by omega)]

/-! ## Lemmas: path splitting -/

/-- The tokens of a string without a slash: the string itself, after what was read. -/
theorem strtok_all_no_slash (suf : List Nat) (h : 47 ∉ suf) :
    ∀ cur, strtok_all suf cur = if cur.reverse ++ suf = [] then [] else [cur.reverse ++ suf] := by
  induction suf with
  | nil =>
    intro cur
    rw [strtok_all]
    by_cases e : cur = []
    · simp [e]
    · simp [e]
  | cons c cs ih =>
    intro cur
    have hc : c ≠ 47 := fun e => h (by simp [e])
    have hcs : 47 ∉ cs := fun e => h (List.mem_cons_of_mem _ e)
    rw [strtok_all, if_neg hc, ih hcs]
    simp

/-- The last token of a path is what follows its last slash. -/
theorem strtok_all_last (suf : List Nat) (h : 47 ∉ suf) (hne : suf ≠ []) :
    ∀ pre cur, (strtok_all (pre ++ 47 :: suf) cur).getLast? = some suf := by
  have hs : strtok_all suf [] = [suf] := by
    rw [strtok_all_no_slash suf h]
    simp [hne]
  intro pre
  induction pre with
  | nil =>
    intro cur
    rw [List.nil_append, strtok_all, if_pos rfl, hs]
    by_cases e : cur = []
    · simp [e]
    · simp [e]
  | cons c pre ih =>
    intro cur
    rw [List.cons_append, strtok_all]
    by_cases hc : c = 47
    · rw [if_pos hc]
      by_cases e : cur = []
      · rw [if_pos e]; exact ih []
      · rw [if_neg e]
        have := ih []
        cases hl : strtok_all (pre ++ 47 :: suf) [] with
        | nil => rw [hl] at this; simp at this
        | cons x xs =>
          rw [hl] at this
          rw [List.getLast?_cons_cons]
          exact this
    · rw [if_neg hc]
      exact ih (c :: cur)

/-- A string with a slash splits at its last slash. -/
theorem split_last_slash (l : List Nat) (h : 47 ∈ l) :
    ∃ pre suf, l = pre ++ 47 :: suf ∧ 47 ∉ suf := by
  induction l with
  | nil => simp at h
  | cons c cs ih =>
    by_cases hcs : 47 ∈ cs
    · obtain ⟨pre, suf, e, hs⟩ := ih hcs
      exact ⟨c :: pre, suf, by rw [e]; rfl, hs⟩
    · have hc : c = 47 := by
        rcases List.mem_cons.mp h with e | e
        · exact e.symm
        · exact absurd e hcs
      exact ⟨[], cs, by rw [hc]; rfl, hcs⟩

/-! ## C31, C32 and C33: the bitmaps -/

/-- C31: first-fit allocation.  For every disk, `__get_free_ino` either returns the smallest
index `i` below `sblock.inum` whose bit of the inode bitmap is clear and leaves the disk as
it was but for the inode bitmap, in which bit `i` is set, every other bit is as before and
every byte but byte `i / 8` is as before; or every bit below `sblock.inum` is set and it
returns -1 and the disk unchanged.  The same holds for `__get_free_dno`, the data bitmap and
`sblock.dnum`. -/
theorem first_fit_allocation (d : Disk) :
    ((∃ i : Nat, (i : Int) < d.sblock.inum ∧ bmap_isfree d.imap i = true ∧
        (∀ q, q < i → bmap_isfree d.imap q = false) ∧
        __get_free_ino d = ((i : Int), { d with imap := bmap_set d.imap i }) ∧
        bmap_isfree (bmap_set d.imap i) i = false ∧
        (∀ q, q ≠ i → bmap_isfree (bmap_set d.imap i) q = bmap_isfree d.imap q) ∧
        (∀ w, w ≠ i / 8 → bmap_set d.imap i w = d.imap w)) ∨
      ((∀ q : Nat, (q : Int) < d.sblock.inum → bmap_isfree d.imap q = false) ∧
        __get_free_ino d = (-1, d))) ∧
    ((∃ i : Nat, (i : Int) < d.sblock.dnum ∧ bmap_isfree d.dmap i = true ∧
        (∀ q, q < i → bmap_isfree d.dmap q = false) ∧
        __get_free_dno d = ((i : Int), { d with dmap := bmap_set d.dmap i }) ∧
        bmap_isfree (bmap_set d.dmap i) i = false ∧
        (∀ q, q ≠ i → bmap_isfree (bmap_set d.dmap i) q = bmap_isfree d.dmap q) ∧
        (∀ w, w ≠ i / 8 → bmap_set d.dmap i w = d.dmap w)) ∨
      ((∀ q : Nat, (q : Int) < d.sblock.dnum → bmap_isfree d.dmap q = false) ∧
        __get_free_dno d = (-1, d))) := by
  constructor
  · rcases first_clear_or_none d.imap d.sblock.inum.toNat with ⟨i, h1, h2, h3⟩ | h
    · left
      refine ⟨i, by omega, h2, h3, ?_, ?_, ?_, ?_⟩
      · exact get_free_ino_loop_first d i _ 0 (Nat.zero_le _) (by omega) h2
          (fun q _ hq => h3 q hq)
      · rw [bmap_isfree_set, if_pos rfl]
      · intro q hq
        rw [bmap_isfree_set, if_neg hq]
      · intro w hw
        exact bmap_put_other_byte _ _ _ _ hw
    · right
      refine ⟨fun q hq => h q (by omega), ?_⟩
      exact get_free_ino_loop_none d _ 0 (fun q _ hq => h q (by omega))
  · rcases first_clear_or_none d.dmap d.sblock.dnum.toNat with ⟨i, h1, h2, h3⟩ | h
    · left
      refine ⟨i, by omega, h2, h3, ?_, ?_, ?_, ?_⟩
      · exact get_free_dno_loop_first d i _ 0 (Nat.zero_le _) (by omega) h2
          (fun q _ hq => h3 q hq)
      · rw [bmap_isfree_set, if_pos rfl]
      · intro q hq
        rw [bmap_isfree_set, if_neg hq]
      · intro w hw
        exact bmap_put_other_byte _ _ _ _ hw
    · right
      refine ⟨fun q hq => h q (by omega), ?_⟩
      exact get_free_dno_loop_none d _ 0 (fun q _ hq => h q (by omega))

/-- C32: the bit order of a bitmap is LSB-first.  For every buffer of bytes and every
position `pos ≥ 0`, with `b` the byte `pos / 8` of the buffer (a value below 256):
`bmap_set` replaces `b` by `b OR (1 << (pos % 8))`, `bmap_free` replaces it by
`b AND NOT (1 << (pos % 8))` (the complement taken in the byte: `255 XOR (1 << (pos % 8))`),
neither changes another byte, and `bmap_isfree` is true exactly when bit `pos % 8` of `b`,
counted from the least significant bit, is 0. -/
theorem bitmap_bit_order (buf : Nat → Nat) (pos : Nat) (hbyte : buf (pos / 8) < 256) :
    bmap_set buf pos (pos / 8) = buf (pos / 8) ||| (1 <<< (pos % 8)) ∧
    (∀ w, w ≠ pos / 8 → bmap_set buf pos w = buf w) ∧
    (∃ b', bmap_free buf (pos : Int) = some b' ∧
      b' (pos / 8) = buf (pos / 8) &&& (255 ^^^ (1 <<< (pos % 8))) ∧
      ∀ w, w ≠ pos / 8 → b' w = buf w) ∧
    (bmap_isfree buf pos = true ↔ (buf (pos / 8)).testBit (pos % 8) = false) ∧
    (bmap_isfree buf pos = true ↔ buf (pos / 8) / 2 ^ (pos % 8) % 2 = 0) := by
  refine ⟨bmap_set_byte buf pos hbyte, fun w hw => bmap_put_other_byte _ _ _ _ hw, ?_, ?_, ?_⟩
  · refine ⟨bmap_put buf pos 0, ?_, bmap_clear_byte buf pos hbyte,
      fun w hw => bmap_put_other_byte _ _ _ _ hw⟩
    unfold bmap_free
    rw [if_pos (by omega)]
    simp
  · rw [bmap_isfree_eq]
    cases (buf (pos / 8)).testBit (pos % 8) <;> simp
  · unfold bmap_isfree bmap_get
    rw [Nat.and_one_is_mod, Nat.shiftRight_eq_div_pow]
    simp

/-- C32 at a concrete input: in a buffer whose byte 1 is 5 (bits 0 and 2), position 9 is
free and position 10 is not; `bmap_set` at 9 makes the byte 7 and `bmap_free` at 10 makes it
1. -/
theorem bitmap_bit_order_witness :
    bmap_set (fun w => if w = 1 then 5 else 0) 9 1 = 7 ∧
    (bmap_put (fun w => if w = 1 then 5 else 0) 10 0) 1 = 1 ∧
    bmap_isfree (fun w => if w = 1 then 5 else 0) 9 = true ∧
    bmap_isfree (fun w => if w = 1 then 5 else 0) 10 = false ∧
    bmap_set (fun w => if w = 1 then 5 else 0) 9 (9 / 8) =
      (fun w => if w = 1 then 5 else 0) (9 / 8) ||| (1 <<< (9 % 8)) :=
  ⟨by decide, by decide, by decide, by decide,
    (bitmap_bit_order (fun w => if w = 1 then 5 else 0) 9 (by decide)).1⟩

/-- C33: the laws of set, free and test.  For every buffer, positions `p`, `q` and size
`n > 0`: after `bmap_set` at `p` the bit `p` is not free, after `bmap_free` at `p` it is
free, and for `q ≠ p` the test at `q` gives the same as before either; `bmap_set` twice is
`bmap_set` once, and likewise `bmap_free`; `bmap_init(buf, n)` returns, afterwards every
position below `n` is free and the test at every position from `n` on gives the same as
before.  With `n ≤ 0` the `assert(size > 0)` of `bmap_init` stops the process. -/
theorem bitmap_laws (buf : Nat → Nat) (p q n : Nat) (hn : 0 < n) :
    bmap_isfree (bmap_set buf p) p = false ∧
    (q ≠ p → bmap_isfree (bmap_set buf p) q = bmap_isfree buf q) ∧
    bmap_set (bmap_set buf p) p = bmap_set buf p ∧
    (∃ b', bmap_free buf (p : Int) = some b' ∧ bmap_isfree b' p = true ∧
      (q ≠ p → bmap_isfree b' q = bmap_isfree buf q) ∧ bmap_free b' (p : Int) = some b') ∧
    (∃ b', bmap_init buf (n : Int) = some b' ∧ (q < n → bmap_isfree b' q = true) ∧
      (n ≤ q → bmap_isfree b' q = bmap_isfree buf q)) ∧
    (∀ m : Int, m ≤ 0 → bmap_init buf m = none) := by
  refine ⟨?_, ?_, bmap_put_idem buf p 1, ?_, ?_, ?_⟩
  · rw [bmap_isfree_set, if_pos rfl]
  · intro h
    rw [bmap_isfree_set, if_neg h]
  · have e : ∀ c : Nat → Nat, bmap_free c (p : Int) = some (bmap_put c p 0) := by
      intro c
      unfold bmap_free
      rw [if_pos (by omega)]
      simp
    refine ⟨bmap_put buf p 0, e buf, ?_, ?_, ?_⟩
    · rw [bmap_isfree_clear, if_pos rfl]
    · intro h
      rw [bmap_isfree_clear, if_neg h]
    · rw [e, bmap_put_idem]
  · refine ⟨bmap_init_loop buf n 0, ?_, ?_, ?_⟩
    · unfold bmap_init
      rw [if_pos (by omega)]
      simp
    · intro h
      rw [bmap_init_loop_spec, if_pos ⟨Nat.zero_le _, by omega⟩]
    · intro h
      rw [bmap_init_loop_spec, if_neg (by omega)]
  · intro m hm
    unfold bmap_init
    rw [if_neg (by omega)]

/-- C33 at a concrete input: in the buffer whose byte 0 is 255, after `bmap_init` with size
3 the positions 0, 1 and 2 are free and position 3 is still not free. -/
theorem bitmap_laws_witness :
    bmap_isfree (fun w => if w = 0 then 255 else 0) 2 = false ∧
    ∃ b', bmap_init (fun w => if w = 0 then 255 else 0) 3 = some b' ∧
      bmap_isfree b' 2 = true ∧ bmap_isfree b' 3 = false := by
  obtain ⟨-, -, -, -, ⟨b', h1, h2, -⟩, -⟩ :=
    bitmap_laws (fun w => if w = 0 then 255 else 0) 0 2 3 (by decide)
  obtain ⟨-, -, -, -, ⟨b'', k1, -, k3⟩, -⟩ :=
    bitmap_laws (fun w => if w = 0 then 255 else 0) 0 3 3 (by decide)
  have e : b'' = b' := by
    have : (3 : Int) = ((3 : Nat) : Int) := rfl
    rw [← this] at h1 k1
    rw [h1] at k1
    exact (Option.some.inj k1).symm
  subst e
  have : (3 : Int) = ((3 : Nat) : Int) := rfl
  refine ⟨by decide, b'', by rw [this]; exact h1, h2 (by decide), ?_⟩
  rw [k3 (le_refl _)]
  decide

/-! ## C34: path splitting -/

/-- C34: path splitting.  Every absolute path that does not end in `/` is `pre ++ "/" ++ suf`
with no `/` in `suf` and `suf` not empty; `__get_iname` returns `suf`, the substring after the
final `/`, `__parent_path` returns `pre ++ "/"`, the prefix up to and including the final `/`,
and the two concatenated are the path. -/
theorem path_splitting (path : List Nat) (habs : path.head? = some 47)
    (hend : path.getLast? ≠ some 47) :
    ∃ pre suf, path = pre ++ 47 :: suf ∧ 47 ∉ suf ∧ suf ≠ [] ∧
      __get_iname path = some suf ∧ __parent_path path = some (pre ++ [47]) ∧
      (pre ++ [47]) ++ suf = path := by
  have hmem : 47 ∈ path := by
    cases path with
    | nil => simp at habs
    | cons c cs =>
      simp only [List.head?_cons, Option.some.injEq] at habs
      rw [habs]
      exact List.mem_cons_self _ _
  obtain ⟨pre, suf, e, hs⟩ := split_last_slash path hmem
  have hne : suf ≠ [] := by
    intro h0
    apply hend
    rw [e, h0]
    simp
  have hi : __get_iname path = some suf := by
    unfold __get_iname
    rw [e]
    exact strtok_all_last suf hs hne pre []
  refine ⟨pre, suf, e, hs, hne, hi, ?_, ?_⟩
  · unfold __parent_path
    rw [hi, Option.map_some']
    congr 1
    rw [e]
    have hl : (pre ++ 47 :: suf).length - suf.length = (pre ++ [47]).length := by
      simp only [List.length_append, List.length_cons, List.length_nil]
      omega
    rw [hl]
    have : pre ++ 47 :: suf = (pre ++ [47]) ++ suf := by simp
    rw [this, List.take_left]
  · rw [e]; simp

/-- C34 at a concrete input: the path `/a/b` splits into the parent path `/a/` and the name
`b`. -/
theorem path_splitting_witness :
    __get_iname (str "/a/b") = some (str "b") ∧ __parent_path (str "/a/b") = some (str "/a/") ∧
    ∃ pre suf, str "/a/b" = pre ++ 47 :: suf ∧ 47 ∉ suf ∧ suf ≠ [] ∧
      __get_iname (str "/a/b") = some suf ∧ __parent_path (str "/a/b") = some (pre ++ [47]) ∧
      (pre ++ [47]) ++ suf = str "/a/b" :=
  ⟨by decide, by decide, path_splitting (str "/a/b") (by decide) (by decide)⟩

/-! ## C35 and C36: the layout of the image -/

/-- C35 (amended): the size of the bitmap regions.  For every uid, gid and time,
`create_disk` returns an image in which the inode bitmap has `div_up(inum, 4)` bytes, the
distance from the offset `imap` to the offset `dmap`, and the data bitmap has
`div_up(dnum, 4)` bytes, the distance from `dmap` to `iptr`; this is `ceil(count / 4)`, 63
bytes for the count 252, and not less than the `ceil(count / 8)` bytes the bits take. -/
theorem bitmap_region_size (uid gid tt : Int) :
    ∃ d, create_disk uid gid tt = some d ∧
      d.sblock.inum = __get_max_inum ONE_MB ∧ d.sblock.dnum = d.sblock.inum ∧
      div_up d.sblock.inum.toNat 4 = some ((d.sblock.inum.toNat + 3) / 4) ∧
      div_up d.sblock.dnum.toNat 4 = some ((d.sblock.dnum.toNat + 3) / 4) ∧
      d.sblock.dmap - d.sblock.imap = (((d.sblock.inum.toNat + 3) / 4 : Nat) : Int) ∧
      d.sblock.iptr - d.sblock.dmap = (((d.sblock.dnum.toNat + 3) / 4 : Nat) : Int) ∧
      (d.sblock.inum.toNat + 3) / 4 = 63 ∧
      (d.sblock.inum.toNat + 7) / 8 ≤ (d.sblock.inum.toNat + 3) / 4 := by
  obtain ⟨z1, -, z3, -⟩ := create_disk_zero
  cases h0 : create_disk 0 0 0 with
  | none => rw [h0] at z1; simp at z1
  | some d0 =>
    rw [h0] at z3
    simp only [Option.getD_some] at z3
    obtain ⟨d, hd, hs, -⟩ := create_disk_owner uid gid tt d0 h0
    refine ⟨d, hd, ?_⟩
    rw [hs, z3]
    decide!

/-- C35 as stated fails: in the image `create_disk` makes, with 252 inodes and 252 data
blocks, each bitmap region has 63 bytes (`div_up(252, 4)`), while `ceil(252 / 8)` rounded up
to a multiple of 4 is 32. -/
theorem bitmap_region_size_counterexample :
    (create_disk 0 0 0).map (fun d =>
      (d.sblock.inum, d.sblock.dmap - d.sblock.imap, d.sblock.dnum,
        d.sblock.iptr - d.sblock.dmap)) = some (252, 63, 252, 63) ∧
    div_up 252 4 = some 63 ∧ ((252 + 7) / 8 + 3) / 4 * 4 = 32 := by
  decide!

/-- C36: the layout of the image fits.  `__get_max_inum` of 1,048,576 is
`(1048576 * 4 - 48 * 4) / (56 * 4 + 4096 * 4 + 2) = 252`.  For every uid, gid and time,
`create_disk` returns an image with 252 inodes and 252 data blocks whose offsets satisfy:
the inode bitmap starts at the end of the superblock (48), `imap < dmap < iptr < dptr`, each
bitmap region, of the `div_up(252, 4) = 63` bytes reserved for it, ends where the next region
starts and has room for its 252 bits, the inode table of `252 * 56` bytes ends where the data
region starts, and the data region of `252 * 4096` bytes ends inside the image. -/
theorem image_layout_fits (uid gid tt : Int) :
    __get_max_inum ONE_MB = 252 ∧
    (1048576 * 4 - 48 * 4) / (56 * 4 + 4096 * 4 + 2) = 252 ∧
    ∃ d, create_disk uid gid tt = some d ∧
      d.sblock.inum = 252 ∧ d.sblock.dnum = 252 ∧
      d.sblock.imap = (SIZEOF_SUPERBLOCK : Int) ∧
      d.sblock.imap < d.sblock.dmap ∧ d.sblock.dmap < d.sblock.iptr ∧
      d.sblock.iptr < d.sblock.dptr ∧
      div_up 252 4 = some 63 ∧
      d.sblock.imap + 63 = d.sblock.dmap ∧ d.sblock.dmap + 63 = d.sblock.iptr ∧
      d.sblock.imap + (252 + 7) / 8 ≤ d.sblock.dmap ∧
      d.sblock.dmap + (252 + 7) / 8 ≤ d.sblock.iptr ∧
      d.sblock.iptr + 252 * (SIZEOF_INODE : Int) = d.sblock.dptr ∧
      d.sblock.dptr + 252 * (BLOCK_SIZE : Int) ≤ (ONE_MB : Int) := by
  refine ⟨by decide!, by decide, ?_⟩
  obtain ⟨z1, -, z3, -⟩ := create_disk_zero
  cases h0 : create_disk 0 0 0 with
  | none => rw [h0] at z1; simp at z1
  | some d0 =>
    rw [h0] at z3
    simp only [Option.getD_some] at z3
    obtain ⟨d, hd, hs, -⟩ := create_disk_owner uid gid tt d0 h0
    refine ⟨d, hd, ?_⟩
    rw [hs, z3]
    decide!

end Olfs
